import Mathlib

/-!
# Cowdin-3C UI firmware: display transport and command protocol

Shallow embedding of `firmware/src/display.c` (with the register accessors of
`firmware/src/hardware.h`) and proofs about the bus traffic it produces.

The C code talks to memory-mapped registers.  Here every register access is an
`Event` appended to the trace of a `World`; a `World` also carries a register
file (the value last written to each address) and the list of samples that the
serial peripheral will present on its hardware-driven flags.  A busy-wait loop
that never sees its flag returns `none`: the firmware hangs there.

Layout: the code (`hardware.h`, `display.c`), then the observations used to
state the properties (events of the bus, frames, the chip-select and mode-line
automata, the expected writes), then the lemmas and the theorems.  A theorem
about an operation has two parts: what every run that returns has put on the
bus, whatever the peripheral answered, and that the operation does return on a
peripheral that answers each busy-wait after finitely many polls (`polls_of`).
-/

namespace Cowdin

/-! ## hardware.h : peripheral base addresses -/

def PM_ADDR : Nat := 0x40000400
def SYSCTRL_ADDR : Nat := 0x40000800
def GCLK_ADDR : Nat := 0x40000C00
def PORT_ADDR : Nat := 0x41004400
def SERCOM0_ADDR : Nat := 0x42000800
def SERCOM1_ADDR : Nat := 0x42000C00
def SERCOM2_ADDR : Nat := 0x42001000
def SERCOM3_ADDR : Nat := 0x42001400
def SERCOM4_ADDR : Nat := 0x42001800
def SERCOM5_ADDR : Nat := 0x42001C00

/-! ## display.h / display.c : constants -/

def DISP_MODE_CMD : Nat := 0
def DISP_MODE_DATA : Nat := 1

/-- The macro `SPI_DISP` of display.c. -/
def SPI_DISP : Nat := SERCOM0_ADDR

/-- Conversion to `u8` / `unsigned char`. -/
def u8 (n : Nat) : Nat := n % 256

/-- Conversion to `u16`. -/
def u16 (n : Nat) : Nat := n % 65536

/-- Conversion to `u32` / `uint`. -/
def u32 (n : Nat) : Nat := n % 4294967296

/-! ## The bus and the peripheral -/

/-- One access to a memory-mapped register: width in bits, address, value. -/
inductive Event where
  | read (width reg value : Nat)
  | write (width reg value : Nat)
  deriving DecidableEq, Repr

/-- State of the machine as seen from the firmware. `regs` is the register file
(most recent write first), `polls` the successive samples the serial peripheral
presents on its hardware-driven flags, `trace` the register accesses so far,
oldest first. -/
structure World where
  regs : List (Nat × Nat)
  polls : List Nat
  trace : List Event
  deriving DecidableEq, Repr

/-- Value held by the register file at address `reg` (0 when never written). -/
def stored : List (Nat × Nat) → Nat → Nat
  | [], _ => 0
  | (a, v) :: rest, reg => if a = reg then v else stored rest reg

/-- Base addresses of the SERCOM instances. -/
def sercom_bases : List Nat :=
  [SERCOM0_ADDR, SERCOM1_ADDR, SERCOM2_ADDR, SERCOM3_ADDR, SERCOM4_ADDR, SERCOM5_ADDR]

/-- Address of a SERCOM INTFLAG register (offset 0x18): DRE is bit 0, TXC bit 1. -/
def is_intflag (reg : Nat) : Bool := sercom_bases.any (fun b => reg == b + 0x18)

/-- Address of a SERCOM CTRLA register (offset 0x00): SWRST is bit 0. -/
def is_ctrla (reg : Nat) : Bool := sercom_bases.any (fun b => reg == b + 0x00)

/-- Record a read of `reg` that returned `v`. -/
def log_read (width reg v : Nat) (w : World) : World :=
  { w with trace := w.trace ++ [Event.read width reg v] }

/-- A volatile read. INTFLAG is driven by the peripheral: each read consumes the
next sample. CTRLA is a stored register whose SWRST bit, once written to 1, is
cleared by the peripheral when the reset is complete: while it is set each read
consumes a sample, and a sample with bit 0 clear ends the reset and leaves the
register at its reset value 0. Every other address reads back the register
file. With no sample left the peripheral never answers (`none`). -/
def hw_read (width reg : Nat) (w : World) : Option (Nat × World) :=
  if is_intflag reg then
    match w.polls with
    | [] => none
    | s :: rest =>
      some (s % 2 ^ width, log_read width reg (s % 2 ^ width) { w with polls := rest })
  else if is_ctrla reg ∧ stored w.regs reg % 2 = 1 then
    match w.polls with
    | [] => none
    | s :: rest =>
      if s % 2 = 1 then
        some (stored w.regs reg % 2 ^ width,
              log_read width reg (stored w.regs reg % 2 ^ width) { w with polls := rest })
      else
        some (0, log_read width reg 0 { w with regs := (reg, 0) :: w.regs, polls := rest })
  else
    some (stored w.regs reg % 2 ^ width, log_read width reg (stored w.regs reg % 2 ^ width) w)

/-- A volatile write: the value is truncated to the access width, stored and logged. -/
def hw_write (width reg value : Nat) (w : World) : World :=
  { w with regs := (reg, value % 2 ^ width) :: w.regs,
           trace := w.trace ++ [Event.write width reg (value % 2 ^ width)] }

/-! ## hardware.h : register accessors -/

def reg_rd (reg : Nat) (w : World) : Option (Nat × World) := hw_read 32 reg w

def reg8_rd (reg : Nat) (w : World) : Option (Nat × World) := hw_read 8 reg w

def reg16_rd (reg : Nat) (w : World) : Option (Nat × World) := hw_read 16 reg w

def reg_wr (reg value : Nat) (w : World) : World := hw_write 32 reg value w

def reg16_wr (reg value : Nat) (w : World) : World := hw_write 16 reg value w

def reg8_wr (reg value : Nat) (w : World) : World := hw_write 8 reg value w

/-- The read-modify-write `*reg = (*reg | value)`. -/
def reg_set (reg value : Nat) (w : World) : Option World :=
  match reg_rd reg w with
  | none => none
  | some (v, w1) => some (reg_wr reg (v ||| value) w1)

/-! ## display.c : SPI functions -/

/-- Sequencing of two steps: `k` runs on the world the first step reached; a
step that hangs (`none`) hangs the whole. -/
def next (r : Option World) (k : World → Option World) : Option World :=
  match r with
  | none => none
  | some w => k w

/-- Chip-select: a non-zero `state` drives CS low (start), zero releases it. -/
def spi_cs (state : Nat) (w : World) : World :=
  if state ≠ 0 then reg_wr (PORT_ADDR + 0x14) (1 <<< 6) w
  else reg_wr (PORT_ADDR + 0x18) (1 <<< 6) w

/-- The loop `while( reg_rd(SPI_DISP + 0x00) & 0x01) ;` of `spi_init`. -/
def spi_init_wait : Nat → World → Option World
  | 0, _ => none
  | fuel + 1, w =>
    match reg_rd (SPI_DISP + 0x00) w with
    | none => none
    | some (v, w1) => if v &&& 0x01 ≠ 0 then spi_init_wait fuel w1 else some w1

/-- Every iteration of the reset wait consumes one sample or ends the loop, so
`polls.length + 1` iterations always reach the end of the samples. -/
def spi_init (w : World) : Option World :=
  next (reg_set (PM_ADDR + 0x20) (1 <<< 2) w) fun w =>
  let w := reg16_wr (GCLK_ADDR + 0x02) ((1 <<< 14) ||| (1 <<< 8) ||| 0x14) w
  let w := reg_wr (SPI_DISP + 0x00) 0x01 w
  next (spi_init_wait (w.polls.length + 1) w) fun w =>
  let w := reg_wr (SPI_DISP + 0x00) ((0 <<< 28) ||| (3 <<< 20) ||| (3 <<< 2)) w
  let w := reg_wr (SPI_DISP + 0x04) (1 <<< 17) w
  let w := reg8_wr (SPI_DISP + 0x0C) 8 w
  reg_set (SPI_DISP + 0x00) (1 <<< 1) w

/-- The loop `while((reg8_rd(SPI_DISP + 0x18) & 2) == 0) ;` of `spi_wait`. -/
def spi_wait_loop : Nat → World → Option World
  | 0, _ => none
  | fuel + 1, w =>
    match reg8_rd (SPI_DISP + 0x18) w with
    | none => none
    | some (v, w1) => if v &&& 2 = 0 then spi_wait_loop fuel w1 else some w1

/-- Wait for the Transmit Complete flag. Every iteration consumes one sample,
so `polls.length + 1` iterations always suffice to reach the end of the
samples. -/
def spi_wait (w : World) : Option World :=
  spi_wait_loop (w.polls.length + 1) w

/-- The loop `while((reg8_rd(SPI_DISP + 0x18) & 1) == 0) ;` of `spi_wr`. -/
def spi_wr_loop : Nat → World → Option World
  | 0, _ => none
  | fuel + 1, w =>
    match reg8_rd (SPI_DISP + 0x18) w with
    | none => none
    | some (v, w1) => if v &&& 1 = 0 then spi_wr_loop fuel w1 else some w1

/-- Push one byte: wait for Data Register Empty, then write DATA. -/
def spi_wr (v : Nat) (w : World) : Option World :=
  next (spi_wr_loop (w.polls.length + 1) w) fun w =>
  some (reg16_wr (SPI_DISP + 0x28) (u8 v) w)

/-! ## display.c : private display functions -/

def disp_dc (mode : Nat) (w : World) : World :=
  if mode = DISP_MODE_CMD then reg_wr (PORT_ADDR + 0x14) (1 <<< 2) w
  else reg_wr (PORT_ADDR + 0x18) (1 <<< 2) w

/-- The loop `while(len) { spi_wr(*cmd); cmd++; len--; }` of `disp_cmd`; the
array `cmd` is a list, running past its end is outside the model. -/
def disp_cmd_loop : List Nat → Nat → World → Option World
  | _, 0, w => some w
  | [], _ + 1, _ => none
  | b :: cmd, len + 1, w =>
    next (spi_wr b w) fun w =>
    disp_cmd_loop cmd len w

def disp_cmd (cmd : List Nat) (len : Nat) (w : World) : Option World :=
  let w := disp_dc DISP_MODE_CMD w
  let w := spi_cs 1 w
  next (disp_cmd_loop cmd len w) fun w =>
  next (spi_wait w) fun w =>
  some (spi_cs 0 w)

/-! ## display.c : public display functions -/

def disp_pos (x y : Nat) (w : World) : Option World :=
  next (disp_cmd [0x20, 0x02] 2 w) fun w =>
  next (disp_cmd [u8 (u32 (0xB0 + y))] 1 w) fun w =>
  disp_cmd [0x21, u8 (u32 (x <<< 3)), 0x7F] 3 w

/-- Body of the page loop of `disp_clear` for page `p`. -/
def disp_clear_page (lines p : Nat) (w : World) : Option World :=
  if lines &&& (1 <<< p) = 0 then some w
  else
    next (disp_pos 0 p w) fun w =>
    let w := disp_dc DISP_MODE_DATA w
    let w := spi_cs 1 w
    next ((List.range 128).foldlM (fun w _ => spi_wr 0x00 w) w) fun w =>
    next (spi_wait w) fun w =>
    some (spi_cs 0 w)

def disp_clear (lines : Nat) (w : World) : Option World :=
  (List.range 8).foldlM (fun w p => disp_clear_page lines p w) w

/-- The index `c - 0x20` computed by `disp_putc` (an `int`). -/
def glyph_index (c : Nat) : Int := (c : Int) - 0x20

/-- The table `font` of display_font.h is a parameter: `font index i` is the
byte read by `font[index][i]`. -/
def disp_putc (font : Int → Nat → Nat) (c : Nat) (w : World) : Option World :=
  if c &&& 0x80 ≠ 0 then some w
  else
    let w := disp_dc DISP_MODE_DATA w
    let index := glyph_index c
    let w := spi_cs 1 w
    next ((List.range 8).foldlM (fun w i => spi_wr (font index i) w) w) fun w =>
    next (spi_wait w) fun w =>
    some (spi_cs 0 w)

/-- The string is the list of bytes found at `s`; the loop stops at the first
NUL, and a list without NUL is outside the model. -/
def disp_puts (font : Int → Nat → Nat) : List Nat → World → Option World
  | [], _ => none
  | c :: s, w =>
    if c = 0 then some w
    else
      next (disp_putc font c w) fun w =>
      disp_puts font s w

def disp_test (type : Int) (w : World) : Option World :=
  if type = 0 then
    let w := spi_cs 1 w
    next ((List.range 128).foldlM (fun w i => spi_wr i w) w) fun w =>
    next (spi_wait w) fun w =>
    some (spi_cs 0 w)
  else some w

def disp_init (w : World) : Option World :=
  next (spi_init w) fun w =>
  next (disp_cmd [0xAE] 1 (reg_wr (0x60000000 + 0x18) (1 <<< 3) w)) fun w =>
  next (disp_cmd [0xD5, 0x80] 2 w) fun w =>
  next (disp_cmd [0xA8, 0x3F] 2 w) fun w =>
  next (disp_cmd [0xD3, 0x00] 2 w) fun w =>
  next (disp_cmd [0x40] 1 w) fun w =>
  next (disp_cmd [0x8D, 0x14] 2 w) fun w =>
  next (disp_cmd [0xA0] 1 w) fun w =>
  next (disp_cmd [0xC0] 1 w) fun w =>
  next (disp_cmd [0xDA, 0o22] 2 w) fun w =>
  next (disp_cmd [0x81, 0xCF] 2 w) fun w =>
  next (disp_cmd [0xD9, 0xF1] 2 w) fun w =>
  next (disp_cmd [0xDB, 0x40] 2 w) fun w =>
  next (disp_cmd [0xA4] 1 w) fun w =>
  next (disp_clear 0xFF w) fun w =>
  next (disp_cmd [0x20, 0x02] 2 w) fun w =>
  disp_cmd [0xAF] 1 w

/-! ## uart.h / uart.c -/

/-- The macro `UART_DBG` of uart.h. -/
def UART_DBG : Nat := SERCOM0_ADDR

/-- The macro `UART_SYS` of uart.h. -/
def UART_SYS : Nat := SERCOM3_ADDR

/-- The table `hex` of uart.c: the character codes of "0123456789ABCDEF". -/
def hex : List Nat :=
  [0x30, 0x31, 0x32, 0x33, 0x34, 0x35, 0x36, 0x37, 0x38, 0x39, 0x41, 0x42, 0x43, 0x44, 0x45,
   0x46]

/-- The loop `while( reg_rd(UART_DBG + 0x00) & 0x01) ;` of `uart_init_dbg`. -/
def uart_init_dbg_wait : Nat → World → Option World
  | 0, _ => none
  | fuel + 1, w =>
    match reg_rd (UART_DBG + 0x00) w with
    | none => none
    | some (v, w1) => if v &&& 0x01 ≠ 0 then uart_init_dbg_wait fuel w1 else some w1

/-- The macro `CONF_BAUD_RATE` is a floating-point constant expression; its
value converted to `u32` is the parameter `conf_baud_rate`. -/
def uart_init_dbg (conf_baud_rate : Nat) (w : World) : Option World :=
  next (reg_set (PM_ADDR + 0x20) (1 <<< 4) w) fun w =>
  let w := reg16_wr (GCLK_ADDR + 0x02) ((1 <<< 14) ||| (1 <<< 8) ||| 0x16) w
  let w := reg_wr (UART_DBG + 0x00) 0x01 w
  next (uart_init_dbg_wait (w.polls.length + 1) w) fun w =>
  let w := reg_wr (UART_DBG + 0x00) 0x40100004 w
  let w := reg_wr (UART_DBG + 0x04) 0x00030000 w
  let w := reg_wr (UART_DBG + 0x0C) conf_baud_rate w
  reg_set (UART_DBG + 0x00) (1 <<< 1) w

/-- The loop `while ( (reg_rd(UART_DBG + 0x18) & 0x01) == 0) ;` of `uart_putc`. -/
def uart_putc_loop : Nat → World → Option World
  | 0, _ => none
  | fuel + 1, w =>
    match reg_rd (UART_DBG + 0x18) w with
    | none => none
    | some (v, w1) => if v &&& 0x01 = 0 then uart_putc_loop fuel w1 else some w1

/-- Send one byte: wait for Data Register Empty, then write DATA. -/
def uart_putc (c : Nat) (w : World) : Option World :=
  next (uart_putc_loop (w.polls.length + 1) w) fun w =>
  some (reg_wr (UART_DBG + 0x28) (u8 c) w)

/-- The string is the list of bytes found at `s`, as for `disp_puts`. -/
def uart_puts : List Nat → World → Option World
  | [], _ => none
  | c :: s, w =>
    if c = 0 then some w
    else
      next (uart_putc c w) fun w =>
      uart_puts s w

/-- Element `i` of `hex`; the callers index it with a value masked by `0xF`. -/
def hex_at (i : Nat) : Nat := hex.getD i 0

def uart_puthex8 (c : Nat) (w : World) : Option World :=
  next (uart_putc (hex_at ((c >>> 4) &&& 0xF)) w) fun w =>
  uart_putc (hex_at (c &&& 0xF)) w

def uart_puthex16 (c : Nat) (w : World) : Option World :=
  next (uart_puthex8 (u8 (c >>> 8)) w) fun w =>
  uart_puthex8 (u8 (c >>> 0)) w

def uart_puthex (c : Nat) (w : World) : Option World :=
  next (uart_puthex8 (u8 (c >>> 24)) w) fun w =>
  next (uart_puthex8 (u8 (c >>> 16)) w) fun w =>
  next (uart_puthex8 (u8 (c >>> 8)) w) fun w =>
  uart_puthex8 (u8 (c >>> 0)) w

/-! ## hardware.c : clock tree -/

def NVM_ADDR : Nat := 0x41004000

/-- Sequencing after a read: `k` receives the value read. -/
def next_rd (r : Option (Nat × World)) (k : Nat → World → Option World) : Option World :=
  match r with
  | none => none
  | some (v, w) => k v w

/-- The waits `while( ! (reg_rd(SYSCTRL_ADDR + 0x0C) & mask)) ;` and
`while((reg_rd(SYSCTRL_ADDR + 0x0C) & mask) == 0) ;` of `hw_init_clock`. The
status register is read from the register file, which no read changes: the
wait ends at its first read or never. -/
def hw_wait_flag (mask : Nat) : Nat → World → Option World
  | 0, _ => none
  | fuel + 1, w =>
    match reg_rd (SYSCTRL_ADDR + 0x0C) w with
    | none => none
    | some (v, w1) => if v &&& mask = 0 then hw_wait_flag mask fuel w1 else some w1

/-- The wait `while((reg_rd(SYSCTRL_ADDR + 0X0C) & wait_mask) != wait_mask) ;`. -/
def hw_wait_mask (wait_mask : Nat) : Nat → World → Option World
  | 0, _ => none
  | fuel + 1, w =>
    match reg_rd (SYSCTRL_ADDR + 0x0C) w with
    | none => none
    | some (v, w1) =>
      if v &&& wait_mask ≠ wait_mask then hw_wait_mask wait_mask fuel w1 else some w1

/-- The wait `while (reg8_rd(GCLK_ADDR + 0x01) & 0x80) ;`. -/
def hw_wait_sync : Nat → World → Option World
  | 0, _ => none
  | fuel + 1, w =>
    match reg8_rd (GCLK_ADDR + 0x01) w with
    | none => none
    | some (v, w1) => if v &&& 0x80 ≠ 0 then hw_wait_sync fuel w1 else some w1

/-- The load `*(u32 *)0x00806024` is not volatile: it is read from the register
file without an event. -/
def hw_init_clock (w : World) : Option World :=
  next_rd (reg_rd (SYSCTRL_ADDR + 0x20) w) fun v w =>
  let v := v &&& 0xFFFFFC3F
  let w := reg_wr (SYSCTRL_ADDR + 0x20) v w
  next (hw_wait_flag 0x08 (w.polls.length + 1) w) fun w =>
  next_rd (reg_rd 0x00806024 w) fun c w =>
  let v := u32 (((c >>> 6) &&& 0x7F) <<< 16)
  let v := v ||| (1 <<< 1)
  let v := v ||| (1 <<< 2)
  let w := reg_wr (SYSCTRL_ADDR + 0x18) v w
  next (hw_wait_flag 0x04 (w.polls.length + 1) w) fun w =>
  let w := reg_wr (GCLK_ADDR + 0x08) ((1 <<< 8) ||| 0x00) w
  let w := reg_wr (GCLK_ADDR + 0x04) ((1 <<< 16) ||| (0x06 <<< 8) ||| 0x00) w
  let w := reg_wr (GCLK_ADDR + 0x08) ((1 <<< 8) ||| 0x01) w
  let w := reg_wr (GCLK_ADDR + 0x04) ((1 <<< 16) ||| (0x06 <<< 8) ||| 0x01) w
  let w := reg_wr (GCLK_ADDR + 0x08) ((1 <<< 8) ||| 0x02) w
  let w := reg_wr (GCLK_ADDR + 0x04) ((0 <<< 16) ||| (0x06 <<< 8) ||| 0x02) w
  let w := reg_wr (GCLK_ADDR + 0x08) ((1 <<< 8) ||| 0x03) w
  let w := reg_wr (GCLK_ADDR + 0x04) ((0 <<< 16) ||| (0x06 <<< 8) ||| 0x03) w
  let w := reg_wr (GCLK_ADDR + 0x08) ((1 <<< 8) ||| 0x04) w
  let w := reg_wr (GCLK_ADDR + 0x04) ((0 <<< 16) ||| (0x06 <<< 8) ||| 0x04) w
  let w := reg_wr (GCLK_ADDR + 0x08) ((1 <<< 8) ||| 0x05) w
  let w := reg_wr (GCLK_ADDR + 0x04) ((1 <<< 16) ||| (0x04 <<< 8) ||| 0x05) w
  let w := reg_wr (GCLK_ADDR + 0x08) ((1 <<< 8) ||| 0x06) w
  let w := reg_wr (GCLK_ADDR + 0x04) ((0 <<< 16) ||| (0x06 <<< 8) ||| 0x06) w
  let w := reg_wr (GCLK_ADDR + 0x08) ((1 <<< 8) ||| 0x07) w
  let w := reg_wr (GCLK_ADDR + 0x04) ((1 <<< 16) ||| (0x07 <<< 8) ||| 0x07) w
  let w := reg_wr (GCLK_ADDR + 0x08) ((1 <<< 8) ||| 0x08) w
  let w := reg_wr (GCLK_ADDR + 0x04) ((0 <<< 16) ||| (0x06 <<< 8) ||| 0x08) w
  let w := reg16_wr (SYSCTRL_ADDR + 0x24) (1 <<< 1) w
  next (hw_wait_flag 0x00000010 (w.polls.length + 1) w) fun w =>
  let w := reg_wr (SYSCTRL_ADDR + 0x2c) ((1 <<< 20) ||| (1 <<< 16) ||| 0xBB80) w
  let dfll_coarse := (u32 (stored w.regs 0x00806024) >>> 26) &&& 0x3F
  let w := reg_wr (SYSCTRL_ADDR + 0x28) ((0x0000 <<< 16) ||| (dfll_coarse <<< 10) ||| 512) w
  let dfll_cfg := (1 <<< 10) ||| (1 <<< 9) ||| (1 <<< 5) ||| (1 <<< 2) ||| (1 <<< 1)
  let w := reg16_wr (SYSCTRL_ADDR + 0x24) dfll_cfg w
  next_rd (reg_rd (SYSCTRL_ADDR + 0x24) w) fun v w =>
  next (if v &&& 0x04 ≠ 0 then hw_wait_mask 0x10 (w.polls.length + 1) w
        else hw_wait_flag 0x10 (w.polls.length + 1) w) fun w =>
  next (hw_wait_sync (w.polls.length + 1) w) fun w =>
  let w := reg_wr (NVM_ADDR + 0x04) (1 <<< 1) w
  let w := reg_wr (GCLK_ADDR + 0x08) ((1 <<< 8) ||| 0x00) w
  some (reg_wr (GCLK_ADDR + 0x04) ((1 <<< 16) ||| (0x07 <<< 8) ||| 0x00) w)

/-! ## Observations on traces

Nothing below is code of the firmware: these definitions name the events of the
bus, replay a trace on the automata of the frame and mode-line disciplines, and
spell out the writes the properties expect. -/

/-- D/C pin driven low: command mode (`reg_wr(PORT_ADDR + 0x14, (1 << 2))`). -/
def DC_CMD : Event := Event.write 32 (PORT_ADDR + 0x14) 4

/-- D/C pin driven high: data mode (`reg_wr(PORT_ADDR + 0x18, (1 << 2))`). -/
def DC_DATA : Event := Event.write 32 (PORT_ADDR + 0x18) 4

/-- Chip-select asserted (`reg_wr(PORT_ADDR + 0x14, (1 << 6))`). -/
def CS_ON : Event := Event.write 32 (PORT_ADDR + 0x14) 64

/-- Chip-select released (`reg_wr(PORT_ADDR + 0x18, (1 << 6))`). -/
def CS_OFF : Event := Event.write 32 (PORT_ADDR + 0x18) 64

/-- One byte written to the transmit (DATA) register. -/
def TX (b : Nat) : Event := Event.write 16 (SPI_DISP + 0x28) b

/-- One 8-bit read of the status (INTFLAG) register that returned `v`. -/
def POLL (v : Nat) : Event := Event.read 8 (SPI_DISP + 0x18) v

def Event.is_write : Event → Bool
  | Event.write _ _ _ => true
  | Event.read _ _ _ => false

/-- The writes of a trace, in order. -/
def writes (t : List Event) : List Event := t.filter Event.is_write

/-- The byte carried by a write to the transmit register. -/
def tx_byte : Event → Option Nat
  | Event.write _ reg v => if reg = SPI_DISP + 0x28 then some v else none
  | Event.read _ _ _ => none

/-- The bytes written to the transmit register, in order. -/
def tx_bytes (t : List Event) : List Nat := t.filterMap tx_byte

/-- A status read that shows Transmit Complete (bit 1). -/
def txc_seen : Event → Bool
  | Event.read _ reg v => reg == SPI_DISP + 0x18 && v &&& 2 != 0
  | Event.write _ _ _ => false

/-- The writes of a frame: mode line, chip-select, the bytes, release. -/
def frame (mode : Event) (bytes : List Nat) : List Event :=
  mode :: CS_ON :: (bytes.map TX ++ [CS_OFF])

def cmd_frame (bytes : List Nat) : List Event := frame DC_CMD bytes

def data_frame (bytes : List Nat) : List Event := frame DC_DATA bytes

/-- Samples of a peripheral that answers the successive busy-waits after
`ds[0]`, `ds[1]`, ... polls: no flag during the wait, then DRE and TXC. -/
def polls_of (ds : List Nat) : List Nat :=
  ds.flatMap (fun d => List.replicate d 0 ++ [3])

/-- The busy-wait on a flag of INTFLAG, common shape of the loops of `spi_wr`
(mask 1) and `spi_wait` (mask 2). -/
def poll_loop (mask : Nat) : Nat → World → Option World
  | 0, _ => none
  | fuel + 1, w =>
    match reg8_rd (SPI_DISP + 0x18) w with
    | none => none
    | some (v, w1) => if v &&& mask = 0 then poll_loop mask fuel w1 else some w1

/-- State of the chip-select line while a trace is replayed. -/
inductive Line where
  | idle
  | busy (drained : Bool)
  deriving DecidableEq, Repr

/-- Frame discipline, one event at a time. Released: an assertion opens a frame;
a release or a byte for the transmit register is an error. Asserted: a second
assertion is an error, a release is accepted only right after a status read
that showed Transmit Complete, and `drained` records whether the current event
is such a read. -/
def line_step (l : Line) (e : Event) : Option Line :=
  match l with
  | Line.idle =>
    if e = CS_ON then some (Line.busy false)
    else if e = CS_OFF then none
    else if (tx_byte e).isSome then none
    else some Line.idle
  | Line.busy d =>
    if e = CS_ON then none
    else if e = CS_OFF then (if d then some Line.idle else none)
    else some (Line.busy (txc_seen e))

/-- Replay a trace from a state of the chip-select line. -/
def run (l : Line) (t : List Event) : Option Line := t.foldlM line_step l

/-- A trace is a sequence of well-formed frames. -/
def well_framed (t : List Event) : Prop := run Line.idle t = some Line.idle

instance (t : List Event) : Decidable (well_framed t) := by
  unfold well_framed; infer_instance

/-- Whenever `f` returns, it has appended to the trace events whose writes are
`wr` and that take the chip-select line from `s` to `s'` without error. -/
def Steps (f : World → Option World) (wr : List Event) (s s' : Line) : Prop :=
  ∀ w w', f w = some w' →
    ∃ evs, w'.trace = w.trace ++ evs ∧ writes evs = wr ∧ run s evs = some s'

/-- On a peripheral that answers every busy-wait, `f` returns after `n` of them. -/
def Answers (f : World → Option World) (n : Nat) : Prop :=
  ∀ w ds, w.polls = polls_of ds → n ≤ ds.length →
    ∃ w', f w = some w' ∧ w'.polls = polls_of (ds.drop n)

/-- The write that `disp_dc mode` performs. -/
def dc_event (mode : Nat) : Event := if mode = DISP_MODE_CMD then DC_CMD else DC_DATA

/-- The writes of `disp_pos x y`, with the bytes as the code computes them. -/
def pos_frames (x y : Nat) : List Event :=
  cmd_frame [0x20, 0x02] ++ (cmd_frame [u8 (u32 (0xB0 + y))] ++
    cmd_frame [0x21, u8 (u32 (x <<< 3)), 0x7F])

/-- The writes of one iteration of the page loop of `disp_clear`. -/
def page_frames (lines p : Nat) : List Event :=
  if lines &&& (1 <<< p) = 0 then []
  else pos_frames 0 p ++ data_frame (List.replicate 128 0)

/-- The writes of `disp_putc font c`. -/
def glyph_frames (font : Int → Nat → Nat) (c : Nat) : List Event :=
  if c &&& 0x80 ≠ 0 then []
  else data_frame ((List.range 8).map (fun i => u8 (font (glyph_index c) i)))

/-- The bytes sent while the mode line is in data mode; `m` tells whether the
line is in data mode when the trace starts. -/
def data_bytes : Bool → List Event → List Nat
  | _, [] => []
  | m, e :: t =>
    if e = DC_DATA then data_bytes true t
    else if e = DC_CMD then data_bytes false t
    else
      match tx_byte e with
      | some b => if m then b :: data_bytes m t else data_bytes m t
      | none => data_bytes m t

/-- The writes that clear page `p`: the three command frames that set the
address to column 0 of page `p`, then one data frame of 128 zero bytes. -/
def page_writes (p : Nat) : List Event :=
  cmd_frame [0x20, 0x02] ++ cmd_frame [0xB0 + p] ++ cmd_frame [0x21, 0, 0x7F] ++
    data_frame (List.replicate 128 0)

/-- The pages selected by a mask: the `p` in 0..7 whose bit `p` is set, ascending. -/
def selected_pages (lines : Nat) : List Nat :=
  (List.range 8).filter (fun p => lines.testBit p)

/-- The register accesses of `spi_init` when APBCMASK read `v0` and the reset
wait saw SWRST set `k` times before it read clear. -/
def spi_init_trace (v0 k : Nat) : List Event :=
  [Event.read 32 (PM_ADDR + 0x20) v0, Event.write 32 (PM_ADDR + 0x20) (v0 ||| 4),
   Event.write 16 (GCLK_ADDR + 0x02) 0x4114, Event.write 32 (SPI_DISP + 0x00) 0x01] ++
  List.replicate k (Event.read 32 (SPI_DISP + 0x00) 1) ++
  [Event.read 32 (SPI_DISP + 0x00) 0, Event.write 32 (SPI_DISP + 0x00) 0x0030000C,
   Event.write 32 (SPI_DISP + 0x04) 0x00020000, Event.write 8 (SPI_DISP + 0x0C) 8,
   Event.read 32 (SPI_DISP + 0x00) 0x0030000C, Event.write 32 (SPI_DISP + 0x00) 0x0030000E]

/-- The writes of a trace that fall in the register block of `SPI_DISP`
(0x400 bytes from the base address). -/
def peripheral_writes (t : List Event) : List Event :=
  t.filter (fun e =>
    match e with
    | Event.write _ reg _ => decide (SPI_DISP ≤ reg ∧ reg < SPI_DISP + 0x400)
    | Event.read _ _ _ => false)

/-- The characters of a C string: the bytes before the first NUL. -/
def c_string (s : List Nat) : List Nat := s.takeWhile (fun c => c != 0)

/-- The thirteen configuration commands of the controller, in the order of the
data sheet sequence: display off, clock, multiplex ratio, display offset, start
line, charge pump, segment remap, COM scan direction, COM pins, contrast,
pre-charge, VCOMH, entire-display-on disabled. -/
def init_cmds : List (List Nat) :=
  [[0xAE], [0xD5, 0x80], [0xA8, 0x3F], [0xD3, 0x00], [0x40], [0x8D, 0x14], [0xA0], [0xC0],
   [0xDA, 0x12], [0x81, 0xCF], [0xD9, 0xF1], [0xDB, 0x40], [0xA4]]

/-- The writes of the display part of `disp_init`: the configuration commands,
the clear of the eight pages, the addressing mode, Display On. -/
def init_writes : List Event :=
  init_cmds.flatMap cmd_frame ++ (selected_pages 0xFF).flatMap page_writes ++
    cmd_frame [0x20, 0x02] ++ cmd_frame [0xAF]

/-- The part of `disp_init` that follows `spi_init`. -/
def disp_init_tail (w : World) : Option World :=
  next (disp_cmd [0xAE] 1 (reg_wr (0x60000000 + 0x18) (1 <<< 3) w)) fun w =>
  next (disp_cmd [0xD5, 0x80] 2 w) fun w =>
  next (disp_cmd [0xA8, 0x3F] 2 w) fun w =>
  next (disp_cmd [0xD3, 0x00] 2 w) fun w =>
  next (disp_cmd [0x40] 1 w) fun w =>
  next (disp_cmd [0x8D, 0x14] 2 w) fun w =>
  next (disp_cmd [0xA0] 1 w) fun w =>
  next (disp_cmd [0xC0] 1 w) fun w =>
  next (disp_cmd [0xDA, 0o22] 2 w) fun w =>
  next (disp_cmd [0x81, 0xCF] 2 w) fun w =>
  next (disp_cmd [0xD9, 0xF1] 2 w) fun w =>
  next (disp_cmd [0xDB, 0x40] 2 w) fun w =>
  next (disp_cmd [0xA4] 1 w) fun w =>
  next (disp_clear 0xFF w) fun w =>
  next (disp_cmd [0x20, 0x02] 2 w) fun w =>
  disp_cmd [0xAF] 1 w

/-- Discipline of the mode line, with the frames it delimits. The state is the
mode written on the D/C line since the last frame (`dc`, `none` when it was not
written) and the frame in progress (`cur`: its mode and the bytes so far). The
result is `none` when the mode line is written while chip-select is asserted,
when chip-select is asserted without a mode written for this frame, when a
frame is nested or left open, or when a byte is sent outside a frame; otherwise
it lists the frames in order, each with the mode in force and its bytes. -/
def mode_frames : Option Nat → Option (Nat × List Nat) → List Event →
    Option (List (Nat × List Nat))
  | _, none, [] => some []
  | _, some _, [] => none
  | dc, cur, e :: t =>
    if e = DC_CMD ∨ e = DC_DATA then
      match cur with
      | some _ => none
      | none => mode_frames (some (if e = DC_CMD then DISP_MODE_CMD else DISP_MODE_DATA)) none t
    else if e = CS_ON then
      match cur, dc with
      | none, some m => mode_frames none (some (m, [])) t
      | _, _ => none
    else if e = CS_OFF then
      match cur with
      | some fr => (mode_frames dc none t).map (fun fs => fr :: fs)
      | none => none
    else
      match tx_byte e with
      | some b =>
        match cur with
        | some (m, bs) => mode_frames dc (some (m, bs ++ [b])) t
        | none => none
      | none => mode_frames dc cur t

/-- The writes of a list of frames given with their modes. -/
def render (fl : List (Nat × List Nat)) : List Event :=
  fl.flatMap (fun f => if f.1 = DISP_MODE_CMD then cmd_frame f.2 else data_frame f.2)

/-- The frames of `disp_pos x y`. -/
def pos_modes (x y : Nat) : List (Nat × List Nat) :=
  [(DISP_MODE_CMD, [0x20, 0x02]), (DISP_MODE_CMD, [u8 (u32 (0xB0 + y))]),
   (DISP_MODE_CMD, [0x21, u8 (u32 (x <<< 3)), 0x7F])]

/-- The frames that clear page `p`. -/
def page_modes (p : Nat) : List (Nat × List Nat) :=
  [(DISP_MODE_CMD, [0x20, 0x02]), (DISP_MODE_CMD, [0xB0 + p]),
   (DISP_MODE_CMD, [0x21, 0, 0x7F]), (DISP_MODE_DATA, List.replicate 128 0)]

/-- The frame of `disp_putc font c`, if any. -/
def glyph_modes (font : Int → Nat → Nat) (c : Nat) : List (Nat × List Nat) :=
  if c &&& 0x80 ≠ 0 then []
  else [(DISP_MODE_DATA, (List.range 8).map (fun i => u8 (font (glyph_index c) i)))]

/-- The frames of the display part of `disp_init`. -/
def init_modes : List (Nat × List Nat) :=
  init_cmds.map (fun cmd => (DISP_MODE_CMD, cmd)) ++ (selected_pages 0xFF).flatMap page_modes ++
    [(DISP_MODE_CMD, [0x20, 0x02]), (DISP_MODE_CMD, [0xAF])]

/-- The bytes written to the DATA register of `UART_DBG`, in order: the
characters the console sends. -/
def uart_chars (t : List Event) : List Nat :=
  t.filterMap (fun e =>
    match e with
    | Event.write _ reg v => if reg = UART_DBG + 0x28 then some v else none
    | Event.read _ _ _ => none)

/-- Whenever `f` returns, the characters it has sent to the console are `chars`. -/
def Sends (f : World → Option World) (chars : List Nat) : Prop :=
  ∀ w w', f w = some w' → ∃ evs, w'.trace = w.trace ++ evs ∧ uart_chars evs = chars

/-- The `n` hexadecimal digits of `c`, most significant first, as characters. -/
def hex_digits (n c : Nat) : List Nat :=
  (List.range n).reverse.map (fun k => hex_at ((c / 16 ^ k) % 16))

/-- The number that a string of hexadecimal digits denotes: each character
counts for its position in "0123456789ABCDEF". -/
def hex_number (chars : List Nat) : Nat :=
  chars.foldl (fun acc ch => 16 * acc + hex.indexOf ch) 0

/-- The range property of the bytes of `disp_pos x y`: every run that returns
has sent `0x20 0x02`, a page-select opcode in `0xB0..0xB7`, and a column-range
command `0x21 s e` whose start column `s` is a valid column (at most 127) and
not greater than the end column `e`. -/
def pos_bytes_in_range (x y : Nat) : Prop :=
  ∀ w w', disp_pos x y w = some w' →
    ∃ evs p s e, w'.trace = w.trace ++ evs ∧ tx_bytes evs = [0x20, 0x02, p, 0x21, s, e] ∧
      0xB0 ≤ p ∧ p ≤ 0xB7 ∧ s ≤ 127 ∧ s ≤ e

/-- The configuration registers of the generic clock controller: CLKCTRL
(0x02), GENCTRL (0x04) and GENDIV (0x08). -/
def gclk_reg (reg : Nat) : Bool :=
  reg == GCLK_ADDR + 0x02 || reg == GCLK_ADDR + 0x04 || reg == GCLK_ADDR + 0x08

/-- A write to a configuration register of the clock controller, as the pair
of the register and the value. -/
def gclk_cfg : Event → Option (Nat × Nat)
  | Event.write _ reg v => if gclk_reg reg then some (reg, v) else none
  | Event.read _ _ _ => none

/-- The writes of a trace to the configuration registers of the clock
controller, in order. -/
def gclk_writes (t : List Event) : List (Nat × Nat) := t.filterMap gclk_cfg

/-- Between `w` and `w'` the trace grew by events whose clock configuration
writes are `l`. -/
def Configured (w w' : World) (l : List (Nat × Nat)) : Prop :=
  ∃ evs, w'.trace = w.trace ++ evs ∧ gclk_writes evs = l

/-- The last value written to GENCTRL for generator `id` (the identifier is in
bits 3:0 of the value). -/
def gen_ctrl (l : List (Nat × Nat)) (id : Nat) : Option Nat :=
  ((l.filter (fun p => p.1 == GCLK_ADDR + 0x04 && p.2 % 16 == id)).getLast?).map Prod.snd

/-- The last value written to GENDIV for generator `id`. -/
def gen_div (l : List (Nat × Nat)) (id : Nat) : Option Nat :=
  ((l.filter (fun p => p.1 == GCLK_ADDR + 0x08 && p.2 % 16 == id)).getLast?).map Prod.snd

/-- The last value written to CLKCTRL for the peripheral clock `id` (the
identifier is in bits 5:0 of the value). -/
def clk_ctrl (l : List (Nat × Nat)) (id : Nat) : Option Nat :=
  ((l.filter (fun p => p.1 == GCLK_ADDR + 0x02 && p.2 % 64 == id)).getLast?).map Prod.snd

/-- Frequency in Hz of a clock source of the generic clock controller, by its
number in GENCTRL.SRC: 0x04 is OSC32K, 0x06 is OSC8M (its prescaler is cleared
by `hw_init_clock`, and uart.c takes 8000000 for the same generator), 0x07 is
DFLL48M. -/
def source_hz (src : Nat) : Nat :=
  if src = 0x06 then 8000000 else if src = 0x07 then 48000000
  else if src = 0x04 then 32768 else 0

/-- Frequency in Hz of a generator from the values of its GENCTRL (GENEN is
bit 16, SRC bits 12:8) and GENDIV (DIV from bit 8; 0 and 1 do not divide). -/
def generator_hz (ctrl div : Nat) : Nat :=
  if (ctrl / 65536) % 2 = 0 then 0
  else if (div / 256) % 65536 ≤ 1 then source_hz ((ctrl / 256) % 32)
  else source_hz ((ctrl / 256) % 32) / ((div / 256) % 65536)

/-- The generator selected by a CLKCTRL value (GEN is bits 11:8), when the
clock is enabled (CLKEN is bit 14). -/
def clkctrl_gen (v : Nat) : Option Nat :=
  if (v / 16384) % 2 = 1 then some ((v / 256) % 16) else none

/-- Clock of a SERCOM in synchronous (SPI) mode:
`f_sck = f_ref / (2 * (BAUD + 1))`. -/
def sercom_spi_hz (f_ref baud : Nat) : Nat := f_ref / (2 * (baud + 1))

/-- The writes of `hw_init_clock` to GENDIV and GENCTRL, in program order:
generators 0 to 8, then generator 0 again. -/
def clock_config : List (Nat × Nat) :=
  [(GCLK_ADDR + 0x08, 0x100), (GCLK_ADDR + 0x04, 0x10600),
   (GCLK_ADDR + 0x08, 0x101), (GCLK_ADDR + 0x04, 0x10601),
   (GCLK_ADDR + 0x08, 0x102), (GCLK_ADDR + 0x04, 0x00602),
   (GCLK_ADDR + 0x08, 0x103), (GCLK_ADDR + 0x04, 0x00603),
   (GCLK_ADDR + 0x08, 0x104), (GCLK_ADDR + 0x04, 0x00604),
   (GCLK_ADDR + 0x08, 0x105), (GCLK_ADDR + 0x04, 0x10405),
   (GCLK_ADDR + 0x08, 0x106), (GCLK_ADDR + 0x04, 0x00606),
   (GCLK_ADDR + 0x08, 0x107), (GCLK_ADDR + 0x04, 0x10707),
   (GCLK_ADDR + 0x08, 0x108), (GCLK_ADDR + 0x04, 0x00608),
   (GCLK_ADDR + 0x08, 0x100), (GCLK_ADDR + 0x04, 0x10700)]

/-- Clock in Hz of the SPI of the display after the clock configuration
writes `l`, with the register file `regs`: SERCOM0 takes its core clock from
CLKCTRL identifier 0x14, the generator selected there runs as its GENCTRL and
GENDIV say, and BAUD (offset 0x0C, 8 bits) divides it. No value while the
peripheral clock or its generator is not configured. -/
def spi_disp_hz (l : List (Nat × Nat)) (regs : List (Nat × Nat)) : Option Nat :=
  match clk_ctrl l 0x14 with
  | none => none
  | some v =>
    match clkctrl_gen v with
    | none => none
    | some g =>
      match gen_ctrl l g, gen_div l g with
      | some ctrl, some div =>
        some (sercom_spi_hz (generator_hz ctrl div) (stored regs (SPI_DISP + 0x0C) % 256))
      | _, _ => none

/-- The status registers polled by the waits of `hw_init_clock` hold `s`
(PCLKSR of the system controller) and `g` (STATUS of the clock controller),
and the samples of the serial peripherals still to come are `p`. -/
def clock_status (s g : Nat) (p : List Nat) (w : World) : Prop :=
  stored w.regs (SYSCTRL_ADDR + 0x0C) = s ∧ stored w.regs (GCLK_ADDR + 0x01) = g ∧ w.polls = p

/-! ## The primitives -/

theorem spi_wr_loop_eq (fuel : Nat) (w : World) : spi_wr_loop fuel w = poll_loop 1 fuel w := by
  induction fuel generalizing w with
  | zero => rfl
  | succ n ih =>
    simp only [spi_wr_loop, poll_loop]
    cases reg8_rd (SPI_DISP + 0x18) w with
    | none => rfl
    | some p => simp only [ih]

theorem spi_wait_loop_eq (fuel : Nat) (w : World) :
    spi_wait_loop fuel w = poll_loop 2 fuel w := by
  induction fuel generalizing w with
  | zero => rfl
  | succ n ih =>
    simp only [spi_wait_loop, poll_loop]
    cases reg8_rd (SPI_DISP + 0x18) w with
    | none => rfl
    | some p => simp only [ih]

theorem reg8_rd_intflag (w : World) :
    reg8_rd (SPI_DISP + 0x18) w =
      match w.polls with
      | [] => none
      | s :: rest =>
        some (s % 256, { regs := w.regs, polls := rest, trace := w.trace ++ [POLL (s % 256)] }) := by
  have h : is_intflag (SPI_DISP + 0x18) = true := by decide
  unfold reg8_rd hw_read
  rw [if_pos h]
  cases w.polls with
  | nil => rfl
  | cons s rest => rfl

/-- Shape of every run of a busy-wait that ends: `busy` samples without the
flag, then one sample `s` with it; one status read per sample. -/
theorem poll_loop_some (mask fuel : Nat) (w w' : World) (h : poll_loop mask fuel w = some w') :
    ∃ busy s, w.polls = busy ++ s :: w'.polls ∧ (∀ b ∈ busy, (b % 256) &&& mask = 0) ∧
      (s % 256) &&& mask ≠ 0 ∧ w'.regs = w.regs ∧
      w'.trace = w.trace ++ (busy ++ [s]).map (fun x => POLL (x % 256)) := by
  induction fuel generalizing w with
  | zero => simp [poll_loop] at h
  | succ n ih =>
    rw [poll_loop, reg8_rd_intflag] at h
    cases hp : w.polls with
    | nil => simp [hp] at h
    | cons s rest =>
      rw [hp] at h
      simp only at h
      by_cases hs : (s % 256) &&& mask = 0
      · rw [if_pos hs] at h
        obtain ⟨busy, s', h1, h2, h3, h4, h5⟩ := ih _ h
        refine ⟨s :: busy, s', ?_, ?_, h3, ?_, ?_⟩
        · simpa using h1
        · intro b hb
          rcases List.mem_cons.mp hb with rfl | hb
          · exact hs
          · exact h2 b hb
        · simpa using h4
        · simp [h5]
      · rw [if_neg hs] at h
        cases h
        exact ⟨[], s, by simp, by simp, hs, rfl, by simp⟩

/-- A busy-wait ends as soon as a sample shows the flag. -/
theorem poll_loop_ready (mask fuel : Nat) (w : World) (busy : List Nat) (s : Nat)
    (rest : List Nat) (hp : w.polls = busy ++ s :: rest)
    (hb : ∀ b ∈ busy, (b % 256) &&& mask = 0) (hs : (s % 256) &&& mask ≠ 0)
    (hf : busy.length < fuel) :
    poll_loop mask fuel w =
      some { regs := w.regs, polls := rest,
             trace := w.trace ++ (busy ++ [s]).map (fun x => POLL (x % 256)) } := by
  induction busy generalizing w fuel with
  | nil =>
    cases fuel with
    | zero => simp at hf
    | succ n =>
      rw [poll_loop, reg8_rd_intflag, hp]
      simp [hs]
  | cons b busy ih =>
    cases fuel with
    | zero => simp at hf
    | succ n =>
      rw [poll_loop, reg8_rd_intflag, hp]
      have hb0 : (b % 256) &&& mask = 0 := hb b (List.mem_cons_self _ _)
      simp only [List.cons_append, hb0, if_true]
      rw [ih n _ rfl (fun x hx => hb x (List.mem_cons_of_mem _ hx))
        (by simpa using hf)]
      simp

theorem next_eq_some (r : Option World) (k : World → Option World) (w' : World) :
    next r k = some w' ↔ ∃ w1, r = some w1 ∧ k w1 = some w' := by
  cases r with
  | none => simp [next]
  | some w1 => simp [next]

theorem next_some (w1 : World) (k : World → Option World) : next (some w1) k = k w1 := rfl

theorem writes_append (a b : List Event) : writes (a ++ b) = writes a ++ writes b := by
  simp [writes]

theorem run_append (l : Line) (a b : List Event) :
    run l (a ++ b) = (run l a).bind (fun l1 => run l1 b) := by
  simp [run, List.foldlM_append]

theorem run_of_append (l l1 l2 : Line) (a b : List Event) (ha : run l a = some l1)
    (hb : run l1 b = some l2) : run l (a ++ b) = some l2 := by
  rw [run_append, ha]; exact hb

theorem writes_polls (ps : List Nat) : writes (ps.map (fun x => POLL (x % 256))) = [] := by
  induction ps with
  | nil => rfl
  | cons p ps ih => simp [writes, POLL, Event.is_write]

theorem line_step_poll (d : Bool) (v : Nat) :
    line_step (Line.busy d) (POLL v) = some (Line.busy (v &&& 2 != 0)) := by
  simp [line_step, POLL, CS_ON, CS_OFF, txc_seen]

theorem run_polls (d : Bool) (ps : List Nat) :
    ∃ d1, run (Line.busy d) (ps.map (fun x => POLL (x % 256))) = some (Line.busy d1) := by
  induction ps generalizing d with
  | nil => exact ⟨d, rfl⟩
  | cons p ps ih =>
    obtain ⟨d1, h1⟩ := ih ((p % 256) &&& 2 != 0)
    refine ⟨d1, ?_⟩
    simp only [List.map_cons, run, List.foldlM_cons, line_step_poll]
    exact h1

theorem run_polls_last (d : Bool) (ps : List Nat) (s : Nat) :
    run (Line.busy d) ((ps ++ [s]).map (fun x => POLL (x % 256))) =
      some (Line.busy ((s % 256) &&& 2 != 0)) := by
  obtain ⟨d1, h1⟩ := run_polls d ps
  rw [List.map_append]
  refine run_of_append _ _ _ _ _ h1 ?_
  simp [run, line_step_poll]

theorem line_step_tx (d : Bool) (b : Nat) :
    line_step (Line.busy d) (TX b) = some (Line.busy false) := by
  simp [line_step, TX, CS_ON, CS_OFF, txc_seen]

theorem reg16_wr_data (v : Nat) (w : World) :
    reg16_wr (SPI_DISP + 0x28) (u8 v) w =
      { regs := (SPI_DISP + 0x28, u8 v) :: w.regs, polls := w.polls,
        trace := w.trace ++ [TX (u8 v)] } := by
  have h : u8 v < 65536 := by
    unfold u8; omega
  simp [reg16_wr, hw_write, TX, Nat.mod_eq_of_lt h]

/-- Shape of every run of `spi_wr` that returns. -/
theorem spi_wr_some (v : Nat) (w w' : World) (h : spi_wr v w = some w') :
    ∃ busy s, w.polls = busy ++ s :: w'.polls ∧ (∀ b ∈ busy, (b % 256) &&& 1 = 0) ∧
      (s % 256) &&& 1 ≠ 0 ∧ w'.regs = (SPI_DISP + 0x28, u8 v) :: w.regs ∧
      w'.trace = w.trace ++ ((busy ++ [s]).map (fun x => POLL (x % 256)) ++ [TX (u8 v)]) := by
  unfold spi_wr at h
  rw [next_eq_some] at h
  obtain ⟨w1, h1, h2⟩ := h
  rw [spi_wr_loop_eq] at h1
  obtain ⟨busy, s, hp, hb, hs, hr, ht⟩ := poll_loop_some _ _ _ _ h1
  rw [reg16_wr_data] at h2
  cases h2
  exact ⟨busy, s, hp, hb, hs, by simp [hr], by simp [ht]⟩

/-- The call `spi_wr v` returns once a sample shows Data Register Empty. -/
theorem spi_wr_ready (v : Nat) (w : World) (busy : List Nat) (s : Nat) (rest : List Nat)
    (hp : w.polls = busy ++ s :: rest) (hb : ∀ b ∈ busy, (b % 256) &&& 1 = 0)
    (hs : (s % 256) &&& 1 ≠ 0) :
    spi_wr v w =
      some { regs := (SPI_DISP + 0x28, u8 v) :: w.regs, polls := rest,
             trace := w.trace ++ ((busy ++ [s]).map (fun x => POLL (x % 256)) ++ [TX (u8 v)]) } := by
  unfold spi_wr
  rw [spi_wr_loop_eq, poll_loop_ready 1 _ w busy s rest hp hb hs (by simp [hp]; omega)]
  rw [next_some, reg16_wr_data]
  simp

theorem spi_wait_some (w w' : World) (h : spi_wait w = some w') :
    ∃ busy s, w.polls = busy ++ s :: w'.polls ∧ (∀ b ∈ busy, (b % 256) &&& 2 = 0) ∧
      (s % 256) &&& 2 ≠ 0 ∧ w'.regs = w.regs ∧
      w'.trace = w.trace ++ (busy ++ [s]).map (fun x => POLL (x % 256)) := by
  unfold spi_wait at h
  rw [spi_wait_loop_eq] at h
  exact poll_loop_some _ _ _ _ h

theorem spi_wait_ready (w : World) (busy : List Nat) (s : Nat) (rest : List Nat)
    (hp : w.polls = busy ++ s :: rest) (hb : ∀ b ∈ busy, (b % 256) &&& 2 = 0)
    (hs : (s % 256) &&& 2 ≠ 0) :
    spi_wait w =
      some { regs := w.regs, polls := rest,
             trace := w.trace ++ (busy ++ [s]).map (fun x => POLL (x % 256)) } := by
  unfold spi_wait
  rw [spi_wait_loop_eq, poll_loop_ready 2 _ w busy s rest hp hb hs (by simp [hp]; omega)]

/-! ## Composition of steps -/

theorem steps_skip (s : Line) : Steps (fun w => some w) [] s s := by
  intro w w' h
  cases h
  exact ⟨[], by simp, rfl, rfl⟩

theorem steps_next {f g : World → Option World} {a b : List Event} {s s1 s2 : Line}
    (hf : Steps f a s s1) (hg : Steps g b s1 s2) :
    Steps (fun w => next (f w) g) (a ++ b) s s2 := by
  intro w w' h
  rw [next_eq_some] at h
  obtain ⟨w1, h1, h2⟩ := h
  obtain ⟨e1, t1, r1, l1⟩ := hf w w1 h1
  obtain ⟨e2, t2, r2, l2⟩ := hg w1 w' h2
  refine ⟨e1 ++ e2, ?_, ?_, run_of_append _ _ _ _ _ l1 l2⟩
  · rw [t2, t1, List.append_assoc]
  · rw [writes_append, r1, r2]

theorem steps_foldlM {α : Type} (f : World → α → Option World) (wr : α → List Event)
    (s : Line) (l : List α) (h : ∀ a, Steps (fun w => f w a) (wr a) s s) :
    Steps (fun w => l.foldlM f w) (l.flatMap wr) s s := by
  induction l with
  | nil => exact steps_skip s
  | cons a l ih =>
    intro w w' hw
    simp only [List.foldlM_cons] at hw
    cases h1 : f w a with
    | none => simp [h1] at hw
    | some w1 =>
      rw [h1] at hw
      obtain ⟨e1, t1, r1, l1⟩ := h a w w1 h1
      obtain ⟨e2, t2, r2, l2⟩ := ih w1 w' hw
      refine ⟨e1 ++ e2, ?_, ?_, run_of_append _ _ _ _ _ l1 l2⟩
      · rw [t2, t1, List.append_assoc]
      · rw [writes_append, r1, r2, List.flatMap_cons]

/-- A register write placed before `f`. -/
theorem steps_pre {f : World → Option World} {wr : List Event} {s2 : Line}
    (s s1 : Line) (width reg value : Nat)
    (hl : line_step s (Event.write width reg (value % 2 ^ width)) = some s1)
    (hf : Steps f wr s1 s2) :
    Steps (fun w => f (hw_write width reg value w))
      (Event.write width reg (value % 2 ^ width) :: wr) s s2 := by
  intro w w' h
  obtain ⟨e, t, r, l⟩ := hf _ w' h
  refine ⟨Event.write width reg (value % 2 ^ width) :: e, ?_, ?_, ?_⟩
  · rw [t]; simp [hw_write]
  · simp [writes, Event.is_write] at r ⊢; exact r
  · simp only [run, List.foldlM_cons, hl]; exact l

/-- A register write as a step of its own. -/
theorem steps_write (s s1 : Line) (width reg value : Nat)
    (hl : line_step s (Event.write width reg (value % 2 ^ width)) = some s1) :
    Steps (fun w => some (hw_write width reg value w))
      [Event.write width reg (value % 2 ^ width)] s s1 :=
  steps_pre s s1 width reg value hl (steps_skip s1)

theorem steps_spi_wr (v : Nat) (d : Bool) :
    Steps (spi_wr v) [TX (u8 v)] (Line.busy d) (Line.busy false) := by
  intro w w' h
  obtain ⟨busy, s, -, -, -, -, ht⟩ := spi_wr_some v w w' h
  refine ⟨_, ht, ?_, ?_⟩
  · rw [writes_append, writes_polls]; rfl
  · refine run_of_append _ _ _ _ _ (run_polls_last d busy s) ?_
    simp [run, line_step_tx]

theorem steps_spi_wait (d : Bool) : Steps spi_wait [] (Line.busy d) (Line.busy true) := by
  intro w w' h
  obtain ⟨busy, s, -, -, hs, -, ht⟩ := spi_wait_some w w' h
  refine ⟨_, ht, writes_polls _, ?_⟩
  rw [run_polls_last]
  simp [hs]

/-- A loop that pushes one byte per element of `l`. -/
theorem steps_wr_all {α : Type} (g : α → Nat) (l : List α) :
    Steps (fun w => l.foldlM (fun w a => spi_wr (g a) w) w)
      (l.map (fun a => TX (u8 (g a)))) (Line.busy false) (Line.busy false) := by
  have h := steps_foldlM (fun w a => spi_wr (g a) w) (fun a => [TX (u8 (g a))])
    (Line.busy false) l (fun a => steps_spi_wr (g a) false)
  rw [← List.map_eq_flatMap] at h
  exact h

theorem steps_cmd_loop (cmd : List Nat) (len : Nat) :
    Steps (disp_cmd_loop cmd len) ((cmd.take len).map (fun b => TX (u8 b)))
      (Line.busy false) (Line.busy false) := by
  induction len generalizing cmd with
  | zero =>
    intro w w' h
    cases cmd <;> simp [disp_cmd_loop] at h <;> subst h <;> exact ⟨[], by simp, rfl, rfl⟩
  | succ n ih =>
    cases cmd with
    | nil => intro w w' h; simp [disp_cmd_loop] at h
    | cons b cmd =>
      have h := steps_next (steps_spi_wr b false) (ih cmd)
      simpa [disp_cmd_loop] using h

theorem line_step_cs_on : line_step Line.idle CS_ON = some (Line.busy false) := by
  simp [line_step]

theorem line_step_cs_off : line_step (Line.busy true) CS_OFF = some Line.idle := by
  simp [line_step, CS_ON, CS_OFF]

theorem line_step_dc (mode : Nat) : line_step Line.idle (dc_event mode) = some Line.idle := by
  unfold dc_event
  split <;> decide

/-- The bracket `spi_cs(1); body; spi_wait(); spi_cs(0);` is a well-formed frame. -/
theorem steps_frame {body : World → Option World} {bs : List Event} {d : Bool}
    (h : Steps body bs (Line.busy false) (Line.busy d)) :
    Steps (fun w => next (body (spi_cs 1 w)) fun w => next (spi_wait w) fun w =>
        some (spi_cs 0 w))
      (CS_ON :: (bs ++ [CS_OFF])) Line.idle Line.idle := by
  have h1 := steps_next h (steps_next (steps_spi_wait d)
    (steps_write (Line.busy true) Line.idle 32 (PORT_ADDR + 0x18) (1 <<< 6)
      line_step_cs_off))
  have h2 := steps_pre Line.idle (Line.busy false) 32 (PORT_ADDR + 0x14) (1 <<< 6)
    line_step_cs_on h1
  simpa [spi_cs, reg_wr, CS_ON, CS_OFF] using h2

/-- The mode line written before a step. -/
theorem steps_dc {f : World → Option World} {wr : List Event} {s2 : Line} (mode : Nat)
    (hf : Steps f wr Line.idle s2) :
    Steps (fun w => f (disp_dc mode w)) (dc_event mode :: wr) Line.idle s2 := by
  unfold disp_dc dc_event
  by_cases hm : mode = DISP_MODE_CMD
  · simp only [hm, if_true]
    exact steps_pre Line.idle Line.idle 32 (PORT_ADDR + 0x14) (1 <<< 2) (by decide) hf
  · simp only [hm, if_false]
    exact steps_pre Line.idle Line.idle 32 (PORT_ADDR + 0x18) (1 <<< 2) (by decide) hf

/-! ## The display operations, step by step -/

theorem steps_disp_cmd (cmd : List Nat) (len : Nat) :
    Steps (disp_cmd cmd len) (cmd_frame ((cmd.take len).map u8)) Line.idle Line.idle := by
  have h := steps_dc DISP_MODE_CMD (steps_frame (steps_cmd_loop cmd len))
  have e : dc_event DISP_MODE_CMD = DC_CMD := rfl
  rw [e] at h
  simpa [cmd_frame, frame, List.map_map, Function.comp_def] using h

theorem steps_disp_pos (x y : Nat) :
    Steps (disp_pos x y) (pos_frames x y) Line.idle Line.idle := by
  have h := steps_next (steps_disp_cmd [0x20, 0x02] 2)
    (steps_next (steps_disp_cmd [u8 (u32 (0xB0 + y))] 1)
      (steps_disp_cmd [0x21, u8 (u32 (x <<< 3)), 0x7F] 3))
  have e8 : ∀ n, u8 (u8 n) = u8 n := fun n => by unfold u8; omega
  simpa [pos_frames, e8, u8] using h

/-- The bracket of a data frame: mode line, chip-select, body, wait, release. -/
theorem steps_data_frame {body : World → Option World} {bytes : List Nat} {d : Bool}
    (h : Steps body (bytes.map TX) (Line.busy false) (Line.busy d)) :
    Steps (fun w => next (body (spi_cs 1 (disp_dc DISP_MODE_DATA w))) fun w =>
        next (spi_wait w) fun w => some (spi_cs 0 w))
      (data_frame bytes) Line.idle Line.idle := by
  have h1 := steps_dc DISP_MODE_DATA (steps_frame h)
  have e : dc_event DISP_MODE_DATA = DC_DATA := rfl
  rw [e] at h1
  exact h1

theorem steps_clear_page (lines p : Nat) :
    Steps (disp_clear_page lines p) (page_frames lines p) Line.idle Line.idle := by
  unfold disp_clear_page page_frames
  by_cases hb : lines &&& (1 <<< p) = 0
  · simp only [hb, if_true]
    exact steps_skip _
  · simp only [hb, if_false]
    have hz := steps_wr_all (fun _ : Nat => 0x00) (List.range 128)
    have ez : (List.range 128).map (fun _ : Nat => TX (u8 0x00)) =
        (List.replicate 128 0).map TX := by decide
    rw [ez] at hz
    exact steps_next (steps_disp_pos 0 p) (steps_data_frame hz)

theorem steps_disp_clear (lines : Nat) :
    Steps (disp_clear lines) ((List.range 8).flatMap (page_frames lines))
      Line.idle Line.idle :=
  steps_foldlM (fun w p => disp_clear_page lines p w) (page_frames lines) Line.idle
    (List.range 8) (fun p => steps_clear_page lines p)

theorem steps_disp_putc (font : Int → Nat → Nat) (c : Nat) :
    Steps (disp_putc font c) (glyph_frames font c) Line.idle Line.idle := by
  unfold disp_putc glyph_frames
  by_cases hb : c &&& 0x80 ≠ 0
  · simp only [if_pos hb]
    exact steps_skip _
  · simp only [if_neg hb]
    have hz := steps_wr_all (fun i : Nat => font (glyph_index c) i) (List.range 8)
    have ez : (List.range 8).map (fun a => TX (u8 (font (glyph_index c) a))) =
        ((List.range 8).map (fun i => u8 (font (glyph_index c) i))).map TX := by
      simp [List.map_map, Function.comp_def]
    rw [ez] at hz
    exact steps_data_frame hz

/-! ## Return on a peripheral that answers -/

theorem polls_of_cons (d : Nat) (ds : List Nat) :
    polls_of (d :: ds) = List.replicate d 0 ++ 3 :: polls_of ds := by
  simp [polls_of]

theorem answers_skip : Answers (fun w => some w) 0 := by
  intro w ds hp _
  exact ⟨w, rfl, by simpa using hp⟩

theorem answers_next {f g : World → Option World} {n m : Nat}
    (hf : Answers f n) (hg : Answers g m) : Answers (fun w => next (f w) g) (n + m) := by
  intro w ds hp hl
  obtain ⟨w1, h1, p1⟩ := hf w ds hp (by omega)
  obtain ⟨w2, h2, p2⟩ := hg w1 (ds.drop n) p1 (by simp; omega)
  refine ⟨w2, ?_, ?_⟩
  · simp only [h1, next_some, h2]
  · rw [p2, List.drop_drop, Nat.add_comm]

theorem answers_pre {f : World → Option World} {n : Nat} (g : World → World)
    (hg : ∀ w, (g w).polls = w.polls) (hf : Answers f n) :
    Answers (fun w => f (g w)) n := by
  intro w ds hp hl
  exact hf (g w) ds (by rw [hg, hp]) hl

theorem answers_pure (g : World → World) (hg : ∀ w, (g w).polls = w.polls) :
    Answers (fun w => some (g w)) 0 :=
  answers_pre g hg answers_skip

theorem answers_foldlM {α : Type} (f : World → α → Option World) (k : α → Nat)
    (l : List α) (h : ∀ a, Answers (fun w => f w a) (k a)) :
    Answers (fun w => l.foldlM f w) (l.map k).sum := by
  induction l with
  | nil => exact answers_skip
  | cons a l ih =>
    intro w ds hp hl
    simp only [List.map_cons, List.sum_cons] at hl ⊢
    obtain ⟨w1, h1, p1⟩ := h a w ds hp (by omega)
    obtain ⟨w2, h2, p2⟩ := ih w1 (ds.drop (k a)) p1 (by simp; omega)
    refine ⟨w2, ?_, ?_⟩
    · simp only [List.foldlM_cons, h1]
      exact h2
    · rw [p2, List.drop_drop, Nat.add_comm]

theorem answers_spi_wr (v : Nat) : Answers (spi_wr v) 1 := by
  intro w ds hp hl
  cases ds with
  | nil => simp at hl
  | cons d ds =>
    rw [polls_of_cons] at hp
    have hb : ∀ b ∈ List.replicate d 0, (b % 256) &&& 1 = 0 := by
      intro b hb
      rw [List.eq_of_mem_replicate hb]
      rfl
    exact ⟨_, spi_wr_ready v w _ 3 _ hp hb (by decide), by simp⟩

theorem answers_spi_wait : Answers spi_wait 1 := by
  intro w ds hp hl
  cases ds with
  | nil => simp at hl
  | cons d ds =>
    rw [polls_of_cons] at hp
    have hb : ∀ b ∈ List.replicate d 0, (b % 256) &&& 2 = 0 := by
      intro b hb
      rw [List.eq_of_mem_replicate hb]
      rfl
    exact ⟨_, spi_wait_ready w _ 3 _ hp hb (by decide), by simp⟩

theorem answers_wr_all {α : Type} (g : α → Nat) (l : List α) :
    Answers (fun w => l.foldlM (fun w a => spi_wr (g a) w) w) l.length := by
  have h := answers_foldlM (fun w a => spi_wr (g a) w) (fun _ => 1) l
    (fun a => answers_spi_wr (g a))
  simpa using h

theorem answers_cmd_loop (cmd : List Nat) (len : Nat) (hl : len ≤ cmd.length) :
    Answers (disp_cmd_loop cmd len) len := by
  induction len generalizing cmd with
  | zero =>
    have e : disp_cmd_loop cmd 0 = fun w => some w := by
      funext w; cases cmd <;> rfl
    rw [e]
    exact answers_skip
  | succ n ih =>
    cases cmd with
    | nil => simp at hl
    | cons b cmd =>
      have h := answers_next (answers_spi_wr b) (ih cmd (by simpa using hl))
      rw [Nat.add_comm] at h
      exact h

theorem spi_cs_polls (state : Nat) (w : World) : (spi_cs state w).polls = w.polls := by
  unfold spi_cs reg_wr hw_write
  split <;> rfl

theorem disp_dc_polls (mode : Nat) (w : World) : (disp_dc mode w).polls = w.polls := by
  unfold disp_dc reg_wr hw_write
  split <;> rfl

/-- A frame returns after the waits of its body and the final `spi_wait`. -/
theorem answers_frame {body : World → Option World} {n : Nat} (h : Answers body n) :
    Answers (fun w => next (body (spi_cs 1 w)) fun w => next (spi_wait w) fun w =>
      some (spi_cs 0 w)) (n + 1) := by
  have h1 := answers_next h (answers_next answers_spi_wait
    (answers_pure (spi_cs 0) (spi_cs_polls 0)))
  exact answers_pre (spi_cs 1) (spi_cs_polls 1) h1

theorem answers_disp_cmd (cmd : List Nat) (len : Nat) (hl : len ≤ cmd.length) :
    Answers (disp_cmd cmd len) (len + 1) :=
  answers_pre (disp_dc DISP_MODE_CMD) (disp_dc_polls _)
    (answers_frame (answers_cmd_loop cmd len hl))

theorem answers_disp_pos (x y : Nat) : Answers (disp_pos x y) 9 :=
  answers_next (answers_disp_cmd [0x20, 0x02] 2 (by decide))
    (answers_next (answers_disp_cmd [u8 (u32 (0xB0 + y))] 1 (by simp))
      (answers_disp_cmd [0x21, u8 (u32 (x <<< 3)), 0x7F] 3 (by simp)))

/-- Busy-waits of one iteration of the page loop of `disp_clear`. -/
theorem answers_clear_page (lines p : Nat) :
    Answers (disp_clear_page lines p) (if lines &&& (1 <<< p) = 0 then 0 else 138) := by
  unfold disp_clear_page
  by_cases hb : lines &&& (1 <<< p) = 0
  · simp only [if_pos hb]
    exact answers_skip
  · simp only [if_neg hb]
    have hz := answers_wr_all (fun _ : Nat => 0x00) (List.range 128)
    rw [List.length_range] at hz
    exact answers_next (answers_disp_pos 0 p)
      (answers_pre (disp_dc DISP_MODE_DATA) (disp_dc_polls _) (answers_frame hz))

theorem answers_disp_putc (font : Int → Nat → Nat) (c : Nat) :
    Answers (disp_putc font c) (if c &&& 0x80 ≠ 0 then 0 else 9) := by
  unfold disp_putc
  by_cases hb : c &&& 0x80 ≠ 0
  · simp only [if_pos hb]
    exact answers_skip
  · simp only [if_neg hb]
    have hz := answers_wr_all (fun i : Nat => font (glyph_index c) i) (List.range 8)
    rw [List.length_range] at hz
    exact answers_pre (disp_dc DISP_MODE_DATA) (disp_dc_polls _) (answers_frame hz)

/-! ## Arithmetic of the command bytes and of the page mask -/

theorem page_byte (y : Nat) (hy : y ≤ 7) : u8 (u32 (0xB0 + y)) = 0xB0 + y := by
  unfold u8 u32; omega

theorem column_byte (x : Nat) : u8 (u32 (x <<< 3)) = (x * 8) % 256 := by
  unfold u8 u32
  rw [Nat.shiftLeft_eq]
  omega

theorem mask_test (lines p : Nat) : (lines &&& (1 <<< p) = 0) ↔ lines.testBit p = false := by
  rw [Nat.one_shiftLeft, Nat.and_two_pow]
  cases lines.testBit p <;> simp

theorem flatMap_page_frames (lines : Nat) (l : List Nat) :
    l.flatMap (page_frames lines) =
      (l.filter (fun p => lines.testBit p)).flatMap
        (fun p => pos_frames 0 p ++ data_frame (List.replicate 128 0)) := by
  induction l with
  | nil => rfl
  | cons p l ih =>
    rw [List.flatMap_cons, ih, List.filter_cons]
    unfold page_frames
    by_cases hb : lines.testBit p = true
    · have h0 : ¬ (lines &&& (1 <<< p) = 0) := by
        rw [mask_test]; simp [hb]
      simp [hb, h0]
    · have hb1 : lines.testBit p = false := by simpa using hb
      have h0 : lines &&& (1 <<< p) = 0 := (mask_test lines p).mpr hb1
      simp [hb1, h0]

theorem data_bytes_tx (m : Bool) (bs : List Nat) (rest : List Event) :
    data_bytes m (bs.map TX ++ rest) = (if m then bs else []) ++ data_bytes m rest := by
  induction bs with
  | nil => cases m <;> simp
  | cons b bs ih =>
    have h1 : TX b ≠ DC_DATA := by simp [TX, DC_DATA]
    have h2 : TX b ≠ DC_CMD := by simp [TX, DC_CMD]
    have h3 : tx_byte (TX b) = some b := by simp [tx_byte, TX]
    simp only [List.map_cons, List.cons_append, data_bytes, h1, h2, h3, if_false]
    cases m <;> simp [ih]

theorem data_bytes_cs (m : Bool) (rest : List Event) :
    data_bytes m (CS_ON :: rest) = data_bytes m rest ∧
      data_bytes m (CS_OFF :: rest) = data_bytes m rest := by
  constructor <;> rfl

theorem data_bytes_cmd_frame (m : Bool) (bs : List Nat) (rest : List Event) :
    data_bytes m (cmd_frame bs ++ rest) = data_bytes false rest := by
  have h : data_bytes m (cmd_frame bs ++ rest) =
      data_bytes false (bs.map TX ++ CS_OFF :: rest) := by
    simp [cmd_frame, frame, data_bytes, DC_CMD, DC_DATA, CS_ON, tx_byte, SPI_DISP, PORT_ADDR,
      SERCOM0_ADDR]
  rw [h, data_bytes_tx, (data_bytes_cs false rest).2]
  simp

theorem data_bytes_data_frame (m : Bool) (bs : List Nat) (rest : List Event) :
    data_bytes m (data_frame bs ++ rest) = bs ++ data_bytes true rest := by
  have h : data_bytes m (data_frame bs ++ rest) =
      data_bytes true (bs.map TX ++ CS_OFF :: rest) := by
    simp [data_frame, frame, data_bytes, DC_DATA, DC_CMD, CS_ON, tx_byte, SPI_DISP, PORT_ADDR,
      SERCOM0_ADDR]
  rw [h, data_bytes_tx, (data_bytes_cs true rest).2]
  simp

theorem data_bytes_pages (m : Bool) (ps : List Nat) :
    data_bytes m (ps.flatMap page_writes) = List.replicate (128 * ps.length) 0 := by
  induction ps generalizing m with
  | nil => rfl
  | cons p ps ih =>
    rw [List.flatMap_cons, page_writes, List.append_assoc, List.append_assoc,
      List.append_assoc, data_bytes_cmd_frame, data_bytes_cmd_frame, data_bytes_cmd_frame,
      data_bytes_data_frame, ih, List.length_cons, Nat.mul_succ, Nat.add_comm,
      List.replicate_add]

theorem selected_pages_flatMap (lines : Nat) :
    (List.range 8).flatMap (page_frames lines) =
      (selected_pages lines).flatMap page_writes := by
  rw [flatMap_page_frames]
  unfold selected_pages
  have h : ∀ l : List Nat, (∀ p ∈ l, p ≤ 7) →
      l.flatMap (fun p => pos_frames 0 p ++ data_frame (List.replicate 128 0)) =
        l.flatMap page_writes := by
    intro l hl
    induction l with
    | nil => rfl
    | cons p l ih =>
      rw [List.flatMap_cons, List.flatMap_cons, ih (fun q hq => hl q (List.mem_cons_of_mem _ hq))]
      have hp : p ≤ 7 := hl p (List.mem_cons_self _ _)
      unfold pos_frames page_writes
      rw [page_byte p hp, column_byte]
      simp
  apply h
  intro p hp
  have := (List.mem_filter.mp hp).1
  rw [List.mem_range] at this
  omega

theorem answers_disp_clear (lines : Nat) :
    Answers (disp_clear lines) (138 * (selected_pages lines).length) := by
  have h := answers_foldlM (fun w p => disp_clear_page lines p w)
    (fun p => if lines &&& (1 <<< p) = 0 then 0 else 138) (List.range 8)
    (fun p => answers_clear_page lines p)
  have e : ∀ l : List Nat,
      (l.map (fun p => if lines &&& (1 <<< p) = 0 then 0 else 138)).sum =
        138 * (l.filter (fun p => lines.testBit p)).length := by
    intro l
    induction l with
    | nil => rfl
    | cons p l ih =>
      rw [List.map_cons, List.sum_cons, ih, List.filter_cons]
      by_cases hb : lines.testBit p = true
      · have h0 : ¬ (lines &&& (1 <<< p) = 0) := by
          rw [mask_test]; simp [hb]
        simp [hb, h0]; omega
      · have hb1 : lines.testBit p = false := by simpa using hb
        have h0 : lines &&& (1 <<< p) = 0 := (mask_test lines p).mpr hb1
        simp [hb1, h0]
  rw [e] at h
  exact h

theorem data_bytes_writes (m : Bool) (t : List Event) :
    data_bytes m (writes t) = data_bytes m t := by
  induction t generalizing m with
  | nil => rfl
  | cons e t ih =>
    cases e with
    | read width reg v =>
      have h : writes (Event.read width reg v :: t) = writes t := by
        simp [writes, Event.is_write]
      rw [h, ih]
      simp [data_bytes, DC_DATA, DC_CMD, tx_byte]
    | write width reg v =>
      have h : writes (Event.write width reg v :: t) = Event.write width reg v :: writes t := by
        simp [writes, Event.is_write]
      rw [h]
      simp only [data_bytes, ih]

theorem foldlM_some {α : Type} (f : World → α → Option World) (l : List α)
    (h : ∀ w a, f w a = some w) (w : World) : l.foldlM f w = some w := by
  induction l with
  | nil => rfl
  | cons a l ih => simp [List.foldlM_cons, h, ih]

theorem tx_bytes_writes (t : List Event) : tx_bytes (writes t) = tx_bytes t := by
  simp only [tx_bytes, writes, List.filterMap_filter]
  apply List.filterMap_congr
  intro e _
  cases e <;> simp [tx_byte, Event.is_write]

theorem tx_bytes_map (bs : List Nat) (rest : List Event) :
    tx_bytes (bs.map TX ++ rest) = bs ++ tx_bytes rest := by
  induction bs with
  | nil => rfl
  | cons b bs ih =>
    have h : tx_byte (TX b) = some b := by simp [tx_byte, TX]
    simp only [tx_bytes, List.map_cons, List.cons_append, List.filterMap_cons, h] at ih ⊢
    rw [ih]

theorem tx_bytes_frame (mode : Nat) (bs : List Nat) (rest : List Event) :
    tx_bytes (frame (dc_event mode) bs ++ rest) = bs ++ tx_bytes rest := by
  have h1 : tx_byte (dc_event mode) = none := by
    unfold dc_event; split <;> rfl
  have h2 : tx_byte CS_ON = none := rfl
  have h3 : tx_byte CS_OFF = none := rfl
  have h : tx_bytes (frame (dc_event mode) bs ++ rest) =
      tx_bytes (bs.map TX ++ CS_OFF :: rest) := by
    simp [tx_bytes, frame, List.filterMap_cons, h1, h2]
  rw [h, tx_bytes_map]
  simp [tx_bytes, List.filterMap_cons, h3]

set_option maxRecDepth 8000 in
theorem high_bit (c : Nat) (h1 : 0x80 ≤ c) (h2 : c ≤ 0xFF) : c &&& 0x80 ≠ 0 := by
  have h : ∀ n < 256, 0x80 ≤ n → n &&& 0x80 ≠ 0 := by decide
  exact h c (by omega) h1

set_option maxRecDepth 8000 in
theorem low_bit (c : Nat) (h : c < 0x80) : ¬ (c &&& 0x80 ≠ 0) := by
  have h0 : ∀ n < 128, ¬ (n &&& 0x80 ≠ 0) := by decide
  exact h0 c h

/-! ## disp_clear, disp_putc, disp_pos, spi_wr -/

/-- C1: `disp_clear` visits exactly the pages of 0..7 whose bit is set in the
mask, in ascending order; for each it sends the three command frames of
`disp_pos(0, p)` and then one data frame of 128 zero bytes, so the data bytes
are `128 * popcount` zeros; it returns on a peripheral that answers; a single
bit selects its page alone, 0xFF selects the eight pages, and mask 0 leaves the
world untouched. -/
theorem disp_clear_pages :
    (∀ lines w w', disp_clear lines w = some w' →
      ∃ evs, w'.trace = w.trace ++ evs ∧
        writes evs = (selected_pages lines).flatMap page_writes ∧
        ∀ m, data_bytes m evs = List.replicate (128 * (selected_pages lines).length) 0) ∧
    (∀ lines w ds, w.polls = polls_of ds → 138 * (selected_pages lines).length ≤ ds.length →
      ∃ w', disp_clear lines w = some w') ∧
    (∀ lines p, p ∈ selected_pages lines ↔ p < 8 ∧ lines.testBit p = true) ∧
    (∀ lines, (selected_pages lines).Pairwise (fun p q => p < q)) ∧
    (∀ page, page < 8 → selected_pages (1 <<< page) = [page]) ∧
    selected_pages 0xFF = [0, 1, 2, 3, 4, 5, 6, 7] ∧
    (∀ w, disp_clear 0 w = some w) := by
  refine ⟨?_, ?_, ?_, ?_, ?_, ?_, ?_⟩
  · intro lines w w' h
    obtain ⟨evs, ht, hw, -⟩ := steps_disp_clear lines w w' h
    rw [selected_pages_flatMap] at hw
    refine ⟨evs, ht, hw, fun m => ?_⟩
    rw [← data_bytes_writes, hw, data_bytes_pages]
  · intro lines w ds hp hl
    obtain ⟨w', h, -⟩ := answers_disp_clear lines w ds hp hl
    exact ⟨w', h⟩
  · intro lines p
    simp [selected_pages, List.mem_filter]
  · intro lines
    exact List.Pairwise.sublist (List.filter_sublist _) (List.pairwise_lt_range 8)
  · decide
  · decide
  · intro w
    exact foldlM_some _ _ (fun w p => by simp [disp_clear_page]) w

/-- C1 at mask 0x04 on a peripheral that answers every wait after one poll:
`disp_clear` returns and has written the frames of page 2, 128 zero data bytes. -/
theorem disp_clear_pages_witness :
    ∃ w', disp_clear 0x04 ⟨[], polls_of (List.replicate 138 1), []⟩ = some w' ∧
      writes w'.trace = page_writes 2 ∧
      data_bytes false w'.trace = List.replicate 128 0 := by
  obtain ⟨w', h⟩ := disp_clear_pages.2.1 0x04 ⟨[], polls_of (List.replicate 138 1), []⟩
    (List.replicate 138 1) rfl (by rw [List.length_replicate]; decide)
  obtain ⟨evs, ht, hw, hd⟩ := disp_clear_pages.1 _ _ _ h
  have hs : selected_pages 0x04 = [2] := by decide
  rw [hs] at hw hd
  simp only [List.nil_append] at ht
  refine ⟨w', h, ?_, ?_⟩
  · rw [ht, hw]; simp
  · rw [ht, hd false]; rfl

/-- C2: for a printable character `c` in 0x20..0x7E and a table of bytes,
`disp_putc` writes exactly one data frame whose 8 bytes are
`font[c - 0x20][0..7]`, never puts the mode line in command mode, and returns
on a peripheral that answers. -/
theorem disp_putc_glyph :
    (∀ (font : Int → Nat → Nat) (c : Nat) (w w' : World), 0x20 ≤ c → c ≤ 0x7E →
      (∀ i, i < 8 → font ((c - 0x20 : Nat) : Int) i < 256) →
      disp_putc font c w = some w' →
      ∃ evs, w'.trace = w.trace ++ evs ∧
        writes evs = data_frame ((List.range 8).map (fun i => font ((c - 0x20 : Nat) : Int) i)) ∧
        tx_bytes evs = (List.range 8).map (fun i => font ((c - 0x20 : Nat) : Int) i) ∧
        DC_CMD ∉ evs) ∧
    (∀ (font : Int → Nat → Nat) (c : Nat) (w : World) (ds : List Nat), 0x20 ≤ c → c ≤ 0x7E →
      w.polls = polls_of ds → 9 ≤ ds.length → ∃ w', disp_putc font c w = some w') := by
  constructor
  · intro font c w w' h1 h2 hf h
    obtain ⟨evs, ht, hw, -⟩ := steps_disp_putc font c w w' h
    have hb : ¬ (c &&& 0x80 ≠ 0) := low_bit c (by omega)
    have hi : glyph_index c = ((c - 0x20 : Nat) : Int) := by
      unfold glyph_index; omega
    have hm : (List.range 8).map (fun i => u8 (font (glyph_index c) i)) =
        (List.range 8).map (fun i => font ((c - 0x20 : Nat) : Int) i) := by
      apply List.map_congr_left
      intro i hi8
      rw [hi]
      exact Nat.mod_eq_of_lt (hf i (List.mem_range.mp hi8))
    rw [glyph_frames, if_neg hb, hm] at hw
    refine ⟨evs, ht, hw, ?_, ?_⟩
    · have e := tx_bytes_frame DISP_MODE_DATA
        ((List.range 8).map (fun i => font ((c - 0x20 : Nat) : Int) i)) []
      rw [← tx_bytes_writes, hw]
      simpa [tx_bytes] using e
    · intro hmem
      have : DC_CMD ∈ writes evs := by
        simp only [writes, List.mem_filter]
        exact ⟨hmem, rfl⟩
      rw [hw] at this
      simp [data_frame, frame, DC_CMD, DC_DATA, CS_ON, CS_OFF, TX, SPI_DISP, PORT_ADDR,
        SERCOM0_ADDR] at this
  · intro font c w ds h1 h2 hp hl
    have hb : ¬ (c &&& 0x80 ≠ 0) := low_bit c (by omega)
    have ha := answers_disp_putc font c
    rw [if_neg hb] at ha
    obtain ⟨w', h, -⟩ := ha w ds hp hl
    exact ⟨w', h⟩

/-- C2 at `H` (0x48) with a table whose glyph 0x28 is the bytes 0x40..0x47: the
frame carries exactly these 8 bytes. -/
theorem disp_putc_glyph_witness :
    ∃ w', disp_putc (fun idx i => (idx.toNat + i + 0x18) % 256) 0x48
        ⟨[], polls_of [0, 1, 0, 2, 0, 0, 3, 0, 1], []⟩ = some w' ∧
      tx_bytes w'.trace = [0x40, 0x41, 0x42, 0x43, 0x44, 0x45, 0x46, 0x47] := by
  obtain ⟨w', h⟩ := disp_putc_glyph.2 (fun idx i => (idx.toNat + i + 0x18) % 256) 0x48
    ⟨[], polls_of [0, 1, 0, 2, 0, 0, 3, 0, 1], []⟩ [0, 1, 0, 2, 0, 0, 3, 0, 1]
    (by decide) (by decide) rfl (by decide)
  obtain ⟨evs, ht, -, hx, -⟩ := disp_putc_glyph.1 _ 0x48 _ w' (by decide) (by decide)
    (fun i _ => Nat.mod_lt _ (by decide)) h
  simp only [List.nil_append] at ht
  refine ⟨w', h, ?_⟩
  rw [ht, hx]
  decide

/-- C3: for a character code with bit 7 set, `disp_putc` returns at once and
leaves the world as it was: no register is read or written, so nothing goes to
the transmit register, the chip-select line or the mode line. -/
theorem disp_putc_high_bit (font : Int → Nat → Nat) (c : Nat) (w : World)
    (h1 : 0x80 ≤ c) (h2 : c ≤ 0xFF) : disp_putc font c w = some w := by
  unfold disp_putc
  rw [if_pos (high_bit c h1 h2)]

/-- C3 at 0xE9 on a world with an empty trace: the trace stays empty. -/
theorem disp_putc_high_bit_witness :
    disp_putc (fun _ _ => 0xFF) 0xE9 ⟨[], [], []⟩ = some ⟨[], [], []⟩ :=
  disp_putc_high_bit (fun _ _ => 0xFF) 0xE9 ⟨[], [], []⟩ (by decide) (by decide)

/-- C4: for every `x` and every page `y` in 0..7, `disp_pos` writes exactly
three command frames and nothing else: `[0x20, 0x02]`, `[0xB0 + y]` and
`[0x21, (x * 8) mod 256, 0x7F]`; the bytes on the transmit register are these
six, none of them is sent in data mode, and the call returns on a peripheral
that answers. -/
theorem disp_pos_frames :
    (∀ x y w w', y ≤ 7 → disp_pos x y w = some w' →
      ∃ evs, w'.trace = w.trace ++ evs ∧
        writes evs =
          cmd_frame [0x20, 0x02] ++ cmd_frame [0xB0 + y] ++
            cmd_frame [0x21, (x * 8) % 256, 0x7F] ∧
        tx_bytes evs = [0x20, 0x02, 0xB0 + y, 0x21, (x * 8) % 256, 0x7F] ∧
        ∀ m, data_bytes m evs = []) ∧
    (∀ x y w ds, w.polls = polls_of ds → 9 ≤ ds.length → ∃ w', disp_pos x y w = some w') := by
  constructor
  · intro x y w w' hy h
    obtain ⟨evs, ht, hw, -⟩ := steps_disp_pos x y w w' h
    rw [pos_frames, page_byte y hy, column_byte, ← List.append_assoc] at hw
    refine ⟨evs, ht, hw, ?_, fun m => ?_⟩
    · have e : ∀ bs rest, tx_bytes (cmd_frame bs ++ rest) = bs ++ tx_bytes rest :=
        fun bs rest => tx_bytes_frame DISP_MODE_CMD bs rest
      rw [← tx_bytes_writes, hw, List.append_assoc, e, e]
      have e3 := e [0x21, (x * 8) % 256, 0x7F] []
      rw [List.append_nil] at e3
      rw [e3]
      rfl
    · rw [← data_bytes_writes, hw, List.append_assoc, data_bytes_cmd_frame,
        data_bytes_cmd_frame]
      have e3 := data_bytes_cmd_frame false [0x21, (x * 8) % 256, 0x7F] []
      rw [List.append_nil] at e3
      rw [e3]
      rfl
  · intro x y w ds hp hl
    obtain ⟨w', h, -⟩ := answers_disp_pos x y w ds hp hl
    exact ⟨w', h⟩

/-- C4 at column 35, page 5: the start byte is `35 * 8 mod 256 = 24`. -/
theorem disp_pos_frames_witness :
    ∃ w', disp_pos 35 5 ⟨[], polls_of [1, 0, 0, 2, 0, 0, 0, 1, 0], []⟩ = some w' ∧
      tx_bytes w'.trace = [0x20, 0x02, 0xB5, 0x21, 24, 0x7F] := by
  obtain ⟨w', h⟩ := disp_pos_frames.2 35 5 ⟨[], polls_of [1, 0, 0, 2, 0, 0, 0, 1, 0], []⟩
    [1, 0, 0, 2, 0, 0, 0, 1, 0] rfl (by decide)
  obtain ⟨evs, ht, -, hx, -⟩ := disp_pos_frames.1 35 5 _ w' (by decide) h
  simp only [List.nil_append] at ht
  exact ⟨w', h, by rw [ht, hx]⟩

/-- C10: when the status reads show Data Register Empty for the first time at
poll `k` (after `k` samples without it), `spi_wr v` performs exactly `k + 1`
status reads and then the single write of `v` to the transmit register; every
run that returns has this shape, so the write always follows a read with bit 0
set, and without such a sample nothing is written; a sequence of calls puts
exactly `v1, ..., vn` on the transmit register, in call order, and returns on a
peripheral that answers. -/
theorem spi_wr_order :
    (∀ v w busy s rest, v < 256 → w.polls = busy ++ s :: rest →
      (∀ b ∈ busy, u8 b &&& 1 = 0) → u8 s &&& 1 ≠ 0 →
      spi_wr v w =
        some ⟨(SPI_DISP + 0x28, v) :: w.regs, rest,
              w.trace ++ ((busy ++ [s]).map (fun x => POLL (u8 x)) ++ [TX v])⟩) ∧
    (∀ v w w', v < 256 → spi_wr v w = some w' →
      ∃ busy s, w.polls = busy ++ s :: w'.polls ∧ (∀ b ∈ busy, u8 b &&& 1 = 0) ∧
        u8 s &&& 1 ≠ 0 ∧
        w'.trace = w.trace ++ ((busy ++ [s]).map (fun x => POLL (u8 x)) ++ [TX v])) ∧
    (∀ v w, (∀ s ∈ w.polls, u8 s &&& 1 = 0) → spi_wr v w = none) ∧
    (∀ vs w w', (∀ v ∈ vs, v < 256) → vs.foldlM (fun w v => spi_wr v w) w = some w' →
      ∃ evs, w'.trace = w.trace ++ evs ∧ tx_bytes evs = vs) ∧
    (∀ (vs : List Nat) (w : World) (ds : List Nat), w.polls = polls_of ds →
      vs.length ≤ ds.length → ∃ w', vs.foldlM (fun w v => spi_wr v w) w = some w') := by
  refine ⟨?_, ?_, ?_, ?_, ?_⟩
  · intro v w busy s rest hv hp hb hs
    have h := spi_wr_ready v w busy s rest hp hb hs
    rw [show u8 v = v from Nat.mod_eq_of_lt hv] at h
    exact h
  · intro v w w' hv h
    obtain ⟨busy, s, hp, hb, hs, -, ht⟩ := spi_wr_some v w w' h
    rw [show u8 v = v from Nat.mod_eq_of_lt hv] at ht
    exact ⟨busy, s, hp, hb, hs, ht⟩
  · intro v w hn
    cases h : spi_wr v w with
    | none => rfl
    | some w' =>
      obtain ⟨busy, s, hp, -, hs, -, -⟩ := spi_wr_some v w w' h
      exact absurd (hn s (by rw [hp]; simp)) hs
  · intro vs w w' hv h
    obtain ⟨evs, ht, hw, -⟩ := steps_wr_all (fun v : Nat => v) vs w w' h
    refine ⟨evs, ht, ?_⟩
    have e : vs.map (fun a => TX (u8 a)) = vs.map TX := by
      apply List.map_congr_left
      intro a ha
      rw [show u8 a = a from Nat.mod_eq_of_lt (hv a ha)]
    have e2 := tx_bytes_map vs []
    rw [List.append_nil] at e2
    rw [← tx_bytes_writes, hw, e, e2]
    simp [tx_bytes]
  · intro vs w ds hp hl
    obtain ⟨w', h, -⟩ := answers_wr_all (fun v : Nat => v) vs w ds hp hl
    exact ⟨w', h⟩

/-- C10 with Data Register Empty first seen at poll 2: three status reads, then
the write of 0xA5. -/
theorem spi_wr_order_witness :
    spi_wr 0xA5 ⟨[], [0, 2, 1, 7], []⟩ =
      some ⟨[(SPI_DISP + 0x28, 0xA5)], [7], [POLL 0, POLL 2, POLL 1, TX 0xA5]⟩ :=
  spi_wr_order.1 0xA5 ⟨[], [0, 2, 1, 7], []⟩ [0, 2] 1 [7] (by decide) rfl (by decide)
    (by decide)

/-! ## spi_init -/

theorem reg_rd_ctrla_reset (w : World) (h : stored w.regs (SPI_DISP + 0x00) = 1) :
    reg_rd (SPI_DISP + 0x00) w =
      match w.polls with
      | [] => none
      | s :: rest =>
        if s % 2 = 1 then
          some (1, ⟨w.regs, rest, w.trace ++ [Event.read 32 (SPI_DISP + 0x00) 1]⟩)
        else
          some (0, ⟨(SPI_DISP + 0x00, 0) :: w.regs, rest,
                    w.trace ++ [Event.read 32 (SPI_DISP + 0x00) 0]⟩) := by
  have h1 : is_intflag (SPI_DISP + 0x00) = false := by decide
  have h2 : is_ctrla (SPI_DISP + 0x00) = true := by decide
  unfold reg_rd hw_read
  simp only [h1, h2, h, log_read]
  cases w.polls with
  | nil => simp
  | cons s rest => simp

theorem reg_rd_plain (reg : Nat) (w : World) (h1 : is_intflag reg = false)
    (h2 : is_ctrla reg = false ∨ stored w.regs reg % 2 = 0) :
    reg_rd reg w =
      some (u32 (stored w.regs reg),
            ⟨w.regs, w.polls, w.trace ++ [Event.read 32 reg (u32 (stored w.regs reg))]⟩) := by
  unfold reg_rd hw_read
  have h3 : ¬ (is_ctrla reg = true ∧ stored w.regs reg % 2 = 1) := by
    rcases h2 with h2 | h2
    · simp [h2]
    · omega
  simp only [h1, h3, log_read, u32]
  simp

theorem spi_init_wait_some (fuel : Nat) (w w' : World)
    (hst : stored w.regs (SPI_DISP + 0x00) = 1) (h : spi_init_wait fuel w = some w') :
    ∃ busy s, w.polls = busy ++ s :: w'.polls ∧ (∀ b ∈ busy, b % 2 = 1) ∧ s % 2 = 0 ∧
      w'.regs = (SPI_DISP + 0x00, 0) :: w.regs ∧
      w'.trace = w.trace ++ (List.replicate busy.length (Event.read 32 (SPI_DISP + 0x00) 1) ++
        [Event.read 32 (SPI_DISP + 0x00) 0]) := by
  induction fuel generalizing w with
  | zero => simp [spi_init_wait] at h
  | succ n ih =>
    rw [spi_init_wait, reg_rd_ctrla_reset w hst] at h
    cases hp : w.polls with
    | nil => simp [hp] at h
    | cons s rest =>
      rw [hp] at h
      by_cases hs : s % 2 = 1
      · simp only [hs, if_true] at h
        have h' : spi_init_wait n
            ⟨w.regs, rest, w.trace ++ [Event.read 32 (SPI_DISP + 0x00) 1]⟩ = some w' := by
          rw [if_pos (by decide)] at h
          exact h
        obtain ⟨busy, s', h1, h2, h3, h4, h5⟩ :=
          ih ⟨w.regs, rest, w.trace ++ [Event.read 32 (SPI_DISP + 0x00) 1]⟩ hst h'
        refine ⟨s :: busy, s', ?_, ?_, h3, h4, ?_⟩
        · simpa using h1
        · intro b hb
          rcases List.mem_cons.mp hb with rfl | hb
          · exact hs
          · exact h2 b hb
        · rw [h5]
          simp [List.replicate_succ]
      · simp only [hs, if_false] at h
        have h' : w' = ⟨(SPI_DISP + 0x00, 0) :: w.regs, rest,
            w.trace ++ [Event.read 32 (SPI_DISP + 0x00) 0]⟩ := by
          simpa using h.symm
        subst h'
        exact ⟨[], s, by simp, by simp, by omega, rfl, by simp⟩

theorem spi_init_wait_ready (fuel : Nat) (w : World) (busy : List Nat) (s : Nat)
    (rest : List Nat) (hst : stored w.regs (SPI_DISP + 0x00) = 1)
    (hp : w.polls = busy ++ s :: rest) (hb : ∀ b ∈ busy, b % 2 = 1) (hs : s % 2 = 0)
    (hf : busy.length < fuel) :
    spi_init_wait fuel w =
      some ⟨(SPI_DISP + 0x00, 0) :: w.regs, rest,
            w.trace ++ (List.replicate busy.length (Event.read 32 (SPI_DISP + 0x00) 1) ++
              [Event.read 32 (SPI_DISP + 0x00) 0])⟩ := by
  induction busy generalizing w fuel with
  | nil =>
    cases fuel with
    | zero => simp at hf
    | succ n =>
      rw [spi_init_wait, reg_rd_ctrla_reset w hst, hp]
      have hs' : ¬ (s % 2 = 1) := by omega
      simp [hs']
  | cons b busy ih =>
    cases fuel with
    | zero => simp at hf
    | succ n =>
      rw [spi_init_wait, reg_rd_ctrla_reset w hst, hp]
      have hb0 : b % 2 = 1 := hb b (List.mem_cons_self _ _)
      simp only [List.cons_append, hb0, if_true]
      have h' := ih n ⟨w.regs, busy ++ s :: rest,
        w.trace ++ [Event.read 32 (SPI_DISP + 0x00) 1]⟩ hst rfl
        (fun x hx => hb x (List.mem_cons_of_mem _ hx)) (by simpa using hf)
      rw [if_pos (by decide), h']
      simp [List.replicate_succ]

theorem reg_set_plain (reg value : Nat) (w : World) (h1 : is_intflag reg = false)
    (h2 : is_ctrla reg = false ∨ stored w.regs reg % 2 = 0) :
    reg_set reg value w =
      some ⟨(reg, (u32 (stored w.regs reg) ||| value) % 2 ^ 32) :: w.regs, w.polls,
            w.trace ++ [Event.read 32 reg (u32 (stored w.regs reg)),
              Event.write 32 reg ((u32 (stored w.regs reg) ||| value) % 2 ^ 32)]⟩ := by
  unfold reg_set
  rw [reg_rd_plain reg w h1 h2]
  simp [reg_wr, hw_write]

theorem or_four (v : Nat) : (u32 v ||| 1 <<< 2) % 2 ^ 32 = u32 v ||| 4 := by
  have h : u32 v < 2 ^ 32 := Nat.mod_lt _ (by decide)
  exact Nat.mod_eq_of_lt (Nat.or_lt_two_pow h (by decide))

/-- Closed form of `spi_init`: the accesses before the reset wait, the wait,
and the accesses after it. -/
theorem spi_init_eq (w : World) :
    spi_init w =
      next (spi_init_wait (w.polls.length + 1)
        ⟨(SPI_DISP + 0x00, 1) :: (GCLK_ADDR + 0x02, 0x4114) ::
            (PM_ADDR + 0x20, u32 (stored w.regs (PM_ADDR + 0x20)) ||| 4) :: w.regs,
          w.polls,
          w.trace ++ [Event.read 32 (PM_ADDR + 0x20) (u32 (stored w.regs (PM_ADDR + 0x20))),
            Event.write 32 (PM_ADDR + 0x20) (u32 (stored w.regs (PM_ADDR + 0x20)) ||| 4),
            Event.write 16 (GCLK_ADDR + 0x02) 0x4114, Event.write 32 (SPI_DISP + 0x00) 0x01]⟩)
        (fun w2 =>
          some ⟨(SPI_DISP + 0x00, 0x0030000E) :: (SPI_DISP + 0x0C, 8) ::
                  (SPI_DISP + 0x04, 0x00020000) :: (SPI_DISP + 0x00, 0x0030000C) :: w2.regs,
                w2.polls,
                w2.trace ++ [Event.write 32 (SPI_DISP + 0x00) 0x0030000C,
                  Event.write 32 (SPI_DISP + 0x04) 0x00020000, Event.write 8 (SPI_DISP + 0x0C) 8,
                  Event.read 32 (SPI_DISP + 0x00) 0x0030000C,
                  Event.write 32 (SPI_DISP + 0x00) 0x0030000E]⟩) := by
  unfold spi_init
  rw [reg_set_plain (PM_ADDR + 0x20) (1 <<< 2) w (by decide) (Or.inl (by decide)), next_some,
    or_four]
  have e1 : ∀ w0 : World,
      reg_wr (SPI_DISP + 0x00) 0x01
        (reg16_wr (GCLK_ADDR + 0x02) ((1 <<< 14) ||| (1 <<< 8) ||| 0x14) w0) =
      ⟨(SPI_DISP + 0x00, 1) :: (GCLK_ADDR + 0x02, 0x4114) :: w0.regs, w0.polls,
        w0.trace ++ [Event.write 16 (GCLK_ADDR + 0x02) 0x4114,
          Event.write 32 (SPI_DISP + 0x00) 0x01]⟩ := by
    intro w0
    simp [reg_wr, reg16_wr, hw_write]
  have e2 : ∀ w2 : World,
      reg_set (SPI_DISP + 0x00) (1 <<< 1)
        (reg8_wr (SPI_DISP + 0x0C) 8 (reg_wr (SPI_DISP + 0x04) (1 <<< 17)
          (reg_wr (SPI_DISP + 0x00) ((0 <<< 28) ||| (3 <<< 20) ||| (3 <<< 2)) w2))) =
      some ⟨(SPI_DISP + 0x00, 0x0030000E) :: (SPI_DISP + 0x0C, 8) ::
              (SPI_DISP + 0x04, 0x00020000) :: (SPI_DISP + 0x00, 0x0030000C) :: w2.regs,
            w2.polls,
            w2.trace ++ [Event.write 32 (SPI_DISP + 0x00) 0x0030000C,
              Event.write 32 (SPI_DISP + 0x04) 0x00020000, Event.write 8 (SPI_DISP + 0x0C) 8,
              Event.read 32 (SPI_DISP + 0x00) 0x0030000C,
              Event.write 32 (SPI_DISP + 0x00) 0x0030000E]⟩ := by
    intro w2
    have hs : stored (reg8_wr (SPI_DISP + 0x0C) 8 (reg_wr (SPI_DISP + 0x04) (1 <<< 17)
        (reg_wr (SPI_DISP + 0x00) ((0 <<< 28) ||| (3 <<< 20) ||| (3 <<< 2)) w2))).regs
        (SPI_DISP + 0x00) = 0x0030000C := by
      simp [reg8_wr, reg_wr, hw_write, stored, SPI_DISP, SERCOM0_ADDR]
    rw [reg_set_plain _ _ _ (by decide) (Or.inr (by rw [hs])), hs]
    simp [reg8_wr, reg_wr, hw_write, u32]
  simp only [e1, e2]
  simp

theorem spi_init_trace_eq (v0 k : Nat) (t : List Event) :
    (t ++ [Event.read 32 (PM_ADDR + 0x20) v0, Event.write 32 (PM_ADDR + 0x20) (v0 ||| 4),
        Event.write 16 (GCLK_ADDR + 0x02) 0x4114, Event.write 32 (SPI_DISP + 0x00) 0x01] ++
      (List.replicate k (Event.read 32 (SPI_DISP + 0x00) 1) ++
        [Event.read 32 (SPI_DISP + 0x00) 0])) ++
      [Event.write 32 (SPI_DISP + 0x00) 0x0030000C,
        Event.write 32 (SPI_DISP + 0x04) 0x00020000, Event.write 8 (SPI_DISP + 0x0C) 8,
        Event.read 32 (SPI_DISP + 0x00) 0x0030000C,
        Event.write 32 (SPI_DISP + 0x00) 0x0030000E] =
    t ++ spi_init_trace v0 k := by
  simp [spi_init_trace]

/-- Every run of `spi_init` that returns. -/
theorem spi_init_some (w w' : World) (h : spi_init w = some w') :
    ∃ busy s, w.polls = busy ++ s :: w'.polls ∧ (∀ b ∈ busy, b % 2 = 1) ∧ s % 2 = 0 ∧
      w'.trace = w.trace ++ spi_init_trace (u32 (stored w.regs (PM_ADDR + 0x20))) busy.length ∧
      stored w'.regs (SPI_DISP + 0x00) = 0x0030000E := by
  rw [spi_init_eq, next_eq_some] at h
  obtain ⟨w2, h1, h2⟩ := h
  obtain ⟨busy, s, hp, hb, hs, hr, ht⟩ := spi_init_wait_some _ _ w2
    (by simp [stored]) h1
  cases h2
  refine ⟨busy, s, hp, hb, hs, ?_, ?_⟩
  · simp only [ht]
    exact spi_init_trace_eq _ _ _
  · simp [stored]

/-- The call `spi_init` returns once SWRST reads clear. -/
theorem spi_init_ready (w : World) (busy : List Nat) (s : Nat) (rest : List Nat)
    (hp : w.polls = busy ++ s :: rest) (hb : ∀ b ∈ busy, b % 2 = 1) (hs : s % 2 = 0) :
    ∃ w', spi_init w = some w' ∧ w'.polls = rest ∧
      w'.trace =
        w.trace ++ spi_init_trace (u32 (stored w.regs (PM_ADDR + 0x20))) busy.length ∧
      stored w'.regs (SPI_DISP + 0x00) = 0x0030000E := by
  have e := spi_init_eq w
  have hw := spi_init_wait_ready (w.polls.length + 1)
    ⟨(SPI_DISP + 0x00, 1) :: (GCLK_ADDR + 0x02, 0x4114) ::
        (PM_ADDR + 0x20, u32 (stored w.regs (PM_ADDR + 0x20)) ||| 4) :: w.regs,
      w.polls,
      w.trace ++ [Event.read 32 (PM_ADDR + 0x20) (u32 (stored w.regs (PM_ADDR + 0x20))),
        Event.write 32 (PM_ADDR + 0x20) (u32 (stored w.regs (PM_ADDR + 0x20)) ||| 4),
        Event.write 16 (GCLK_ADDR + 0x02) 0x4114, Event.write 32 (SPI_DISP + 0x00) 0x01]⟩
    busy s rest (by simp [stored]) hp hb hs (by simp [hp]; omega)
  rw [hw, next_some] at e
  refine ⟨_, e, rfl, ?_, by simp [stored]⟩
  exact spi_init_trace_eq _ _ _

/-- C9: on a register file whose SWRST bit reads 1 for some polls and then 0,
`spi_init` returns, and its accesses are, in order: (clock enable and clock
selection,) SWRST written to CTRLA, CTRLA polled until bit 0 reads clear,
CTRLA = 0x0030000C, CTRLB = 0x00020000, BAUD = 8, and the read-modify-write
that sets ENABLE; no configuration write precedes the read that ends the reset,
the enable is the last write, CTRLA ends at 0x0030000E, and every run that
returns has this shape; if SWRST never reads 0 the call does not return. -/
theorem spi_init_sequence :
    (∀ w busy s rest, w.polls = busy ++ s :: rest → (∀ b ∈ busy, b % 2 = 1) → s % 2 = 0 →
      ∃ w', spi_init w = some w' ∧ w'.polls = rest ∧
        w'.trace =
          w.trace ++ spi_init_trace (u32 (stored w.regs (PM_ADDR + 0x20))) busy.length ∧
        stored w'.regs (SPI_DISP + 0x00) = 0x0030000E) ∧
    (∀ w w', spi_init w = some w' →
      ∃ k, w'.trace = w.trace ++ spi_init_trace (u32 (stored w.regs (PM_ADDR + 0x20))) k ∧
        stored w'.regs (SPI_DISP + 0x00) = 0x0030000E) ∧
    (∀ v0 k, peripheral_writes (spi_init_trace v0 k) =
      [Event.write 32 (SPI_DISP + 0x00) 0x01, Event.write 32 (SPI_DISP + 0x00) 0x0030000C,
       Event.write 32 (SPI_DISP + 0x04) 0x00020000, Event.write 8 (SPI_DISP + 0x0C) 8,
       Event.write 32 (SPI_DISP + 0x00) 0x0030000E]) ∧
    (∀ w, (∀ s ∈ w.polls, s % 2 = 1) → spi_init w = none) := by
  refine ⟨?_, ?_, ?_, ?_⟩
  · exact spi_init_ready
  · intro w w' h
    obtain ⟨busy, s, -, -, -, ht, hc⟩ := spi_init_some w w' h
    exact ⟨busy.length, ht, hc⟩
  · intro v0 k
    simp [peripheral_writes, spi_init_trace, List.filter_append, List.filter_replicate,
      SPI_DISP, SERCOM0_ADDR, PM_ADDR, GCLK_ADDR]
  · intro w hn
    cases h : spi_init w with
    | none => rfl
    | some w' =>
      obtain ⟨busy, s, hp, -, hs, -, -⟩ := spi_init_some w w' h
      have := hn s (by rw [hp]; simp)
      omega

/-- C9 with SWRST read as 1 three times and then as 0. -/
theorem spi_init_sequence_witness :
    ∃ w', spi_init ⟨[], [1, 1, 1, 0, 5], []⟩ = some w' ∧ w'.polls = [5] ∧
      w'.trace = spi_init_trace 0 3 ∧ stored w'.regs (SPI_DISP + 0x00) = 0x0030000E := by
  obtain ⟨w', h, hp, ht, hc⟩ := spi_init_sequence.1 ⟨[], [1, 1, 1, 0, 5], []⟩ [1, 1, 1] 0 [5]
    rfl (by decide) (by decide)
  exact ⟨w', h, hp, by simpa [stored, u32] using ht, hc⟩

/-! ## disp_puts -/

theorem next_eq_bind (r : Option World) (k : World → Option World) : next r k = r.bind k := by
  cases r <;> rfl

theorem steps_disp_puts (font : Int → Nat → Nat) (s : List Nat) :
    Steps (disp_puts font s) ((c_string s).flatMap (glyph_frames font)) Line.idle Line.idle := by
  induction s with
  | nil => intro w w' h; simp [disp_puts] at h
  | cons c s ih =>
    by_cases hc : c = 0
    · have e : disp_puts font (c :: s) = fun w => some w := by
        funext w; simp [disp_puts, hc]
      rw [e]
      simpa [c_string, hc] using steps_skip Line.idle
    · have e : disp_puts font (c :: s) =
          fun w => next (disp_putc font c w) (disp_puts font s) := by
        funext w; simp [disp_puts, hc]
      rw [e]
      have h := steps_next (steps_disp_putc font c) ih
      simpa [c_string, hc] using h

theorem disp_puts_fold (font : Int → Nat → Nat) (s rest : List Nat) (w : World)
    (hs : ∀ c ∈ s, c ≠ 0) :
    disp_puts font (s ++ 0 :: rest) w = s.foldlM (fun w c => disp_putc font c w) w := by
  induction s generalizing w with
  | nil => simp [disp_puts]
  | cons c s ih =>
    have hc : c ≠ 0 := hs c (List.mem_cons_self _ _)
    simp only [List.cons_append, disp_puts, hc, if_false, List.foldlM_cons]
    cases h : disp_putc font c w with
    | none => rfl
    | some w1 =>
      rw [next_some]
      exact ih w1 (fun x hx => hs x (List.mem_cons_of_mem _ hx))

theorem glyph_frames_no_cmd (font : Int → Nat → Nat) (c : Nat) :
    DC_CMD ∉ glyph_frames font c := by
  unfold glyph_frames
  split
  · simp
  · simp [data_frame, frame, DC_CMD, DC_DATA, CS_ON, CS_OFF, TX, SPI_DISP, PORT_ADDR,
      SERCOM0_ADDR]

theorem mem_writes (e : Event) (t : List Event) (h : e.is_write = true) :
    e ∈ writes t ↔ e ∈ t := by
  simp [writes, List.mem_filter, h]

/-- C6: the run of `disp_puts` on a string is the run of `disp_putc` on each of
its characters before the first NUL, in order; so a concatenation is the first
string followed by the second, the writes are the data frames of the
characters and never a command frame, "HI" is the two data frames of glyphs
0x28 and 0x29, and the call returns on a peripheral that answers. -/
theorem disp_puts_chars :
    (∀ (font : Int → Nat → Nat) (s rest : List Nat) (w : World), (∀ c ∈ s, c ≠ 0) →
      disp_puts font (s ++ 0 :: rest) w = s.foldlM (fun w c => disp_putc font c w) w) ∧
    (∀ (font : Int → Nat → Nat) (s1 s2 rest : List Nat) (w : World),
      (∀ c ∈ s1, c ≠ 0) → (∀ c ∈ s2, c ≠ 0) →
      disp_puts font (s1 ++ s2 ++ 0 :: rest) w =
        next (disp_puts font (s1 ++ [0]) w) (disp_puts font (s2 ++ 0 :: rest))) ∧
    (∀ (font : Int → Nat → Nat) (s : List Nat) (w w' : World), disp_puts font s w = some w' →
      ∃ evs, w'.trace = w.trace ++ evs ∧
        writes evs = (c_string s).flatMap (glyph_frames font) ∧ DC_CMD ∉ evs) ∧
    (∀ (font : Int → Nat → Nat) (w w' : World), (∀ idx i, font idx i < 256) →
      disp_puts font [0x48, 0x49, 0] w = some w' →
      ∃ evs, w'.trace = w.trace ++ evs ∧
        writes evs = data_frame ((List.range 8).map (font (0x48 - 0x20))) ++
          data_frame ((List.range 8).map (font (0x49 - 0x20)))) ∧
    (∀ (font : Int → Nat → Nat) (s rest : List Nat) (w : World) (ds : List Nat),
      (∀ c ∈ s, c ≠ 0) → w.polls = polls_of ds → 9 * s.length ≤ ds.length →
      ∃ w', disp_puts font (s ++ 0 :: rest) w = some w') := by
  refine ⟨disp_puts_fold, ?_, ?_, ?_, ?_⟩
  · intro font s1 s2 rest w h1 h2
    have h12 : ∀ c ∈ s1 ++ s2, c ≠ 0 := by
      intro c hc
      rcases List.mem_append.mp hc with hc | hc
      · exact h1 c hc
      · exact h2 c hc
    rw [disp_puts_fold font (s1 ++ s2) rest w h12, disp_puts_fold font s1 [] w h1,
      next_eq_bind, List.foldlM_append]
    have e : (fun w => disp_puts font (s2 ++ 0 :: rest) w) =
        fun w => s2.foldlM (fun w c => disp_putc font c w) w := by
      funext w1; exact disp_puts_fold font s2 rest w1 h2
    have e' : disp_puts font (s2 ++ 0 :: rest) =
        fun w => s2.foldlM (fun w c => disp_putc font c w) w := e
    rw [e']
    rfl
  · intro font s w w' h
    obtain ⟨evs, ht, hw, -⟩ := steps_disp_puts font s w w' h
    refine ⟨evs, ht, hw, ?_⟩
    intro hm
    have hm' : DC_CMD ∈ writes evs := (mem_writes DC_CMD evs rfl).mpr hm
    rw [hw, List.mem_flatMap] at hm'
    obtain ⟨c, -, hc⟩ := hm'
    exact glyph_frames_no_cmd font c hc
  · intro font w w' hf h
    obtain ⟨evs, ht, hw, -⟩ := steps_disp_puts font _ w w' h
    refine ⟨evs, ht, ?_⟩
    have hu : ∀ idx i, u8 (font idx i) = font idx i := fun idx i => Nat.mod_eq_of_lt (hf idx i)
    have a1 : (72 : Nat) &&& 128 = 0 := by decide
    have a2 : (73 : Nat) &&& 128 = 0 := by decide
    rw [hw]
    simp [c_string, glyph_frames, glyph_index, hu, a1, a2]
  · intro font s rest w ds hs hp hl
    have h := answers_foldlM (fun w c => disp_putc font c w)
      (fun c => if c &&& 0x80 ≠ 0 then 0 else 9) s (fun c => answers_disp_putc font c)
    have hb : ∀ l : List Nat, (l.map (fun c => if c &&& 0x80 ≠ 0 then 0 else 9)).sum ≤
        9 * l.length := by
      intro l
      induction l with
      | nil => simp
      | cons c l ih =>
        simp only [List.map_cons, List.sum_cons, List.length_cons]
        split <;> omega
    obtain ⟨w', h1, -⟩ := h w ds hp (by have := hb s; omega)
    exact ⟨w', by rw [disp_puts_fold font s rest w hs]; exact h1⟩

/-- C6 on "HI" with a table whose glyph `idx` is eight copies of `idx`: the
transmit register receives eight 0x28 then eight 0x29. -/
theorem disp_puts_chars_witness :
    ∃ w', disp_puts (fun idx _ => idx.toNat % 256) [0x48, 0x49, 0]
        ⟨[], polls_of (List.replicate 18 0), []⟩ = some w' ∧
      tx_bytes w'.trace = List.replicate 8 0x28 ++ List.replicate 8 0x29 := by
  obtain ⟨w', h⟩ := disp_puts_chars.2.2.2.2 (fun idx _ => idx.toNat % 256) [0x48, 0x49] []
    ⟨[], polls_of (List.replicate 18 0), []⟩ (List.replicate 18 0) (by decide) rfl
    (by decide)
  obtain ⟨evs, ht, hw⟩ := disp_puts_chars.2.2.2.1 (fun idx _ => idx.toNat % 256) _ w'
    (fun idx _ => Nat.mod_lt _ (by decide)) h
  simp only [List.nil_append] at ht
  refine ⟨w', h, ?_⟩
  have e1 := tx_bytes_frame DISP_MODE_DATA
  rw [ht, ← tx_bytes_writes, hw]
  have e2 : ∀ bs rest, tx_bytes (data_frame bs ++ rest) = bs ++ tx_bytes rest :=
    fun bs rest => tx_bytes_frame DISP_MODE_DATA bs rest
  have e3 := e2 ((List.range 8).map (fun _ : Nat => (0x49 - 0x20 : Int).toNat % 256)) []
  rw [List.append_nil] at e3
  rw [e2, e3]
  decide

/-! ## disp_init -/

theorem disp_init_eq (w : World) : disp_init w = next (spi_init w) disp_init_tail := rfl

theorem steps_init_tail :
    Steps disp_init_tail (Event.write 32 (0x60000000 + 0x18) 8 :: init_writes)
      Line.idle Line.idle := by
  have h := steps_pre Line.idle Line.idle 32 (0x60000000 + 0x18) (1 <<< 3) (by decide)
    (steps_next (steps_disp_cmd [0xAE] 1)
    (steps_next (steps_disp_cmd [0xD5, 0x80] 2)
    (steps_next (steps_disp_cmd [0xA8, 0x3F] 2)
    (steps_next (steps_disp_cmd [0xD3, 0x00] 2)
    (steps_next (steps_disp_cmd [0x40] 1)
    (steps_next (steps_disp_cmd [0x8D, 0x14] 2)
    (steps_next (steps_disp_cmd [0xA0] 1)
    (steps_next (steps_disp_cmd [0xC0] 1)
    (steps_next (steps_disp_cmd [0xDA, 0o22] 2)
    (steps_next (steps_disp_cmd [0x81, 0xCF] 2)
    (steps_next (steps_disp_cmd [0xD9, 0xF1] 2)
    (steps_next (steps_disp_cmd [0xDB, 0x40] 2)
    (steps_next (steps_disp_cmd [0xA4] 1)
    (steps_next (steps_disp_clear 0xFF)
    (steps_next (steps_disp_cmd [0x20, 0x02] 2)
      (steps_disp_cmd [0xAF] 1))))))))))))))))
  rw [selected_pages_flatMap] at h
  have e : (Event.write 32 (0x60000000 + 0x18) (1 <<< 3 % 2 ^ 32) ::
      (cmd_frame (([0xAE] : List Nat).take 1 |>.map u8) ++
      (cmd_frame (([0xD5, 0x80] : List Nat).take 2 |>.map u8) ++
      (cmd_frame (([0xA8, 0x3F] : List Nat).take 2 |>.map u8) ++
      (cmd_frame (([0xD3, 0x00] : List Nat).take 2 |>.map u8) ++
      (cmd_frame (([0x40] : List Nat).take 1 |>.map u8) ++
      (cmd_frame (([0x8D, 0x14] : List Nat).take 2 |>.map u8) ++
      (cmd_frame (([0xA0] : List Nat).take 1 |>.map u8) ++
      (cmd_frame (([0xC0] : List Nat).take 1 |>.map u8) ++
      (cmd_frame (([0xDA, 0o22] : List Nat).take 2 |>.map u8) ++
      (cmd_frame (([0x81, 0xCF] : List Nat).take 2 |>.map u8) ++
      (cmd_frame (([0xD9, 0xF1] : List Nat).take 2 |>.map u8) ++
      (cmd_frame (([0xDB, 0x40] : List Nat).take 2 |>.map u8) ++
      (cmd_frame (([0xA4] : List Nat).take 1 |>.map u8) ++
      ((selected_pages 0xFF).flatMap page_writes ++
      (cmd_frame (([0x20, 0x02] : List Nat).take 2 |>.map u8) ++
      cmd_frame (([0xAF] : List Nat).take 1 |>.map u8))))))))))))))))) =
      Event.write 32 (0x60000000 + 0x18) 8 :: init_writes := by
    simp [init_writes, init_cmds, u8]
  rw [e] at h
  exact h

theorem reg_wr_polls (reg value : Nat) (w : World) : (reg_wr reg value w).polls = w.polls := rfl

theorem answers_init_tail : Answers disp_init_tail 1143 := by
  have hc := answers_disp_clear 0xFF
  have hl : (selected_pages 0xFF).length = 8 := by decide
  rw [hl] at hc
  exact answers_pre (reg_wr (0x60000000 + 0x18) (1 <<< 3)) (reg_wr_polls _ _)
    (answers_next (answers_disp_cmd [0xAE] 1 (by decide))
    (answers_next (answers_disp_cmd [0xD5, 0x80] 2 (by decide))
    (answers_next (answers_disp_cmd [0xA8, 0x3F] 2 (by decide))
    (answers_next (answers_disp_cmd [0xD3, 0x00] 2 (by decide))
    (answers_next (answers_disp_cmd [0x40] 1 (by decide))
    (answers_next (answers_disp_cmd [0x8D, 0x14] 2 (by decide))
    (answers_next (answers_disp_cmd [0xA0] 1 (by decide))
    (answers_next (answers_disp_cmd [0xC0] 1 (by decide))
    (answers_next (answers_disp_cmd [0xDA, 0o22] 2 (by decide))
    (answers_next (answers_disp_cmd [0x81, 0xCF] 2 (by decide))
    (answers_next (answers_disp_cmd [0xD9, 0xF1] 2 (by decide))
    (answers_next (answers_disp_cmd [0xDB, 0x40] 2 (by decide))
    (answers_next (answers_disp_cmd [0xA4] 1 (by decide))
    (answers_next hc
    (answers_next (answers_disp_cmd [0x20, 0x02] 2 (by decide))
      (answers_disp_cmd [0xAF] 1 (by decide)))))))))))))))))

/-- The bytes that `disp_init` puts on the transmit register. -/
theorem tx_bytes_init :
    tx_bytes init_writes =
      init_cmds.flatten ++
        (List.range 8).flatMap (fun p => [0x20, 0x02, 0xB0 + p, 0x21, 0, 0x7F] ++
          List.replicate 128 0) ++ [0x20, 0x02, 0xAF] := by
  have e : ∀ bs rest, tx_bytes (cmd_frame bs ++ rest) = bs ++ tx_bytes rest :=
    fun bs rest => tx_bytes_frame DISP_MODE_CMD bs rest
  have d : ∀ bs rest, tx_bytes (data_frame bs ++ rest) = bs ++ tx_bytes rest :=
    fun bs rest => tx_bytes_frame DISP_MODE_DATA bs rest
  have n : tx_bytes [] = [] := rfl
  have hs : selected_pages 0xFF = [0, 1, 2, 3, 4, 5, 6, 7] := by decide
  have hr : List.range 8 = [0, 1, 2, 3, 4, 5, 6, 7] := by decide
  have e0 : ∀ bs, tx_bytes (cmd_frame bs) = bs := by
    intro bs
    have := e bs []
    rwa [List.append_nil, n, List.append_nil] at this
  rw [hr]
  simp only [init_writes, init_cmds, hs, page_writes, List.flatMap_cons, List.flatMap_nil,
    List.append_assoc, List.append_nil, e, d, e0, List.flatten, List.cons_append,
    List.nil_append]

theorem data_bytes_pages_append (m : Bool) (ps : List Nat) (rest : List Event) (r : List Nat)
    (hr : ∀ m1, data_bytes m1 rest = r) :
    data_bytes m (ps.flatMap page_writes ++ rest) = List.replicate (128 * ps.length) 0 ++ r := by
  induction ps generalizing m with
  | nil => simpa using hr m
  | cons p ps ih =>
    rw [List.flatMap_cons, page_writes, List.append_assoc, List.append_assoc,
      List.append_assoc, List.append_assoc, data_bytes_cmd_frame,
      data_bytes_cmd_frame, data_bytes_cmd_frame, data_bytes_data_frame,
      ih, List.length_cons, Nat.mul_succ, Nat.add_comm, List.replicate_add, List.append_assoc]

theorem data_bytes_init (m : Bool) : data_bytes m init_writes = List.replicate 1024 0 := by
  have hl : (selected_pages 0xFF).length = 8 := by decide
  have hr : ∀ m1, data_bytes m1 (cmd_frame [0x20, 0x02] ++ cmd_frame [0xAF]) = [] := by
    intro m1
    have e := data_bytes_cmd_frame false [0xAF] []
    rw [List.append_nil] at e
    rw [data_bytes_cmd_frame, e]
    rfl
  have hp := data_bytes_pages_append false (selected_pages 0xFF) _ [] hr
  rw [hl] at hp
  simp only [init_writes, init_cmds, List.flatMap_cons, List.flatMap_nil, List.append_assoc,
    List.append_nil, data_bytes_cmd_frame, hp]

theorem display_on_once :
    (init_cmds.flatten ++
      (List.range 8).flatMap (fun p => [0x20, 0x02, 0xB0 + p, 0x21, 0, 0x7F] ++
        List.replicate 128 0) ++ [0x20, 0x02, 0xAF]).count 0xAF = 1 := by
  have h1 : init_cmds.flatten.count 0xAF = 0 := by decide
  have h2 : ((List.range 8).flatMap (fun p => [0x20, 0x02, 0xB0 + p, 0x21, 0, 0x7F] ++
      List.replicate 128 0)).count 0xAF = 0 := by
    rw [List.count_eq_zero]
    intro hm
    rw [List.mem_flatMap] at hm
    obtain ⟨p, -, hp⟩ := hm
    simp at hp
    omega
  have h3 : ([0x20, 0x02, 0xAF] : List Nat).count 0xAF = 1 := by decide
  rw [List.count_append, List.count_append, h1, h2, h3]
theorem tx_bytes_cons_other (e : Event) (t : List Event) (h : tx_byte e = none) :
    tx_bytes (e :: t) = tx_bytes t := by
  simp [tx_bytes, List.filterMap_cons, h]

theorem init_writes_last : init_writes.getLast? = some CS_OFF := by
  have h : init_writes = (init_cmds.flatMap cmd_frame ++ (selected_pages 0xFF).flatMap page_writes ++
      cmd_frame [0x20, 0x02] ++ DC_CMD :: CS_ON :: [TX 0xAF]) ++ [CS_OFF] := by
    simp [init_writes, cmd_frame, frame]
  rw [h, List.getLast?_append]
  rfl
theorem init_writes_eq :
    init_writes =
      cmd_frame [0xAE] ++ cmd_frame [0xD5, 0x80] ++ cmd_frame [0xA8, 0x3F] ++
      cmd_frame [0xD3, 0x00] ++ cmd_frame [0x40] ++ cmd_frame [0x8D, 0x14] ++
      cmd_frame [0xA0] ++ cmd_frame [0xC0] ++ cmd_frame [0xDA, 0x12] ++
      cmd_frame [0x81, 0xCF] ++ cmd_frame [0xD9, 0xF1] ++ cmd_frame [0xDB, 0x40] ++
      cmd_frame [0xA4] ++
      (page_writes 0 ++ page_writes 1 ++ page_writes 2 ++ page_writes 3 ++ page_writes 4 ++
        page_writes 5 ++ page_writes 6 ++ page_writes 7) ++
      cmd_frame [0x20, 0x02] ++ cmd_frame [0xAF] := by
  have hs : selected_pages 0xFF = [0, 1, 2, 3, 4, 5, 6, 7] := by decide
  simp only [init_writes, init_cmds, hs, List.flatMap_cons, List.flatMap_nil, List.append_nil,
    List.append_assoc]
theorem data_bytes_cons_other (m : Bool) (e : Event) (t : List Event) (h1 : e ≠ DC_DATA)
    (h2 : e ≠ DC_CMD) (h3 : tx_byte e = none) : data_bytes m (e :: t) = data_bytes m t := by
  simp [data_bytes, h1, h2, h3]
/-- C5: after `spi_init` (and the release of the display reset pin),
`disp_init` writes the thirteen configuration command frames in the documented
order, then the frames of `disp_clear(0xFF)` (eight pages, 1024 zero data
bytes), then the addressing-mode frame `[20 02]`, then the Display-On frame
`[AF]`, which is the last bus event; 0xAF goes to the transmit register exactly
once; the call returns when the reset completes and the peripheral answers. -/
theorem disp_init_sequence :
    (∀ w w', disp_init w = some w' →
      ∃ w1 evs, spi_init w = some w1 ∧ w'.trace = w1.trace ++ evs ∧
        writes evs = Event.write 32 (0x60000000 + 0x18) 8 :: init_writes ∧
        tx_bytes evs =
          init_cmds.flatten ++
            (List.range 8).flatMap (fun p => [0x20, 0x02, 0xB0 + p, 0x21, 0, 0x7F] ++
              List.replicate 128 0) ++ [0x20, 0x02, 0xAF] ∧
        (tx_bytes evs).count 0xAF = 1 ∧
        ∀ m, data_bytes m evs = List.replicate 1024 0) ∧
    (∀ w busy s ds, w.polls = busy ++ s :: polls_of ds → (∀ b ∈ busy, b % 2 = 1) →
      s % 2 = 0 → 1143 ≤ ds.length → ∃ w', disp_init w = some w') ∧
    init_writes.getLast? = some CS_OFF ∧
    init_writes =
      cmd_frame [0xAE] ++ cmd_frame [0xD5, 0x80] ++ cmd_frame [0xA8, 0x3F] ++
      cmd_frame [0xD3, 0x00] ++ cmd_frame [0x40] ++ cmd_frame [0x8D, 0x14] ++
      cmd_frame [0xA0] ++ cmd_frame [0xC0] ++ cmd_frame [0xDA, 0x12] ++
      cmd_frame [0x81, 0xCF] ++ cmd_frame [0xD9, 0xF1] ++ cmd_frame [0xDB, 0x40] ++
      cmd_frame [0xA4] ++
      (page_writes 0 ++ page_writes 1 ++ page_writes 2 ++ page_writes 3 ++ page_writes 4 ++
        page_writes 5 ++ page_writes 6 ++ page_writes 7) ++
      cmd_frame [0x20, 0x02] ++ cmd_frame [0xAF] := by
  refine ⟨?_, ?_, ?_, ?_⟩
  · intro w w' h
    rw [disp_init_eq, next_eq_some] at h
    obtain ⟨w1, h1, h2⟩ := h
    obtain ⟨evs, ht, hw, -⟩ := steps_init_tail w1 w' h2
    have hx : tx_bytes evs = tx_bytes init_writes := by
      rw [← tx_bytes_writes, hw]
      exact tx_bytes_cons_other _ _ rfl
    refine ⟨w1, evs, h1, ht, hw, ?_, ?_, fun m => ?_⟩
    · rw [hx, tx_bytes_init]
    · rw [hx, tx_bytes_init]
      exact display_on_once
    · rw [← data_bytes_writes, hw]
      exact (data_bytes_cons_other m (Event.write 32 (0x60000000 + 0x18) 8) init_writes
        (by decide) (by decide) rfl).trans (data_bytes_init m)
  · intro w busy s ds hp hb hs hl
    obtain ⟨w1, h1, hp1, -, -⟩ := spi_init_ready w busy s (polls_of ds) hp hb hs
    obtain ⟨w', h2, -⟩ := answers_init_tail w1 ds hp1 hl
    exact ⟨w', by rw [disp_init_eq, h1, next_some]; exact h2⟩
  · exact init_writes_last
  · exact init_writes_eq
/-- C5 on a peripheral whose reset completes at the second poll and that then
answers every wait at once: `disp_init` returns, and after `spi_init` the
display part sends Display On once. -/
theorem disp_init_sequence_witness :
    ∃ w' w1 evs,
      disp_init ⟨[], [1] ++ 0 :: polls_of (List.replicate 1143 0), []⟩ = some w' ∧
      spi_init ⟨[], [1] ++ 0 :: polls_of (List.replicate 1143 0), []⟩ = some w1 ∧
      w'.trace = w1.trace ++ evs ∧ (tx_bytes evs).count 0xAF = 1 ∧
      data_bytes false evs = List.replicate 1024 0 := by
  obtain ⟨w', h⟩ := disp_init_sequence.2.1
    ⟨[], [1] ++ 0 :: polls_of (List.replicate 1143 0), []⟩ [1] 0 (List.replicate 1143 0) rfl
    (by decide) (by decide) (by rw [List.length_replicate])
  obtain ⟨w1, evs, h1, ht, -, -, hc, hd⟩ := disp_init_sequence.1 _ w' h
  exact ⟨w', w1, evs, h, h1, ht, hc, hd false⟩

/-! ## Frame discipline -/

/-- An event that leaves a released chip-select line as it is. -/
theorem run_idle_of_quiet (t : List Event) (h : ∀ e ∈ t, line_step Line.idle e = some Line.idle) :
    run Line.idle t = some Line.idle := by
  induction t with
  | nil => rfl
  | cons e t ih =>
    simp only [run, List.foldlM_cons, h e (List.mem_cons_self _ _)]
    exact ih (fun x hx => h x (List.mem_cons_of_mem _ hx))

theorem run_spi_init_trace (v0 k : Nat) : run Line.idle (spi_init_trace v0 k) = some Line.idle := by
  apply run_idle_of_quiet
  intro e he
  simp only [spi_init_trace, List.mem_append, List.mem_cons, List.mem_replicate,
    List.mem_singleton, List.not_mem_nil, or_false] at he
  rcases he with (((rfl | rfl | rfl | rfl) | ⟨-, rfl⟩) | (rfl | rfl | rfl | rfl | rfl | rfl)) <;>
    simp [line_step, CS_ON, CS_OFF, tx_byte, PM_ADDR, GCLK_ADDR, SPI_DISP, SERCOM0_ADDR,
      PORT_ADDR]

theorem steps_disp_test (type : Int) :
    Steps (disp_test type)
      (if type = 0 then CS_ON :: ((List.range 128).map (fun i => TX (u8 i)) ++ [CS_OFF]) else [])
      Line.idle Line.idle := by
  unfold disp_test
  by_cases ht : type = 0
  · simp only [if_pos ht]
    exact steps_frame (steps_wr_all (fun i : Nat => i) (List.range 128))
  · simp only [if_neg ht]
    exact steps_skip _

theorem framed_of_steps {f : World → Option World} {wr : List Event}
    (h : Steps f wr Line.idle Line.idle) (w w' : World) (hw : f w = some w') :
    ∃ evs, w'.trace = w.trace ++ evs ∧ well_framed evs := by
  obtain ⟨evs, ht, -, hr⟩ := h w w' hw
  exact ⟨evs, ht, hr⟩

theorem framed_disp_init (w w' : World) (h : disp_init w = some w') :
    ∃ evs, w'.trace = w.trace ++ evs ∧ well_framed evs := by
  rw [disp_init_eq, next_eq_some] at h
  obtain ⟨w1, h1, h2⟩ := h
  obtain ⟨busy, s, -, -, -, ht1, -⟩ := spi_init_some w w1 h1
  obtain ⟨evs, ht, -, hr⟩ := steps_init_tail w1 w' h2
  refine ⟨spi_init_trace (u32 (stored w.regs (PM_ADDR + 0x20))) busy.length ++ evs, ?_, ?_⟩
  · rw [ht, ht1, List.append_assoc]
  · exact run_of_append _ _ _ _ _ (run_spi_init_trace _ _) hr

/-- C7: whenever a public display operation returns, the events it appended to
the trace replay without error on the chip-select automaton, from released to
released: assertions and releases alternate, starting with an assertion and
ending with a release; every write to the transmit register falls between an
assertion and the next release; every release comes immediately after a status
read that showed Transmit Complete, itself after the last byte of the frame.
The automaton rejects a release without that read, a byte outside a frame, a
nested assertion and a frame left open. -/
theorem frames_well_formed :
    (∀ w w', disp_init w = some w' → ∃ evs, w'.trace = w.trace ++ evs ∧ well_framed evs) ∧
    (∀ lines w w', disp_clear lines w = some w' →
      ∃ evs, w'.trace = w.trace ++ evs ∧ well_framed evs) ∧
    (∀ x y w w', disp_pos x y w = some w' →
      ∃ evs, w'.trace = w.trace ++ evs ∧ well_framed evs) ∧
    (∀ (font : Int → Nat → Nat) c w w', disp_putc font c w = some w' →
      ∃ evs, w'.trace = w.trace ++ evs ∧ well_framed evs) ∧
    (∀ (font : Int → Nat → Nat) s w w', disp_puts font s w = some w' →
      ∃ evs, w'.trace = w.trace ++ evs ∧ well_framed evs) ∧
    (∀ type w w', disp_test type w = some w' →
      ∃ evs, w'.trace = w.trace ++ evs ∧ well_framed evs) ∧
    well_framed [CS_ON, TX 0x55, POLL 1, POLL 3, CS_OFF] ∧
    ¬ well_framed [CS_ON, TX 0x55, POLL 1, CS_OFF] ∧
    ¬ well_framed [CS_ON, POLL 3, TX 0x55, CS_OFF] ∧
    ¬ well_framed [TX 0x55] ∧
    ¬ well_framed [CS_ON, POLL 3, CS_ON, POLL 3, CS_OFF] ∧
    ¬ well_framed [CS_ON, TX 0x55, POLL 3] ∧
    ¬ well_framed [CS_OFF] := by
  refine ⟨framed_disp_init, fun lines => framed_of_steps (steps_disp_clear lines),
    fun x y => framed_of_steps (steps_disp_pos x y),
    fun font c => framed_of_steps (steps_disp_putc font c),
    fun font s => framed_of_steps (steps_disp_puts font s),
    fun type => framed_of_steps (steps_disp_test type), ?_, ?_, ?_, ?_, ?_, ?_, ?_⟩ <;> decide

/-- C7 on the pattern test: `disp_test(0)` returns on a peripheral that answers
every wait after two polls, and its trace is a well-formed frame. -/
theorem frames_well_formed_witness :
    ∃ w', disp_test 0 ⟨[], polls_of (List.replicate 129 2), []⟩ = some w' ∧
      well_framed w'.trace := by
  have ha : Answers (disp_test 0) 129 := by
    have h := answers_wr_all (fun i : Nat => i) (List.range 128)
    rw [List.length_range] at h
    exact answers_frame h
  obtain ⟨w', h, -⟩ := ha ⟨[], polls_of (List.replicate 129 2), []⟩ (List.replicate 129 2) rfl
    (by rw [List.length_replicate])
  obtain ⟨evs, ht, hf⟩ := frames_well_formed.2.2.2.2.2.1 0 _ w' h
  simp only [List.nil_append] at ht
  exact ⟨w', h, by rw [ht]; exact hf⟩

/-! ## Mode line discipline -/

theorem mode_frames_other (dc : Option Nat) (cur : Option (Nat × List Nat)) (e : Event)
    (t : List Event) (h1 : e ≠ DC_CMD) (h2 : e ≠ DC_DATA) (h3 : e ≠ CS_ON) (h4 : e ≠ CS_OFF)
    (h5 : tx_byte e = none) : mode_frames dc cur (e :: t) = mode_frames dc cur t := by
  cases cur <;> simp [mode_frames, h1, h2, h3, h4, h5]

theorem mode_frames_writes (dc : Option Nat) (cur : Option (Nat × List Nat)) (t : List Event) :
    mode_frames dc cur (writes t) = mode_frames dc cur t := by
  induction t generalizing dc cur with
  | nil => rfl
  | cons e t ih =>
    cases e with
    | read width reg v =>
      have h : writes (Event.read width reg v :: t) = writes t := by
        simp [writes, Event.is_write]
      rw [h, ih, mode_frames_other dc cur (Event.read width reg v) t (by simp [DC_CMD])
        (by simp [DC_DATA]) (by simp [CS_ON]) (by simp [CS_OFF]) rfl]
    | write width reg v =>
      have h : writes (Event.write width reg v :: t) = Event.write width reg v :: writes t := by
        simp [writes, Event.is_write]
      rw [h]
      cases cur <;> simp only [mode_frames, ih]

theorem mode_frames_tx (dc : Option Nat) (m : Nat) (bs more : List Nat) (rest : List Event) :
    mode_frames dc (some (m, bs)) (more.map TX ++ rest) =
      mode_frames dc (some (m, bs ++ more)) rest := by
  induction more generalizing bs with
  | nil => simp
  | cons b more ih =>
    have h1 : TX b ≠ DC_CMD := by simp [TX, DC_CMD]
    have h2 : TX b ≠ DC_DATA := by simp [TX, DC_DATA]
    have h3 : TX b ≠ CS_ON := by simp [TX, CS_ON]
    have h4 : TX b ≠ CS_OFF := by simp [TX, CS_OFF]
    have h5 : tx_byte (TX b) = some b := by simp [tx_byte, TX]
    simp only [List.map_cons, List.cons_append, mode_frames, h1, h2, h3, h4, h5, or_self,
      if_false]
    exact (ih (bs ++ [b])).trans (by simp)

theorem mode_frames_cmd_frame (dc : Option Nat) (bs : List Nat) (rest : List Event) :
    mode_frames dc none (cmd_frame bs ++ rest) =
      (mode_frames none none rest).map (fun fs => (DISP_MODE_CMD, bs) :: fs) := by
  have h : mode_frames dc none (cmd_frame bs ++ rest) =
      mode_frames none (some (DISP_MODE_CMD, [])) (bs.map TX ++ CS_OFF :: rest) := by
    have a : CS_ON ≠ DC_CMD := by decide
    have b : CS_ON ≠ DC_DATA := by decide
    simp [cmd_frame, frame, mode_frames, a, b]
  have c1 : CS_OFF ≠ DC_CMD := by decide
  have c2 : CS_OFF ≠ DC_DATA := by decide
  have c3 : CS_OFF ≠ CS_ON := by decide
  rw [h, mode_frames_tx]
  simp [mode_frames, c1, c2, c3]

theorem mode_frames_data_frame (dc : Option Nat) (bs : List Nat) (rest : List Event) :
    mode_frames dc none (data_frame bs ++ rest) =
      (mode_frames none none rest).map (fun fs => (DISP_MODE_DATA, bs) :: fs) := by
  have h : mode_frames dc none (data_frame bs ++ rest) =
      mode_frames none (some (DISP_MODE_DATA, [])) (bs.map TX ++ CS_OFF :: rest) := by
    have a : CS_ON ≠ DC_CMD := by decide
    have b : CS_ON ≠ DC_DATA := by decide
    have c : DC_DATA ≠ DC_CMD := by decide
    simp [data_frame, frame, mode_frames, a, b, c]
  have c1 : CS_OFF ≠ DC_CMD := by decide
  have c2 : CS_OFF ≠ DC_DATA := by decide
  have c3 : CS_OFF ≠ CS_ON := by decide
  rw [h, mode_frames_tx]
  simp [mode_frames, c1, c2, c3]

theorem render_cons (f : Nat × List Nat) (fl : List (Nat × List Nat)) :
    render (f :: fl) =
      (if f.1 = DISP_MODE_CMD then cmd_frame f.2 else data_frame f.2) ++ render fl := by
  simp [render]

/-- Replaying the writes of a list of frames gives the list back. -/
theorem mode_frames_render (dc : Option Nat) (fl : List (Nat × List Nat))
    (h : ∀ f ∈ fl, f.1 = DISP_MODE_CMD ∨ f.1 = DISP_MODE_DATA) :
    mode_frames dc none (render fl) = some fl := by
  induction fl generalizing dc with
  | nil => rfl
  | cons f fl ih =>
    have hf := h f (List.mem_cons_self _ _)
    have ih' := ih none (fun g hg => h g (List.mem_cons_of_mem _ hg))
    obtain ⟨m, bs⟩ := f
    rw [render_cons]
    rcases hf with hf | hf
    · simp only at hf
      subst hf
      rw [if_pos rfl, mode_frames_cmd_frame, ih']
      rfl
    · simp only at hf
      subst hf
      rw [if_neg (by simp [DISP_MODE_DATA, DISP_MODE_CMD]), mode_frames_data_frame, ih']
      rfl

theorem render_flatMap {α : Type} (l : List α) (g : α → List (Nat × List Nat)) :
    l.flatMap (fun a => render (g a)) = render (l.flatMap g) := by
  simp [render, List.flatMap_assoc]

theorem render_append (a b : List (Nat × List Nat)) : render (a ++ b) = render a ++ render b := by
  simp [render]

theorem render_pos (x y : Nat) : pos_frames x y = render (pos_modes x y) := by
  simp [render, pos_modes, pos_frames, DISP_MODE_CMD]

theorem render_page (p : Nat) : page_writes p = render (page_modes p) := by
  simp [render, page_modes, page_writes, DISP_MODE_CMD, DISP_MODE_DATA]

theorem render_glyph (font : Int → Nat → Nat) (c : Nat) :
    glyph_frames font c = render (glyph_modes font c) := by
  unfold glyph_frames glyph_modes
  split <;> simp [render, DISP_MODE_CMD, DISP_MODE_DATA]

theorem render_init : init_writes = render init_modes := by
  have h : init_cmds.flatMap cmd_frame =
      render (init_cmds.map (fun cmd => (DISP_MODE_CMD, cmd))) := by
    simp [render, List.flatMap_map]
  have hp : (selected_pages 0xFF).flatMap page_writes =
      render ((selected_pages 0xFF).flatMap page_modes) := by
    have e : page_writes = fun p => render (page_modes p) := funext render_page
    rw [e, render_flatMap]
  have hc : cmd_frame [0x20, 0x02] ++ cmd_frame [0xAF] =
      render [(DISP_MODE_CMD, [0x20, 0x02]), (DISP_MODE_CMD, [0xAF])] := by
    simp [render]
  rw [init_writes, init_modes, render_append, render_append, h, hp, List.append_assoc, hc]

theorem modes_of_steps {f : World → Option World} {s1 s2 : Line} (fl : List (Nat × List Nat))
    (h : Steps f (render fl) s1 s2)
    (hfl : ∀ g ∈ fl, g.1 = DISP_MODE_CMD ∨ g.1 = DISP_MODE_DATA) (w w' : World)
    (hw : f w = some w') :
    ∃ evs, w'.trace = w.trace ++ evs ∧ mode_frames none none evs = some fl := by
  obtain ⟨evs, ht, hwr, -⟩ := h w w' hw
  exact ⟨evs, ht, by rw [← mode_frames_writes, hwr, mode_frames_render none fl hfl]⟩
theorem mode_frames_quiet (dc : Option Nat) (cur : Option (Nat × List Nat))
    (pre t : List Event)
    (h : ∀ e ∈ pre, e ≠ DC_CMD ∧ e ≠ DC_DATA ∧ e ≠ CS_ON ∧ e ≠ CS_OFF ∧ tx_byte e = none) :
    mode_frames dc cur (pre ++ t) = mode_frames dc cur t := by
  induction pre with
  | nil => rfl
  | cons e pre ih =>
    obtain ⟨h1, h2, h3, h4, h5⟩ := h e (List.mem_cons_self _ _)
    rw [List.cons_append, mode_frames_other dc cur e _ h1 h2 h3 h4 h5]
    exact ih (fun x hx => h x (List.mem_cons_of_mem _ hx))

theorem spi_init_trace_quiet (v0 k : Nat) :
    ∀ e ∈ spi_init_trace v0 k,
      e ≠ DC_CMD ∧ e ≠ DC_DATA ∧ e ≠ CS_ON ∧ e ≠ CS_OFF ∧ tx_byte e = none := by
  intro e he
  simp only [spi_init_trace, List.mem_append, List.mem_cons, List.mem_replicate,
    List.mem_singleton, List.not_mem_nil, or_false] at he
  rcases he with (((rfl | rfl | rfl | rfl) | ⟨-, rfl⟩) | (rfl | rfl | rfl | rfl | rfl | rfl)) <;>
    simp [DC_CMD, DC_DATA, CS_ON, CS_OFF, tx_byte, PM_ADDR, GCLK_ADDR, SPI_DISP, SERCOM0_ADDR,
      PORT_ADDR]

theorem modes_valid_pages (l : List Nat) :
    ∀ g ∈ l.flatMap page_modes, g.1 = DISP_MODE_CMD ∨ g.1 = DISP_MODE_DATA := by
  intro g hg
  rw [List.mem_flatMap] at hg
  obtain ⟨p, -, hp⟩ := hg
  simp only [page_modes, List.mem_cons, List.mem_singleton, List.not_mem_nil, or_false] at hp
  rcases hp with rfl | rfl | rfl | rfl <;> simp

theorem modes_valid_glyph (font : Int → Nat → Nat) (c : Nat) :
    ∀ g ∈ glyph_modes font c, g.1 = DISP_MODE_CMD ∨ g.1 = DISP_MODE_DATA := by
  intro g hg
  unfold glyph_modes at hg
  split at hg
  · simp at hg
  · simp only [List.mem_singleton] at hg
    subst hg
    exact Or.inr rfl

theorem modes_valid_init : ∀ g ∈ init_modes, g.1 = DISP_MODE_CMD ∨ g.1 = DISP_MODE_DATA := by
  intro g hg
  simp only [init_modes, List.mem_append, List.mem_map] at hg
  rcases hg with (⟨cmd, -, rfl⟩ | hg) | hg
  · exact Or.inl rfl
  · exact modes_valid_pages _ g hg
  · simp only [List.mem_cons, List.mem_singleton, List.not_mem_nil, or_false] at hg
    rcases hg with rfl | rfl <;> exact Or.inl rfl

theorem modes_disp_init (w w' : World) (h : disp_init w = some w') :
    ∃ evs, w'.trace = w.trace ++ evs ∧ mode_frames none none evs = some init_modes := by
  rw [disp_init_eq, next_eq_some] at h
  obtain ⟨w1, h1, h2⟩ := h
  obtain ⟨busy, s, -, -, -, ht1, -⟩ := spi_init_some w w1 h1
  obtain ⟨evs, ht, hw, -⟩ := steps_init_tail w1 w' h2
  refine ⟨spi_init_trace (u32 (stored w.regs (PM_ADDR + 0x20))) busy.length ++ evs, ?_, ?_⟩
  · rw [ht, ht1, List.append_assoc]
  · rw [mode_frames_quiet _ _ _ _ (spi_init_trace_quiet _ _), ← mode_frames_writes, hw,
      mode_frames_other none none (Event.write 32 (0x60000000 + 0x18) 8) init_writes
        (by decide) (by decide) (by decide) (by decide) rfl,
      render_init, mode_frames_render none init_modes modes_valid_init]

/-- C8: in every trace produced by `disp_cmd`, `disp_pos`, `disp_clear`,
`disp_putc`, `disp_puts` and `disp_init`, the mode line is written before the
chip-select assertion of each frame and never while chip-select is asserted
(the replay does not fail), and the mode in force is Command for every frame
sent through `disp_cmd` and Data for every clear and glyph frame (the frames
the replay returns). A frame without its own mode write, or a mode write
inside a frame, makes the replay fail. -/
theorem mode_line_discipline :
    (∀ cmd len w w', disp_cmd cmd len w = some w' →
      ∃ evs, w'.trace = w.trace ++ evs ∧
        mode_frames none none evs = some [(DISP_MODE_CMD, (cmd.take len).map u8)]) ∧
    (∀ x y w w', disp_pos x y w = some w' →
      ∃ evs, w'.trace = w.trace ++ evs ∧ mode_frames none none evs = some (pos_modes x y)) ∧
    (∀ lines w w', disp_clear lines w = some w' →
      ∃ evs, w'.trace = w.trace ++ evs ∧
        mode_frames none none evs = some ((selected_pages lines).flatMap page_modes)) ∧
    (∀ (font : Int → Nat → Nat) c w w', disp_putc font c w = some w' →
      ∃ evs, w'.trace = w.trace ++ evs ∧
        mode_frames none none evs = some (glyph_modes font c)) ∧
    (∀ (font : Int → Nat → Nat) s w w', disp_puts font s w = some w' →
      ∃ evs, w'.trace = w.trace ++ evs ∧
        mode_frames none none evs = some ((c_string s).flatMap (glyph_modes font))) ∧
    (∀ w w', disp_init w = some w' →
      ∃ evs, w'.trace = w.trace ++ evs ∧ mode_frames none none evs = some init_modes) ∧
    mode_frames none none [CS_ON, TX 0x55, POLL 3, CS_OFF] = none ∧
    mode_frames none none [DC_CMD, CS_ON, DC_DATA, TX 0x55, POLL 3, CS_OFF] = none ∧
    mode_frames none none
      [DC_DATA, CS_ON, TX 0x55, POLL 3, CS_OFF, CS_ON, TX 0x55, POLL 3, CS_OFF] = none := by
  refine ⟨?_, ?_, ?_, ?_, ?_, modes_disp_init, by decide, by decide, by decide⟩
  · intro cmd len
    have h := steps_disp_cmd cmd len
    have e : cmd_frame ((cmd.take len).map u8) =
        render [(DISP_MODE_CMD, (cmd.take len).map u8)] := by simp [render]
    rw [e] at h
    exact modes_of_steps _ h (by simp)
  · intro x y
    have h := steps_disp_pos x y
    rw [render_pos] at h
    exact modes_of_steps _ h (by simp [pos_modes])
  · intro lines
    have h := steps_disp_clear lines
    have e : page_writes = fun p => render (page_modes p) := funext render_page
    rw [selected_pages_flatMap, e, render_flatMap] at h
    exact modes_of_steps _ h (modes_valid_pages _)
  · intro font c
    have h := steps_disp_putc font c
    rw [render_glyph] at h
    exact modes_of_steps _ h (modes_valid_glyph font c)
  · intro font s
    have h := steps_disp_puts font s
    have e : glyph_frames font = fun c => render (glyph_modes font c) :=
      funext (render_glyph font)
    rw [e, render_flatMap] at h
    refine modes_of_steps _ h ?_
    intro g hg
    rw [List.mem_flatMap] at hg
    obtain ⟨c, -, hc⟩ := hg
    exact modes_valid_glyph font c g hc

/-- C8 on `disp_clear(0x81)`: eight frames, the six address frames in Command
mode and the two frames of 128 zeros in Data mode. -/
theorem mode_line_discipline_witness :
    ∃ w', disp_clear 0x81 ⟨[], polls_of (List.replicate 276 0), []⟩ = some w' ∧
      mode_frames none none w'.trace = some (page_modes 0 ++ page_modes 7) := by
  obtain ⟨w', h, -⟩ := answers_disp_clear 0x81 ⟨[], polls_of (List.replicate 276 0), []⟩
    (List.replicate 276 0) rfl (by rw [List.length_replicate]; decide)
  obtain ⟨evs, ht, hm⟩ := mode_line_discipline.2.2.1 0x81 _ w' h
  have hs : selected_pages 0x81 = [0, 7] := by decide
  simp only [List.nil_append] at ht
  refine ⟨w', h, ?_⟩
  rw [ht, hm, hs]
  rfl

/-! ## The console: uart_putc and uart_puthex -/

theorem reg_rd_uart_intflag (w : World) :
    reg_rd (UART_DBG + 0x18) w =
      match w.polls with
      | [] => none
      | s :: rest =>
        some (s % 2 ^ 32,
          ⟨w.regs, rest, w.trace ++ [Event.read 32 (UART_DBG + 0x18) (s % 2 ^ 32)]⟩) := by
  have h : is_intflag (UART_DBG + 0x18) = true := by decide
  unfold reg_rd hw_read
  rw [if_pos h]
  cases w.polls with
  | nil => rfl
  | cons s rest => rfl

theorem uart_chars_append (a b : List Event) :
    uart_chars (a ++ b) = uart_chars a ++ uart_chars b := by
  simp [uart_chars]

/-- Every run of the wait of `uart_putc` that ends has only read the status
register, up to and including the first sample with Data Register Empty. -/
theorem uart_putc_loop_some (fuel : Nat) (w w' : World) (h : uart_putc_loop fuel w = some w') :
    ∃ busy s, w.polls = busy ++ s :: w'.polls ∧ (∀ b ∈ busy, (b % 2 ^ 32) &&& 1 = 0) ∧
      (s % 2 ^ 32) &&& 1 ≠ 0 ∧ w'.regs = w.regs ∧
      w'.trace =
        w.trace ++ (busy ++ [s]).map (fun x => Event.read 32 (UART_DBG + 0x18) (x % 2 ^ 32)) := by
  induction fuel generalizing w with
  | zero => simp [uart_putc_loop] at h
  | succ n ih =>
    rw [uart_putc_loop, reg_rd_uart_intflag] at h
    cases hp : w.polls with
    | nil => simp [hp] at h
    | cons s rest =>
      rw [hp] at h
      simp only at h
      by_cases hs : (s % 2 ^ 32) &&& 1 = 0
      · rw [if_pos hs] at h
        obtain ⟨busy, s', h1, h2, h3, h4, h5⟩ := ih
          ⟨w.regs, rest, w.trace ++ [Event.read 32 (UART_DBG + 0x18) (s % 2 ^ 32)]⟩ h
        refine ⟨s :: busy, s', ?_, ?_, h3, ?_, ?_⟩
        · simpa using h1
        · intro b hb
          rcases List.mem_cons.mp hb with rfl | hb
          · exact hs
          · exact h2 b hb
        · simpa using h4
        · simp [h5]
      · rw [if_neg hs] at h
        cases h
        exact ⟨[], s, by simp, by simp, hs, rfl, by simp⟩

theorem uart_putc_loop_ready (fuel : Nat) (w : World) (busy : List Nat) (s : Nat)
    (rest : List Nat) (hp : w.polls = busy ++ s :: rest)
    (hb : ∀ b ∈ busy, (b % 2 ^ 32) &&& 1 = 0) (hs : (s % 2 ^ 32) &&& 1 ≠ 0)
    (hf : busy.length < fuel) :
    uart_putc_loop fuel w =
      some ⟨w.regs, rest,
        w.trace ++ (busy ++ [s]).map (fun x => Event.read 32 (UART_DBG + 0x18) (x % 2 ^ 32))⟩ := by
  induction busy generalizing w fuel with
  | nil =>
    cases fuel with
    | zero => simp at hf
    | succ n =>
      rw [uart_putc_loop, reg_rd_uart_intflag, hp]
      simp only [List.nil_append, if_neg hs, List.map_cons, List.map_nil]
  | cons b busy ih =>
    cases fuel with
    | zero => simp at hf
    | succ n =>
      rw [uart_putc_loop, reg_rd_uart_intflag, hp]
      have hb0 : (b % 2 ^ 32) &&& 1 = 0 := hb b (List.mem_cons_self _ _)
      simp only [List.cons_append, hb0, if_true]
      rw [ih n ⟨w.regs, busy ++ s :: rest,
        w.trace ++ [Event.read 32 (UART_DBG + 0x18) (b % 2 ^ 32)]⟩ rfl
        (fun x hx => hb x (List.mem_cons_of_mem _ hx)) (by simpa using hf)]
      simp

theorem uart_chars_reads (ps : List Nat) :
    uart_chars (ps.map (fun x => Event.read 32 (UART_DBG + 0x18) (x % 2 ^ 32))) = [] := by
  induction ps with
  | nil => rfl
  | cons p ps ih => simp [uart_chars]

/-- Shape of every run of `uart_putc` that returns. -/
theorem uart_putc_some (c : Nat) (w w' : World) (h : uart_putc c w = some w') :
    ∃ busy s, w.polls = busy ++ s :: w'.polls ∧
      w'.regs = (UART_DBG + 0x28, u8 c) :: w.regs ∧
      w'.trace =
        w.trace ++ ((busy ++ [s]).map (fun x => Event.read 32 (UART_DBG + 0x18) (x % 2 ^ 32)) ++
          [Event.write 32 (UART_DBG + 0x28) (u8 c)]) := by
  unfold uart_putc at h
  rw [next_eq_some] at h
  obtain ⟨w1, h1, h2⟩ := h
  obtain ⟨busy, s, hp, -, -, hr, ht⟩ := uart_putc_loop_some _ _ _ h1
  have hu : u8 c % 2 ^ 32 = u8 c := Nat.mod_eq_of_lt (by unfold u8; omega)
  simp only [reg_wr, hw_write, hu, Option.some.injEq] at h2
  subst h2
  exact ⟨busy, s, hp, by simp [hr], by simp [ht]⟩

theorem sends_uart_putc (c : Nat) : Sends (uart_putc c) [u8 c] := by
  intro w w' h
  obtain ⟨busy, s, -, -, ht⟩ := uart_putc_some c w w' h
  refine ⟨_, ht, ?_⟩
  rw [uart_chars_append, uart_chars_reads]
  simp [uart_chars]

theorem sends_next {f g : World → Option World} {a b : List Nat} (hf : Sends f a)
    (hg : Sends g b) : Sends (fun w => next (f w) g) (a ++ b) := by
  intro w w' h
  rw [next_eq_some] at h
  obtain ⟨w1, h1, h2⟩ := h
  obtain ⟨e1, t1, r1⟩ := hf w w1 h1
  obtain ⟨e2, t2, r2⟩ := hg w1 w' h2
  exact ⟨e1 ++ e2, by rw [t2, t1, List.append_assoc], by rw [uart_chars_append, r1, r2]⟩

theorem answers_uart_putc (c : Nat) : Answers (uart_putc c) 1 := by
  intro w ds hp hl
  cases ds with
  | nil => simp at hl
  | cons d ds =>
    rw [polls_of_cons] at hp
    have hb : ∀ b ∈ List.replicate d 0, (b % 2 ^ 32) &&& 1 = 0 := by
      intro b hb
      rw [List.eq_of_mem_replicate hb]
      rfl
    have h := uart_putc_loop_ready (w.polls.length + 1) w _ 3 _ hp hb (by decide)
      (by simp [hp]; omega)
    have e : uart_putc c w = some (reg_wr (UART_DBG + 0x28) (u8 c)
        ⟨w.regs, polls_of ds, w.trace ++ (List.replicate d 0 ++ [3]).map
          (fun x => Event.read 32 (UART_DBG + 0x18) (x % 2 ^ 32))⟩) := by
      unfold uart_putc
      rw [h, next_some]
    exact ⟨_, e, rfl⟩

theorem hex_at_byte (i : Nat) : u8 (hex_at i) = hex_at i := by
  have h : hex_at i < 256 := by
    unfold hex_at
    by_cases hi : i < 16
    · have h16 : ∀ j < 16, hex.getD j 0 < 256 := by decide
      exact h16 i hi
    · rw [List.getD_eq_default]
      · decide
      · simpa [hex] using hi
  exact Nat.mod_eq_of_lt h

theorem sends_uart_puthex8 (c : Nat) :
    Sends (uart_puthex8 c) [hex_at ((c >>> 4) &&& 0xF), hex_at (c &&& 0xF)] := by
  have h := sends_next (sends_uart_putc (hex_at ((c >>> 4) &&& 0xF)))
    (sends_uart_putc (hex_at (c &&& 0xF)))
  rw [hex_at_byte, hex_at_byte] at h
  exact h

theorem answers_uart_puthex8 (c : Nat) : Answers (uart_puthex8 c) 2 :=
  answers_next (answers_uart_putc _) (answers_uart_putc _)
theorem low_nibble (x : Nat) : x &&& 0xF = x % 16 := Nat.and_pow_two_sub_one_eq_mod x 4

theorem nibbles_of_byte (c : Nat) :
    [hex_at ((c >>> 4) &&& 0xF), hex_at (c &&& 0xF)] =
      [hex_at ((c / 16) % 16), hex_at (c % 16)] := by
  rw [low_nibble, low_nibble, Nat.shiftRight_eq_div_pow]

theorem hex_digits_two (c : Nat) :
    hex_digits 2 c = [hex_at ((c / 16) % 16), hex_at (c % 16)] := by
  simp [hex_digits, List.range_succ]

theorem hex_digits_four (c : Nat) :
    hex_digits 4 c =
      [hex_at ((c / 4096) % 16), hex_at ((c / 256) % 16), hex_at ((c / 16) % 16),
       hex_at (c % 16)] := by
  simp [hex_digits, List.range_succ]

theorem hex_digits_eight (c : Nat) :
    hex_digits 8 c =
      [hex_at ((c / 268435456) % 16), hex_at ((c / 16777216) % 16),
       hex_at ((c / 1048576) % 16), hex_at ((c / 65536) % 16), hex_at ((c / 4096) % 16),
       hex_at ((c / 256) % 16), hex_at ((c / 16) % 16), hex_at (c % 16)] := by
  simp [hex_digits, List.range_succ]

theorem sends_uart_puthex8_digits (c : Nat) :
    Sends (uart_puthex8 c) [hex_at ((c / 16) % 16), hex_at (c % 16)] := by
  have h := sends_uart_puthex8 c
  rw [nibbles_of_byte] at h
  exact h

theorem sends_uart_puthex16 (c : Nat) (hc : c < 2 ^ 16) :
    Sends (uart_puthex16 c) (hex_digits 4 c) := by
  have h := sends_next (sends_uart_puthex8_digits (u8 (c >>> 8)))
    (sends_uart_puthex8_digits (u8 (c >>> 0)))
  have e1 : u8 (c >>> 8) / 16 % 16 = c / 4096 % 16 := by
    unfold u8; rw [Nat.shiftRight_eq_div_pow]; omega
  have e2 : u8 (c >>> 8) % 16 = c / 256 % 16 := by
    unfold u8; rw [Nat.shiftRight_eq_div_pow]; omega
  have e3 : u8 (c >>> 0) / 16 % 16 = c / 16 % 16 := by
    unfold u8; rw [Nat.shiftRight_eq_div_pow]; omega
  have e4 : u8 (c >>> 0) % 16 = c % 16 := by
    unfold u8; rw [Nat.shiftRight_eq_div_pow]; omega
  rw [e1, e2, e3, e4] at h
  rw [hex_digits_four]
  exact h

theorem sends_uart_puthex (c : Nat) (hc : c < 2 ^ 32) :
    Sends (uart_puthex c) (hex_digits 8 c) := by
  have h := sends_next (sends_uart_puthex8_digits (u8 (c >>> 24)))
    (sends_next (sends_uart_puthex8_digits (u8 (c >>> 16)))
      (sends_next (sends_uart_puthex8_digits (u8 (c >>> 8)))
        (sends_uart_puthex8_digits (u8 (c >>> 0)))))
  have e1 : u8 (c >>> 24) / 16 % 16 = c / 268435456 % 16 := by
    unfold u8; rw [Nat.shiftRight_eq_div_pow]; omega
  have e2 : u8 (c >>> 24) % 16 = c / 16777216 % 16 := by
    unfold u8; rw [Nat.shiftRight_eq_div_pow]; omega
  have e3 : u8 (c >>> 16) / 16 % 16 = c / 1048576 % 16 := by
    unfold u8; rw [Nat.shiftRight_eq_div_pow]; omega
  have e4 : u8 (c >>> 16) % 16 = c / 65536 % 16 := by
    unfold u8; rw [Nat.shiftRight_eq_div_pow]; omega
  have e5 : u8 (c >>> 8) / 16 % 16 = c / 4096 % 16 := by
    unfold u8; rw [Nat.shiftRight_eq_div_pow]; omega
  have e6 : u8 (c >>> 8) % 16 = c / 256 % 16 := by
    unfold u8; rw [Nat.shiftRight_eq_div_pow]; omega
  have e7 : u8 (c >>> 0) / 16 % 16 = c / 16 % 16 := by
    unfold u8; rw [Nat.shiftRight_eq_div_pow]; omega
  have e8 : u8 (c >>> 0) % 16 = c % 16 := by
    unfold u8; rw [Nat.shiftRight_eq_div_pow]; omega
  rw [e1, e2, e3, e4, e5, e6, e7, e8] at h
  rw [hex_digits_eight]
  exact h

theorem hex_index (i : Nat) (h : i < 16) : hex.indexOf (hex_at i) = i := by
  have h16 : ∀ j < 16, hex.indexOf (hex_at j) = j := by decide
  exact h16 i h

theorem hex_at_mem (x : Nat) : hex_at (x % 16) ∈ hex := by
  have h16 : ∀ j < 16, hex_at j ∈ hex := by decide
  exact h16 (x % 16) (Nat.mod_lt _ (by decide))

theorem hex_number_two (c : Nat) (hc : c < 2 ^ 8) : hex_number (hex_digits 2 c) = c := by
  rw [hex_digits_two]
  simp only [hex_number, List.foldl]
  rw [hex_index _ (Nat.mod_lt _ (by decide)), hex_index _ (Nat.mod_lt _ (by decide))]
  omega

theorem hex_number_four (c : Nat) (hc : c < 2 ^ 16) : hex_number (hex_digits 4 c) = c := by
  rw [hex_digits_four]
  simp only [hex_number, List.foldl]
  rw [hex_index _ (Nat.mod_lt _ (by decide)), hex_index _ (Nat.mod_lt _ (by decide)),
    hex_index _ (Nat.mod_lt _ (by decide)), hex_index _ (Nat.mod_lt _ (by decide))]
  omega

theorem hex_number_eight (c : Nat) (hc : c < 2 ^ 32) : hex_number (hex_digits 8 c) = c := by
  rw [hex_digits_eight]
  simp only [hex_number, List.foldl]
  rw [hex_index _ (Nat.mod_lt _ (by decide)), hex_index _ (Nat.mod_lt _ (by decide)),
    hex_index _ (Nat.mod_lt _ (by decide)), hex_index _ (Nat.mod_lt _ (by decide)),
    hex_index _ (Nat.mod_lt _ (by decide)), hex_index _ (Nat.mod_lt _ (by decide)),
    hex_index _ (Nat.mod_lt _ (by decide)), hex_index _ (Nat.mod_lt _ (by decide))]
  omega
/-- C15: for every 32-bit `c`, each run of `uart_puthex c` that returns has
sent exactly the 8 hexadecimal digits of `c`, most significant nibble first,
each a character of "0123456789ABCDEF", and reading them back in base 16 gives
`c`; likewise `uart_puthex16` sends the 4 digits of a 16-bit value and
`uart_puthex8` the 2 digits of a byte; the three return on a peripheral that
answers. -/
theorem uart_puthex_digits :
    (∀ c w w', c < 2 ^ 32 → uart_puthex c w = some w' →
      ∃ evs, w'.trace = w.trace ++ evs ∧ uart_chars evs = hex_digits 8 c) ∧
    (∀ c w w', c < 2 ^ 16 → uart_puthex16 c w = some w' →
      ∃ evs, w'.trace = w.trace ++ evs ∧ uart_chars evs = hex_digits 4 c) ∧
    (∀ c w w', c < 2 ^ 8 → uart_puthex8 c w = some w' →
      ∃ evs, w'.trace = w.trace ++ evs ∧ uart_chars evs = hex_digits 2 c) ∧
    (∀ c, c < 2 ^ 32 → (hex_digits 8 c).length = 8 ∧ hex_number (hex_digits 8 c) = c) ∧
    (∀ c, c < 2 ^ 16 → (hex_digits 4 c).length = 4 ∧ hex_number (hex_digits 4 c) = c) ∧
    (∀ c, c < 2 ^ 8 → (hex_digits 2 c).length = 2 ∧ hex_number (hex_digits 2 c) = c) ∧
    (∀ n c ch, ch ∈ hex_digits n c → ch ∈ hex) ∧
    (∀ n c k, k < n → (hex_digits n c).getD k 0 = hex_at ((c / 16 ^ (n - 1 - k)) % 16)) ∧
    hex = "0123456789ABCDEF".toList.map Char.toNat ∧
    (∀ c w ds, w.polls = polls_of ds → 8 ≤ ds.length → ∃ w', uart_puthex c w = some w') ∧
    (∀ c w ds, w.polls = polls_of ds → 4 ≤ ds.length → ∃ w', uart_puthex16 c w = some w') ∧
    (∀ c w ds, w.polls = polls_of ds → 2 ≤ ds.length → ∃ w', uart_puthex8 c w = some w') := by
  refine ⟨fun c w w' hc => sends_uart_puthex c hc w w',
    fun c w w' hc => sends_uart_puthex16 c hc w w', ?_, ?_, ?_, ?_, ?_, ?_, by decide, ?_, ?_, ?_⟩
  · intro c w w' _ h
    obtain ⟨evs, ht, hx⟩ := sends_uart_puthex8_digits c w w' h
    exact ⟨evs, ht, by rw [hx, hex_digits_two]⟩
  · intro c hc
    exact ⟨by simp [hex_digits], hex_number_eight c hc⟩
  · intro c hc
    exact ⟨by simp [hex_digits], hex_number_four c hc⟩
  · intro c hc
    exact ⟨by simp [hex_digits], hex_number_two c hc⟩
  · intro n c ch hm
    simp only [hex_digits, List.mem_map] at hm
    obtain ⟨k, -, rfl⟩ := hm
    exact hex_at_mem _
  · intro n c k hk
    have hl : k < (hex_digits n c).length := by simp [hex_digits, hk]
    rw [List.getD_eq_getElem _ _ hl]
    simp [hex_digits, List.getElem_reverse, List.getElem_range]
  · intro c w ds hp hl
    obtain ⟨w', h, -⟩ := answers_next (answers_uart_puthex8 (u8 (c >>> 24)))
      (answers_next (answers_uart_puthex8 (u8 (c >>> 16)))
        (answers_next (answers_uart_puthex8 (u8 (c >>> 8)))
          (answers_uart_puthex8 (u8 (c >>> 0))))) w ds hp hl
    exact ⟨w', h⟩
  · intro c w ds hp hl
    obtain ⟨w', h, -⟩ := answers_next (answers_uart_puthex8 (u8 (c >>> 8)))
      (answers_uart_puthex8 (u8 (c >>> 0))) w ds hp hl
    exact ⟨w', h⟩
  · intro c w ds hp hl
    obtain ⟨w', h, -⟩ := answers_uart_puthex8 c w ds hp hl
    exact ⟨w', h⟩

/-- C15 at 0xDEADBEEF on a console that answers after various delays: the
characters sent are "DEADBEEF", and they read back as 0xDEADBEEF. -/
theorem uart_puthex_digits_witness :
    ∃ w', uart_puthex 0xDEADBEEF ⟨[], polls_of [0, 1, 0, 2, 0, 0, 3, 0], []⟩ = some w' ∧
      uart_chars w'.trace = "DEADBEEF".toList.map Char.toNat ∧
      hex_number (uart_chars w'.trace) = 0xDEADBEEF := by
  obtain ⟨w', h⟩ := uart_puthex_digits.2.2.2.2.2.2.2.2.2.1 0xDEADBEEF
    ⟨[], polls_of [0, 1, 0, 2, 0, 0, 3, 0], []⟩ [0, 1, 0, 2, 0, 0, 3, 0] rfl (by decide)
  obtain ⟨evs, ht, hx⟩ := uart_puthex_digits.1 0xDEADBEEF _ w' (by decide) h
  have hn := (uart_puthex_digits.2.2.2.1 0xDEADBEEF (by decide)).2
  simp only [List.nil_append] at ht
  refine ⟨w', h, ?_, ?_⟩
  · rw [ht, hx]; decide
  · rw [ht, hx]; exact hn

/-! ## The console and the display share a peripheral -/

/-- C14, at the call `uart_putc('A')`: `UART_DBG` is the base address of
`SPI_DISP`, so the console writes the DATA register of the display transport,
and `uart_init_dbg` resets and reconfigures CTRLA, CTRLB and BAUD of the same
block, while the clock it enables is that of SERCOM2 (APBCMASK bit 4, GCLK
identifier 0x16), at another base address. -/
theorem uart_dbg_is_spi_disp :
    UART_DBG = SPI_DISP ∧
    uart_putc 0x41 ⟨[], [1], []⟩ =
      some ⟨[(SPI_DISP + 0x28, 0x41)], [],
        [Event.read 32 (SPI_DISP + 0x18) 1, Event.write 32 (SPI_DISP + 0x28) 0x41]⟩ ∧
    peripheral_writes [Event.read 32 (SPI_DISP + 0x18) 1, Event.write 32 (SPI_DISP + 0x28) 0x41] =
      [Event.write 32 (SPI_DISP + 0x28) 0x41] ∧
    (uart_init_dbg 64277 ⟨[], [0], []⟩).map (fun w => writes w.trace) =
      some [Event.write 32 (PM_ADDR + 0x20) (1 <<< 4),
        Event.write 16 (GCLK_ADDR + 0x02) ((1 <<< 14) ||| (1 <<< 8) ||| 0x16),
        Event.write 32 (SPI_DISP + 0x00) 0x01, Event.write 32 (SPI_DISP + 0x00) 0x40100004,
        Event.write 32 (SPI_DISP + 0x04) 0x00030000, Event.write 32 (SPI_DISP + 0x0C) 64277,
        Event.write 32 (SPI_DISP + 0x00) 0x40100006] ∧
    SERCOM2_ADDR ≠ SPI_DISP := by
  refine ⟨rfl, ?_, ?_, ?_, ?_⟩ <;> decide

/-! ## The glyph index and the column byte -/

theorem tx_bytes_data_frame (bs : List Nat) : tx_bytes (data_frame bs) = bs := by
  have e := tx_bytes_frame DISP_MODE_DATA bs []
  simpa [tx_bytes] using e

/-- C12, at the control character 0x0A: `disp_putc` does not reject it (bit 7
is clear), the index it computes is `0x0A - 0x20 = -22`, and the eight bytes it
sends are read at `font[-22]`, before the first glyph of the table. No code
below 0x20 is rejected and each gives a negative index; the codes 0x20..0x7E
give the indices 0..0x5E, and 0x7F gives 0x5F. -/
theorem glyph_index_control_char :
    (0x0A &&& 0x80 = 0) ∧ glyph_index 0x0A = -22 ∧
    (∀ font : Int → Nat → Nat,
      ∃ w', disp_putc font 0x0A ⟨[], polls_of (List.replicate 9 0), []⟩ = some w' ∧
        tx_bytes w'.trace = (List.range 8).map (fun i => u8 (font (-22) i))) ∧
    (List.range 0x20).all (fun c => c &&& 0x80 == 0 && decide (glyph_index c < 0)) = true ∧
    (List.range' 0x20 0x5F).all
      (fun c => decide (0 ≤ glyph_index c) && decide (glyph_index c ≤ 0x5E)) = true ∧
    glyph_index 0x7F = 0x5F := by
  refine ⟨by decide, by decide, ?_, by decide, by decide, by decide⟩
  intro font
  have ha := answers_disp_putc font 0x0A
  rw [if_neg (by decide)] at ha
  obtain ⟨w', h, -⟩ := ha ⟨[], polls_of (List.replicate 9 0), []⟩ (List.replicate 9 0) rfl
    (by decide)
  obtain ⟨evs, ht, hw, -⟩ := steps_disp_putc font 0x0A _ w' h
  rw [glyph_frames, if_neg (by decide)] at hw
  simp only [List.nil_append] at ht
  refine ⟨w', h, ?_⟩
  rw [ht, ← tx_bytes_writes, hw, tx_bytes_data_frame]
  rfl

theorem tx_bytes_disp_pos (x y : Nat) (w w' : World) (h : disp_pos x y w = some w') :
    ∃ evs, w'.trace = w.trace ++ evs ∧
      tx_bytes evs = [0x20, 0x02, u8 (u32 (0xB0 + y)), 0x21, u8 (u32 (x <<< 3)), 0x7F] := by
  obtain ⟨evs, ht, hw, -⟩ := steps_disp_pos x y w w' h
  refine ⟨evs, ht, ?_⟩
  have e : ∀ bs rest, tx_bytes (cmd_frame bs ++ rest) = bs ++ tx_bytes rest :=
    fun bs rest => tx_bytes_frame DISP_MODE_CMD bs rest
  have e3 := e [0x21, u8 (u32 (x <<< 3)), 0x7F] []
  rw [List.append_nil] at e3
  rw [← tx_bytes_writes, hw, pos_frames, e, e, e3]
  rfl

theorem column_byte_in_range (x : Nat) : u8 (u32 (x <<< 3)) ≤ 127 ↔ x % 32 ≤ 15 := by
  rw [column_byte]
  omega

/-- The range property holds exactly for the `x` whose start byte does not
leave the column window. -/
theorem pos_bytes_in_range_iff (x y : Nat) (hy : y ≤ 7) :
    pos_bytes_in_range x y ↔ x % 32 ≤ 15 := by
  constructor
  · intro hr
    obtain ⟨w', h, -⟩ := answers_disp_pos x y ⟨[], polls_of (List.replicate 9 0), []⟩
      (List.replicate 9 0) rfl (by decide)
    obtain ⟨evs, p, s, e, ht, hx, -, -, hs, -⟩ := hr _ w' h
    obtain ⟨evs1, ht1, hx1⟩ := tx_bytes_disp_pos x y _ w' h
    have he : evs = evs1 := List.append_cancel_left (ht.symm.trans ht1)
    rw [he, hx1] at hx
    simp only [List.cons.injEq, and_true, true_and] at hx
    rw [← column_byte_in_range, hx.2.1]
    exact hs
  · intro hx w w' h
    obtain ⟨evs, ht, hb⟩ := tx_bytes_disp_pos x y w w' h
    refine ⟨evs, _, _, _, ht, hb, ?_, ?_, ?_, ?_⟩
    · rw [page_byte y hy]; omega
    · rw [page_byte y hy]; omega
    · exact (column_byte_in_range x).mpr hx
    · have := (column_byte_in_range x).mpr hx
      omega

/-- C13 as stated fails at column 16 of page 0, which is within 0..127 and
0..7: the start column sent is `16 * 8 = 128`, greater than the end column
0x7F. -/
theorem pos_bytes_out_of_range : ¬ pos_bytes_in_range 16 0 := by
  rw [pos_bytes_in_range_iff 16 0 (by decide)]
  decide

/-- C13 amended: `disp_pos` takes its horizontal position in units of 8 pixel
columns; for `x` in 0..15 and a page `y` in 0..7 the bytes sent are
`0x20 0x02`, the page-select opcode `0xB0 + y` in `0xB0..0xB7`, and the
column-range command `0x21, 8 * x, 0x7F`, whose start column is at most 120;
for a column argument in 0..127 the range property holds exactly when
`x mod 32 ≤ 15`, the start byte being `8 * x mod 256`; the call returns on a
peripheral that answers. -/
theorem disp_pos_bytes_in_range :
    (∀ x y, x ≤ 15 → y ≤ 7 → pos_bytes_in_range x y) ∧
    (∀ x y w w', x ≤ 15 → y ≤ 7 → disp_pos x y w = some w' →
      ∃ evs, w'.trace = w.trace ++ evs ∧
        tx_bytes evs = [0x20, 0x02, 0xB0 + y, 0x21, 8 * x, 0x7F] ∧
        0xB0 ≤ 0xB0 + y ∧ 0xB0 + y ≤ 0xB7 ∧ 8 * x ≤ 120) ∧
    (∀ x y, x ≤ 127 → y ≤ 7 → (pos_bytes_in_range x y ↔ x % 32 ≤ 15)) ∧
    (∀ x y w w', disp_pos x y w = some w' →
      ∃ evs, w'.trace = w.trace ++ evs ∧
        tx_bytes evs = [0x20, 0x02, (0xB0 + y) % 256, 0x21, (8 * x) % 256, 0x7F]) ∧
    (∀ x y w ds, w.polls = polls_of ds → 9 ≤ ds.length → ∃ w', disp_pos x y w = some w') := by
  refine ⟨?_, ?_, ?_, ?_, ?_⟩
  · intro x y hx hy
    exact (pos_bytes_in_range_iff x y hy).mpr (by omega)
  · intro x y w w' hx hy h
    obtain ⟨evs, ht, hb⟩ := tx_bytes_disp_pos x y w w' h
    rw [page_byte y hy, column_byte, show x * 8 % 256 = 8 * x from by omega] at hb
    exact ⟨evs, ht, hb, by omega, by omega, by omega⟩
  · intro x y _ hy
    exact pos_bytes_in_range_iff x y hy
  · intro x y w w' h
    obtain ⟨evs, ht, hb⟩ := tx_bytes_disp_pos x y w w' h
    have e1 : u8 (u32 (0xB0 + y)) = (0xB0 + y) % 256 := by unfold u8 u32; omega
    rw [e1, column_byte, show x * 8 % 256 = 8 * x % 256 from by omega] at hb
    exact ⟨evs, ht, hb⟩
  · intro x y w ds hp hl
    obtain ⟨w', h, -⟩ := answers_disp_pos x y w ds hp hl
    exact ⟨w', h⟩

/-- C13 amended, at the last character column of the last page. -/
theorem disp_pos_bytes_in_range_witness :
    ∃ w', disp_pos 15 7 ⟨[], polls_of [0, 0, 1, 0, 0, 2, 0, 0, 0], []⟩ = some w' ∧
      tx_bytes w'.trace = [0x20, 0x02, 0xB7, 0x21, 120, 0x7F] ∧ pos_bytes_in_range 15 7 := by
  obtain ⟨w', h⟩ := disp_pos_bytes_in_range.2.2.2.2 15 7
    ⟨[], polls_of [0, 0, 1, 0, 0, 2, 0, 0, 0], []⟩ [0, 0, 1, 0, 0, 2, 0, 0, 0] rfl (by decide)
  obtain ⟨evs, ht, hb, -⟩ := disp_pos_bytes_in_range.2.1 15 7 _ w' (by decide) (by decide) h
  simp only [List.nil_append] at ht
  exact ⟨w', h, by rw [ht, hb], disp_pos_bytes_in_range.1 15 7 (by decide) (by decide)⟩

/-! ## The clock of the display transport -/

theorem next_rd_eq_some (r : Option (Nat × World)) (k : Nat → World → Option World)
    (w' : World) : next_rd r k = some w' ↔ ∃ v w1, r = some (v, w1) ∧ k v w1 = some w' := by
  cases r with
  | none => simp [next_rd]
  | some p =>
    obtain ⟨v0, w0⟩ := p
    constructor
    · intro h
      exact ⟨v0, w0, rfl, h⟩
    · rintro ⟨v, w1, h1, h2⟩
      cases h1
      exact h2

/-- A read that returns appends exactly one read event. -/
theorem hw_read_trace (width reg : Nat) (w : World) (v : Nat) (w1 : World)
    (h : hw_read width reg w = some (v, w1)) :
    w1.trace = w.trace ++ [Event.read width reg v] := by
  unfold hw_read at h
  split at h
  · cases hp : w.polls with
    | nil => simp [hp] at h
    | cons s rest =>
      simp only [hp, Option.some.injEq, Prod.mk.injEq] at h
      obtain ⟨rfl, rfl⟩ := h
      rfl
  · split at h
    · cases hp : w.polls with
      | nil => simp [hp] at h
      | cons s rest =>
        simp only [hp] at h
        split at h
        · simp only [Option.some.injEq, Prod.mk.injEq] at h
          obtain ⟨rfl, rfl⟩ := h
          rfl
        · simp only [Option.some.injEq, Prod.mk.injEq] at h
          obtain ⟨rfl, rfl⟩ := h
          rfl
    · simp only [Option.some.injEq, Prod.mk.injEq] at h
      obtain ⟨rfl, rfl⟩ := h
      rfl

theorem gclk_writes_append (a b : List Event) :
    gclk_writes (a ++ b) = gclk_writes a ++ gclk_writes b := by
  simp [gclk_writes]

theorem configured_refl (w : World) : Configured w w [] := ⟨[], by simp, rfl⟩

theorem configured_rd {w0 w w1 : World} {l : List (Nat × Nat)} {width reg v : Nat}
    (h0 : Configured w0 w l) (h : hw_read width reg w = some (v, w1)) :
    Configured w0 w1 l := by
  obtain ⟨evs, ht, hl⟩ := h0
  refine ⟨evs ++ [Event.read width reg v], ?_, ?_⟩
  · rw [hw_read_trace width reg w v w1 h, ht, List.append_assoc]
  · rw [gclk_writes_append, hl]
    simp [gclk_writes, gclk_cfg]

theorem configured_wr_other {w0 w : World} {l : List (Nat × Nat)} (width reg v : Nat)
    (hr : gclk_reg reg = false) (h0 : Configured w0 w l) :
    Configured w0 (hw_write width reg v w) l := by
  obtain ⟨evs, ht, hl⟩ := h0
  refine ⟨evs ++ [Event.write width reg (v % 2 ^ width)], ?_, ?_⟩
  · simp [hw_write, ht]
  · rw [gclk_writes_append, hl]
    simp [gclk_writes, gclk_cfg, hr]

theorem configured_wr_gclk {w0 w : World} {l : List (Nat × Nat)} (width reg v : Nat)
    (hr : gclk_reg reg = true) (h0 : Configured w0 w l) :
    Configured w0 (hw_write width reg v w) (l ++ [(reg, v % 2 ^ width)]) := by
  obtain ⟨evs, ht, hl⟩ := h0
  refine ⟨evs ++ [Event.write width reg (v % 2 ^ width)], ?_, ?_⟩
  · simp [hw_write, ht]
  · rw [gclk_writes_append, hl]
    simp [gclk_writes, gclk_cfg, hr]

theorem configured_wait_flag {w0 : World} {l : List (Nat × Nat)} (mask fuel : Nat)
    (w w1 : World) (h0 : Configured w0 w l) (h : hw_wait_flag mask fuel w = some w1) :
    Configured w0 w1 l := by
  induction fuel generalizing w with
  | zero => simp [hw_wait_flag] at h
  | succ n ih =>
    rw [hw_wait_flag] at h
    cases hr : reg_rd (SYSCTRL_ADDR + 0x0C) w with
    | none => simp [hr] at h
    | some p =>
      obtain ⟨v, w2⟩ := p
      rw [hr] at h
      simp only at h
      have h2 : Configured w0 w2 l := configured_rd h0 hr
      split at h
      · exact ih w2 h2 h
      · cases h
        exact h2

theorem configured_wait_mask {w0 : World} {l : List (Nat × Nat)} (mask fuel : Nat)
    (w w1 : World) (h0 : Configured w0 w l) (h : hw_wait_mask mask fuel w = some w1) :
    Configured w0 w1 l := by
  induction fuel generalizing w with
  | zero => simp [hw_wait_mask] at h
  | succ n ih =>
    rw [hw_wait_mask] at h
    cases hr : reg_rd (SYSCTRL_ADDR + 0x0C) w with
    | none => simp [hr] at h
    | some p =>
      obtain ⟨v, w2⟩ := p
      rw [hr] at h
      simp only at h
      have h2 : Configured w0 w2 l := configured_rd h0 hr
      split at h
      · exact ih w2 h2 h
      · cases h
        exact h2

theorem configured_wait_sync {w0 : World} {l : List (Nat × Nat)} (fuel : Nat)
    (w w1 : World) (h0 : Configured w0 w l) (h : hw_wait_sync fuel w = some w1) :
    Configured w0 w1 l := by
  induction fuel generalizing w with
  | zero => simp [hw_wait_sync] at h
  | succ n ih =>
    rw [hw_wait_sync] at h
    cases hr : reg8_rd (GCLK_ADDR + 0x01) w with
    | none => simp [hr] at h
    | some p =>
      obtain ⟨v, w2⟩ := p
      rw [hr] at h
      simp only at h
      have h2 : Configured w0 w2 l := configured_rd h0 hr
      split at h
      · exact ih w2 h2 h
      · cases h
        exact h2
theorem configured_congr {w w' : World} {l l' : List (Nat × Nat)} (h : Configured w w' l)
    (e : l = l') : Configured w w' l' := e ▸ h

/-- Every run of `hw_init_clock` that returns has configured the generators
as `clock_config` lists. -/
theorem configured_hw_init_clock (w w' : World) (h : hw_init_clock w = some w') :
    Configured w w' clock_config := by
  unfold hw_init_clock at h
  simp only [next_eq_some, next_rd_eq_some] at h
  obtain ⟨v, w1, h1, w2, h2, c, w3, h3, w4, h4, w5, h5, v2, w6, h6, w7, h7, w8, h8, h9⟩ := h
  have e1 : Configured w w1 [] := configured_rd (configured_refl w) h1
  have e2 : Configured w w2 [] :=
    configured_wait_flag _ _ _ w2 (configured_wr_other 32 _ _ (by decide) e1) h2
  have e3 : Configured w w3 [] := configured_rd e2 h3
  have e4 : Configured w w4 [] :=
    configured_wait_flag _ _ _ w4 (configured_wr_other 32 _ _ (by decide) e3) h4
  have g1 := configured_wr_gclk 32 (GCLK_ADDR + 0x04) ((1 <<< 16) ||| (0x06 <<< 8) ||| 0x00)
    (by decide) (configured_wr_gclk 32 (GCLK_ADDR + 0x08) ((1 <<< 8) ||| 0x00) (by decide) e4)
  have g2 := configured_wr_gclk 32 (GCLK_ADDR + 0x04) ((1 <<< 16) ||| (0x06 <<< 8) ||| 0x01)
    (by decide) (configured_wr_gclk 32 (GCLK_ADDR + 0x08) ((1 <<< 8) ||| 0x01) (by decide) g1)
  have g3 := configured_wr_gclk 32 (GCLK_ADDR + 0x04) ((0 <<< 16) ||| (0x06 <<< 8) ||| 0x02)
    (by decide) (configured_wr_gclk 32 (GCLK_ADDR + 0x08) ((1 <<< 8) ||| 0x02) (by decide) g2)
  have g4 := configured_wr_gclk 32 (GCLK_ADDR + 0x04) ((0 <<< 16) ||| (0x06 <<< 8) ||| 0x03)
    (by decide) (configured_wr_gclk 32 (GCLK_ADDR + 0x08) ((1 <<< 8) ||| 0x03) (by decide) g3)
  have g5 := configured_wr_gclk 32 (GCLK_ADDR + 0x04) ((0 <<< 16) ||| (0x06 <<< 8) ||| 0x04)
    (by decide) (configured_wr_gclk 32 (GCLK_ADDR + 0x08) ((1 <<< 8) ||| 0x04) (by decide) g4)
  have g6 := configured_wr_gclk 32 (GCLK_ADDR + 0x04) ((1 <<< 16) ||| (0x04 <<< 8) ||| 0x05)
    (by decide) (configured_wr_gclk 32 (GCLK_ADDR + 0x08) ((1 <<< 8) ||| 0x05) (by decide) g5)
  have g7 := configured_wr_gclk 32 (GCLK_ADDR + 0x04) ((0 <<< 16) ||| (0x06 <<< 8) ||| 0x06)
    (by decide) (configured_wr_gclk 32 (GCLK_ADDR + 0x08) ((1 <<< 8) ||| 0x06) (by decide) g6)
  have g8 := configured_wr_gclk 32 (GCLK_ADDR + 0x04) ((1 <<< 16) ||| (0x07 <<< 8) ||| 0x07)
    (by decide) (configured_wr_gclk 32 (GCLK_ADDR + 0x08) ((1 <<< 8) ||| 0x07) (by decide) g7)
  have g9 := configured_wr_gclk 32 (GCLK_ADDR + 0x04) ((0 <<< 16) ||| (0x06 <<< 8) ||| 0x08)
    (by decide) (configured_wr_gclk 32 (GCLK_ADDR + 0x08) ((1 <<< 8) ||| 0x08) (by decide) g8)
  have e5 := configured_wait_flag _ _ _ w5
    (configured_wr_other 16 (SYSCTRL_ADDR + 0x24) (1 <<< 1) (by decide) g9) h5
  have e6 := configured_rd
    (configured_wr_other 16 (SYSCTRL_ADDR + 0x24)
      ((1 <<< 10) ||| (1 <<< 9) ||| (1 <<< 5) ||| (1 <<< 2) ||| (1 <<< 1)) (by decide)
      (configured_wr_other 32 (SYSCTRL_ADDR + 0x28) _ (by decide)
        (configured_wr_other 32 (SYSCTRL_ADDR + 0x2c) ((1 <<< 20) ||| (1 <<< 16) ||| 0xBB80)
          (by decide) e5))) h6
  have e7 : ∀ l, Configured w w6 l → Configured w w7 l := by
    intro l e
    split at h7
    · exact configured_wait_mask _ _ _ w7 e h7
    · exact configured_wait_flag _ _ _ w7 e h7
  have e8 := configured_wait_sync _ _ w8 (e7 _ e6) h8
  have e9 := configured_wr_gclk 32 (GCLK_ADDR + 0x04) ((1 <<< 16) ||| (0x07 <<< 8) ||| 0x00)
    (by decide) (configured_wr_gclk 32 (GCLK_ADDR + 0x08) ((1 <<< 8) ||| 0x00) (by decide)
      (configured_wr_other 32 (NVM_ADDR + 0x04) (1 <<< 1) (by decide) e8))
  simp only [Option.some.injEq] at h9
  rw [← h9]
  exact configured_congr e9 (by decide)

theorem configured_trans {w0 w1 w2 : World} {l1 l2 : List (Nat × Nat)}
    (h1 : Configured w0 w1 l1) (h2 : Configured w1 w2 l2) : Configured w0 w2 (l1 ++ l2) := by
  obtain ⟨e1, t1, g1⟩ := h1
  obtain ⟨e2, t2, g2⟩ := h2
  refine ⟨e1 ++ e2, ?_, ?_⟩
  · rw [t2, t1, List.append_assoc]
  · rw [gclk_writes_append, g1, g2]

/-- The only clock configuration write of `spi_init` selects generator 1 for
the core clock of SERCOM0. -/
theorem gclk_writes_spi_init_trace (v0 k : Nat) :
    gclk_writes (spi_init_trace v0 k) = [(GCLK_ADDR + 0x02, 0x4114)] := by
  have hr : gclk_writes (List.replicate k (Event.read 32 (SPI_DISP + 0x00) 1)) = [] := by
    induction k with
    | zero => rfl
    | succ n ih =>
      rw [List.replicate_succ]
      exact ih
  unfold spi_init_trace
  rw [gclk_writes_append, gclk_writes_append, hr]
  simp [gclk_writes, gclk_cfg, gclk_reg, GCLK_ADDR, PM_ADDR, SPI_DISP, SERCOM0_ADDR]

/-- Every run of `spi_init` that returns has selected generator 1 and left 8
in BAUD. -/
theorem configured_spi_init (w w' : World) (h : spi_init w = some w') :
    Configured w w' [(GCLK_ADDR + 0x02, 0x4114)] ∧ stored w'.regs (SPI_DISP + 0x0C) = 8 := by
  obtain ⟨busy, s, -, -, -, ht, -⟩ := spi_init_some w w' h
  refine ⟨⟨_, ht, gclk_writes_spi_init_trace _ _⟩, ?_⟩
  rw [spi_init_eq, next_eq_some] at h
  obtain ⟨w2, -, h2⟩ := h
  cases h2
  simp [stored, SPI_DISP, SERCOM0_ADDR]

theorem spi_disp_hz_clock_config (regs : List (Nat × Nat))
    (h : stored regs (SPI_DISP + 0x0C) = 8) :
    spi_disp_hz (clock_config ++ [(GCLK_ADDR + 0x02, 0x4114)]) regs = some 444444 := by
  have h1 : clk_ctrl (clock_config ++ [(GCLK_ADDR + 0x02, 0x4114)]) 0x14 = some 0x4114 := by
    decide
  have h2 : clkctrl_gen 0x4114 = some 1 := by decide
  have h3 : gen_ctrl (clock_config ++ [(GCLK_ADDR + 0x02, 0x4114)]) 1 = some 0x10601 := by
    decide
  have h4 : gen_div (clock_config ++ [(GCLK_ADDR + 0x02, 0x4114)]) 1 = some 0x101 := by
    decide
  unfold spi_disp_hz
  rw [h1]
  simp only [h2, h3, h4, h]
  decide

theorem status_wr {s g : Nat} {p : List Nat} {w : World} (width reg v : Nat)
    (h1 : reg ≠ SYSCTRL_ADDR + 0x0C) (h2 : reg ≠ GCLK_ADDR + 0x01)
    (h : clock_status s g p w) : clock_status s g p (hw_write width reg v w) := by
  unfold clock_status
  simp only [hw_write, stored, if_neg h1, if_neg h2]
  exact h

theorem hw_read_plain (width reg : Nat) (w : World) (h1 : is_intflag reg = false)
    (h2 : is_ctrla reg = false) :
    hw_read width reg w =
      some (stored w.regs reg % 2 ^ width,
        ⟨w.regs, w.polls, w.trace ++ [Event.read width reg (stored w.regs reg % 2 ^ width)]⟩) := by
  simp [hw_read, h1, h2, log_read]

theorem returns_rd (s g : Nat) (p : List Nat) (Q : World → Prop) (reg : Nat) (w : World)
    (k : Nat → World → Option World)
    (h1 : is_intflag reg = false) (h2 : is_ctrla reg = false) (hi : clock_status s g p w)
    (hk : ∀ v w1, clock_status s g p w1 → ∃ w', k v w1 = some w' ∧ Q w') :
    ∃ w', next_rd (reg_rd reg w) k = some w' ∧ Q w' := by
  rw [reg_rd, hw_read_plain 32 reg w h1 h2]
  exact hk _ _ hi

theorem returns_wait_flag (s g : Nat) (p : List Nat) (Q : World → Prop) (mask n : Nat)
    (w : World) (k : World → Option World)
    (hm : s % 2 ^ 32 &&& mask ≠ 0) (hi : clock_status s g p w)
    (hk : ∀ w1, clock_status s g p w1 → ∃ w', k w1 = some w' ∧ Q w') :
    ∃ w', next (hw_wait_flag mask (n + 1) w) k = some w' ∧ Q w' := by
  rw [hw_wait_flag, reg_rd, hw_read_plain 32 _ w (by decide) (by decide), hi.1]
  simp only [if_neg hm]
  exact hk _ hi

theorem returns_wait_mask (s g : Nat) (p : List Nat) (Q : World → Prop) (mask n : Nat)
    (w : World) (k : World → Option World)
    (hm : s % 2 ^ 32 &&& mask = mask) (hi : clock_status s g p w)
    (hk : ∀ w1, clock_status s g p w1 → ∃ w', k w1 = some w' ∧ Q w') :
    ∃ w', next (hw_wait_mask mask (n + 1) w) k = some w' ∧ Q w' := by
  rw [hw_wait_mask, reg_rd, hw_read_plain 32 _ w (by decide) (by decide), hi.1]
  simp only [hm, ne_eq, not_true_eq_false, if_false]
  exact hk _ hi

theorem returns_wait_sync (s g : Nat) (p : List Nat) (Q : World → Prop) (n : Nat)
    (w : World) (k : World → Option World)
    (hm : g % 2 ^ 8 &&& 0x80 = 0) (hi : clock_status s g p w)
    (hk : ∀ w1, clock_status s g p w1 → ∃ w', k w1 = some w' ∧ Q w') :
    ∃ w', next (hw_wait_sync (n + 1) w) k = some w' ∧ Q w' := by
  rw [hw_wait_sync, reg8_rd, hw_read_plain 8 _ w (by decide) (by decide), hi.2.1]
  simp only [hm, ne_eq, not_true_eq_false, if_false]
  exact hk _ hi

/-- The bring-up of the clock tree returns when the oscillators report ready
(PCLKSR has 0x04, 0x08 and 0x10 set) and the clock controller is not busy
synchronising; it consumes no sample of the serial peripherals. -/
theorem hw_init_clock_returns (w : World) (s g : Nat) (p : List Nat)
    (hi : clock_status s g p w)
    (h8 : s % 2 ^ 32 &&& 0x08 ≠ 0) (h4 : s % 2 ^ 32 &&& 0x04 ≠ 0)
    (h16 : s % 2 ^ 32 &&& 0x10 = 0x10) (hg : g % 2 ^ 8 &&& 0x80 = 0) :
    ∃ w', hw_init_clock w = some w' ∧ w'.polls = p := by
  have h16' : s % 2 ^ 32 &&& 0x10 ≠ 0 := by rw [h16]; decide
  unfold hw_init_clock
  refine returns_rd s g p _ _ w _ (by decide) (by decide) hi ?_
  intro v w1 i1
  dsimp only
  refine returns_wait_flag s g p _ _ _ _ _ h8 (status_wr _ _ _ (by decide) (by decide) i1) ?_
  intro w2 i2
  refine returns_rd s g p _ _ w2 _ (by decide) (by decide) i2 ?_
  intro c w3 i3
  dsimp only
  refine returns_wait_flag s g p _ _ _ _ _ h4 (status_wr _ _ _ (by decide) (by decide) i3) ?_
  intro w4 i4
  dsimp only
  refine returns_wait_flag s g p _ _ _ _ _ h16' i4 ?_
  intro w5 i5
  dsimp only
  refine returns_rd s g p _ _ _ _ (by decide) (by decide) i5 ?_
  intro v2 w6 i6
  have hk : ∀ w7, clock_status s g p w7 →
      ∃ w', next (hw_wait_sync (w7.polls.length + 1) w7) (fun w =>
        some (reg_wr (GCLK_ADDR + 0x04) ((1 <<< 16) ||| (0x07 <<< 8) ||| 0x00)
          (reg_wr (GCLK_ADDR + 0x08) ((1 <<< 8) ||| 0x00)
            (reg_wr (NVM_ADDR + 0x04) (1 <<< 1) w)))) = some w' ∧ w'.polls = p := by
    intro w7 i7
    exact returns_wait_sync s g p _ _ _ _ hg i7 (fun w8 i8 => ⟨_, rfl, i8.2.2⟩)
  split
  · exact returns_wait_mask s g p _ _ _ _ _ h16 i6 hk
  · exact returns_wait_flag s g p _ _ _ _ _ h16' i6 hk

/-- C11: after `hw_init_clock` and `spi_init`, whenever both return, BAUD of
the display transport holds 8, the core clock of SERCOM0 (CLKCTRL identifier
0x14) is enabled on generator 1, and generator 1 is enabled on the 8 MHz
oscillator with no division, so the reference is 8000000 Hz and the SPI clock
`f_ref / (2 * (BAUD + 1))` is 444444 Hz, not more than 10000000 Hz; the
divisor 8 stays within 10 MHz for every reference up to 180 MHz; and both
calls do return when the oscillators report ready and the software reset of
the peripheral ends. -/
theorem spi_clock_within_limit :
    (∀ w w1 w2, hw_init_clock w = some w1 → spi_init w1 = some w2 →
      stored w2.regs (SPI_DISP + 0x0C) = 8 ∧
      ∃ l, Configured w w2 l ∧ clk_ctrl l 0x14 = some 0x4114 ∧
        gen_ctrl l 1 = some 0x10601 ∧ gen_div l 1 = some 0x101 ∧
        spi_disp_hz l w2.regs = some (sercom_spi_hz 8000000 8)) ∧
    (clkctrl_gen 0x4114 = some 1 ∧ generator_hz 0x10601 0x101 = 8000000 ∧
      sercom_spi_hz 8000000 8 = 444444 ∧ sercom_spi_hz 8000000 8 ≤ 10000000) ∧
    (∀ f_ref, f_ref ≤ 180000000 → sercom_spi_hz f_ref 8 ≤ 10000000) ∧
    (∀ w s g busy p rest, clock_status s g (busy ++ p :: rest) w →
      s % 2 ^ 32 &&& 0x08 ≠ 0 → s % 2 ^ 32 &&& 0x04 ≠ 0 → s % 2 ^ 32 &&& 0x10 = 0x10 →
      g % 2 ^ 8 &&& 0x80 = 0 → (∀ b ∈ busy, b % 2 = 1) → p % 2 = 0 →
      ∃ w1 w2, hw_init_clock w = some w1 ∧ spi_init w1 = some w2 ∧ w2.polls = rest) := by
  refine ⟨?_, by decide, ?_, ?_⟩
  · intro w w1 w2 h1 h2
    obtain ⟨c2, hb⟩ := configured_spi_init w1 w2 h2
    refine ⟨hb, clock_config ++ [(GCLK_ADDR + 0x02, 0x4114)],
      configured_trans (configured_hw_init_clock w w1 h1) c2, by decide, by decide, by decide, ?_⟩
    rw [spi_disp_hz_clock_config _ hb]
    decide
  · intro f_ref h
    unfold sercom_spi_hz
    omega
  · intro w s g busy p rest hi h8 h4 h16 hg hb hp
    obtain ⟨w1, e1, p1⟩ := hw_init_clock_returns w s g _ hi h8 h4 h16 hg
    obtain ⟨w2, e2, p2, -, -⟩ := spi_init_ready w1 busy p rest p1 hb hp
    exact ⟨w1, w2, e1, e2, p2⟩

/-- C11 on a machine whose oscillators are ready (PCLKSR = 0x1C) and whose
SERCOM0 ends its software reset at the second poll. -/
theorem spi_clock_within_limit_witness :
    ∃ w1 w2, hw_init_clock ⟨[(SYSCTRL_ADDR + 0x0C, 0x1C)], [1, 0], []⟩ = some w1 ∧
      spi_init w1 = some w2 ∧ stored w2.regs (SPI_DISP + 0x0C) = 8 ∧
      ∃ l, Configured ⟨[(SYSCTRL_ADDR + 0x0C, 0x1C)], [1, 0], []⟩ w2 l ∧
        spi_disp_hz l w2.regs = some 444444 := by
  obtain ⟨w1, w2, h1, h2, -⟩ := spi_clock_within_limit.2.2.2
    ⟨[(SYSCTRL_ADDR + 0x0C, 0x1C)], [1, 0], []⟩ 0x1C 0 [1] 0 []
    ⟨by decide, by decide, rfl⟩ (by decide) (by decide) (by decide) (by decide) (by decide)
    (by decide)
  obtain ⟨hb, l, hc, -, -, -, hz⟩ := spi_clock_within_limit.1 _ w1 w2 h1 h2
  exact ⟨w1, w2, h1, h2, hb, l, hc, hz⟩

end Cowdin
